import Mathlib

/-!
# Pixels: a shallow embedding of `src/Pixels.cpp`

The rendering engine of the Pixels graphics library, translated function by
function.  Conventions of the embedding:

* `uint8_t` and `uint16_t` values are natural numbers, reduced `% 256` and
  `% 65536` at every place where the C++ code stores into such a type;
* `int16_t` values are integers, reduced by `wrap16` wherever the C++ code
  stores into an `int16_t`; `int32_t` values are reduced by `wrap32`;
* `Pixels.cpp` leaves the width of `int` and the format of `double` to the
  board.  The canvas state carries both (`intWidth`: 16 bits on the 8-bit AVR
  boards, 32 bits on the 32-bit boards; `doubleFormat`: binary32 or binary64),
  so that a statement about every state is a statement about every board;
* an `int` expression that is stored straight into an `int16_t` or a `uint8_t`
  is reduced once, by the store.  These `int` values, which are divided,
  reduced modulo, compared or widened, are reduced by `wrapInt`: the converted
  sum of `computeColor`, the product `background * opacity` of the opacity
  blend, the sum `y + deviceHeight + currentScroll` of `drawPixel`, the squares
  and their sum in `fillCircle`, the difference `deviceHeight - currentScroll`
  of `scroll`, the products `h * ry`, `i * ry`, `h * rx`, `i * rx` of the ovals
  and the product `i * 8` of the uncompressed glyphs;
* a colour passed as an `int` (to `fill` and `quickFill`) is recorded by its
  16-bit code `0..65535`;
* `double` values are rationals.  In `computeColor` every `double` operation
  is rounded to the board's format (`fl`: to nearest, ties to even, one
  rounding per operation); the gradient arithmetic of the antialiased line is
  kept exact;
* the device surface (`chipSelect`, `setRegion`, `deviceWriteData`,
  `quickFill`, ...) is not part of `Pixels.cpp`; a call to it is recorded as a
  `DevOp` in the list of device operations that a drawing function returns.
-/

namespace Pixels

/-! ## Machine integers -/

/-- Conversion of an integer to `int16_t` (two's complement wrap). -/
def wrap16 (v : Int) : Int := (v + 32768) % 65536 - 32768

/-- Conversion of an integer to `int32_t` (two's complement wrap). -/
def wrap32 (v : Int) : Int := (v + 2147483648) % 4294967296 - 2147483648

/-- Conversion of an integer to `uint8_t`. -/
def toU8 (v : Int) : Nat := (v % 256).toNat

/-- The width of the C type `int`, which `Pixels.cpp` leaves to the board: 16
bits on the 8-bit AVR Arduino boards, 32 bits on the 32-bit boards. -/
inductive IntWidth where
  | w16
  | w32
deriving DecidableEq, Repr

/-- The constant `INT_MAX` of the board. -/
def IntWidth.intMax : IntWidth → Int
  | IntWidth.w16 => 32767
  | IntWidth.w32 => 2147483647

/-- Conversion of an integer to `int` (two's complement wrap at the board's
width). -/
def wrapInt (w : IntWidth) (v : Int) : Int :=
  match w with
  | IntWidth.w16 => wrap16 v
  | IntWidth.w32 => wrap32 v

/-! ## Floating point -/

/-- The format of the C type `double`, which `Pixels.cpp` leaves to the board:
IEEE binary32 on the 8-bit AVR boards (where `double` is `float`), IEEE
binary64 on the 32-bit boards. -/
inductive FloatFormat where
  | binary32
  | binary64
deriving DecidableEq, Repr

/-- The number of significand bits of the format. -/
def FloatFormat.prec : FloatFormat → Nat
  | FloatFormat.binary32 => 24
  | FloatFormat.binary64 => 53

/-- The exponent of the smallest normal number of the format. -/
def FloatFormat.emin : FloatFormat → Int
  | FloatFormat.binary32 => -126
  | FloatFormat.binary64 => -1022

/-- Rounding of a rational to the nearest integer, a tie going to the even
one. -/
def roundEven (q : ℚ) : Int :=
  if q - ⌊q⌋ < 1 / 2 then ⌊q⌋
  else if 1 / 2 < q - ⌊q⌋ then ⌊q⌋ + 1
  else if ⌊q⌋ % 2 = 0 then ⌊q⌋ else ⌊q⌋ + 1

/-- The spacing of the numbers of the format around `q ≠ 0`: `2 ^ (e - (p-1))`
for the binary exponent `e = ⌊log₂ |q|⌋`, which is not taken below `emin` (the
subnormal range has the spacing of the smallest normal numbers). -/
def FloatFormat.ulp (f : FloatFormat) (q : ℚ) : ℚ :=
  (2 : ℚ) ^ (max (Int.log 2 |q|) f.emin - ((f.prec : Int) - 1))

/-- The result of one `double` operation whose exact value is `q`: the number
of the format nearest to `q`, ties to even.  The values that occur in
`computeColor` are below 512, far from the overflow threshold. -/
def fl (f : FloatFormat) (q : ℚ) : ℚ :=
  if q = 0 then 0 else (roundEven (q / f.ulp q) : ℚ) * f.ulp q

/-! ## Colour model (`Pixels.cpp` lines 19-41) -/

/-- The class `RGB`: three `uint8_t` channels. -/
structure RGB where
  red : Nat
  green : Nat
  blue : Nat
deriving DecidableEq, Repr

namespace RGB

/-- The channels of a colour are `uint8_t` values. -/
def WF (c : RGB) : Prop := c.red < 256 ∧ c.green < 256 ∧ c.blue < 256

instance (c : RGB) : Decidable c.WF := by unfold WF; infer_instance

/-- The constructor `RGB::RGB(uint8_t r, uint8_t g, uint8_t b)`: the arguments
are converted to `uint8_t`. -/
def ctor (r g b : Int) : RGB := ⟨toU8 r, toU8 g, toU8 b⟩

/-- The function `RGB::convert565toRGB(uint16_t color)`. -/
def convert565toRGB (color : Nat) : RGB :=
  let r := ((0xf800 &&& color) >>> 11) * 255 / 31 % 256
  let g := ((0x7e0 &&& color) >>> 5) * 255 / 63 % 256
  let b := (0x1f &&& color) * 255 / 31 % 256
  ⟨r, g, b⟩

/-- The function `RGB::convertRGBto565(RGB color)`, returning `uint16_t`. -/
def convertRGBto565 (color : RGB) : Nat :=
  (((color.red / 8) <<< 11) ||| ((color.green / 4) <<< 5) ||| (color.blue / 8)) % 65536

/-- The method `RGB::convertTo565()`, returning `uint16_t`. -/
def convertTo565 (c : RGB) : Nat :=
  (((c.red / 8) <<< 11) ||| ((c.green / 4) <<< 5) ||| (c.blue / 8)) % 65536

end RGB

/-! ## Device surface and canvas state -/

/-- A call to the device surface.  These functions are declared by the
hardware-specific subclass and are not defined in `Pixels.cpp`; the embedding
records each call with its arguments. -/
inductive DevOp where
  | chipSelect
  | chipDeselect
  | setRegion (x1 y1 x2 y2 : Int)
  | deviceWriteData (hi lo : Nat)
  | quickFill (color x1 y1 x2 y2 : Int)
  | scrollCmd
  | delay (ms : Int)
deriving DecidableEq, Repr

/-- The four values that `setOrientation` leaves in `orientation`. -/
inductive Orientation where
  | PORTRAIT
  | LANDSCAPE
  | PORTRAIT_FLIP
  | LANDSCAPE_FLIP
deriving DecidableEq, Repr

/-- Program memory as seen through a font pointer: the byte stored at each
offset from the pointer (`pgm_read_byte_near(font + i)`). -/
abbrev Font := Int → Nat

/-- The member variables of `PixelsBase` used by the functions below.
`lineWidth` is a `double`; `currentFont` is `none` for the `NULL` pointer.  The
last two fields are not members: they are the width of `int` and the format of
`double` on the board that runs the code. -/
structure PixelsBase where
  deviceWidth : Int
  deviceHeight : Int
  width : Int
  height : Int
  orientation : Orientation
  landscape : Bool
  relativeOrigin : Bool
  currentScroll : Int
  flipScroll : Int
  scrollCleanMode : Bool
  scrollSupported : Bool
  scrollEnabled : Bool
  foreground : RGB
  background : RGB
  lineWidth : ℚ := 1
  antialiasing : Bool := false
  currentFont : Option Font := none
  intWidth : IntWidth := IntWidth.w16
  doubleFormat : FloatFormat := FloatFormat.binary32

/-- The range of `int16_t`. -/
def I16 (v : Int) : Prop := -32768 ≤ v ∧ v ≤ 32767

instance (v : Int) : Decidable (I16 v) := by unfold I16; infer_instance

/-- Modelled from the spec: `quickFill` is a device-surface function that is not
defined in `Pixels.cpp`; it is the "addressed rectangular write" of section 4.2,
painting every pixel of the window with corners `(x1,y1)` and `(x2,y2)`, both
inclusive.  No other device operation recorded by `fill` paints. -/
def DevOp.paints (op : DevOp) (px py : Int) : Prop :=
  match op with
  | .quickFill _ x1 y1 x2 y2 => x1 ≤ px ∧ px ≤ x2 ∧ y1 ≤ py ∧ py ≤ y2
  | _ => False

instance (op : DevOp) (px py : Int) : Decidable (op.paints px py) := by
  unfold DevOp.paints; cases op <;> infer_instance

/-- The pixels painted by a list of device operations. -/
def painted (ops : List DevOp) (px py : Int) : Prop := ∃ op ∈ ops, op.paints px py

instance (ops : List DevOp) (px py : Int) : Decidable (painted ops px py) := by
  unfold painted; infer_instance

/-! ## Blending (`Pixels.cpp` lines 1274-1305) -/

/-- The conversion `(int)` applied to a `double`: truncation toward zero. -/
def truncToInt (q : ℚ) : Int := if 0 ≤ q then ⌊q⌋ else ⌈q⌉

/-- The `double` expression `b * (1 - alpha) + g * alpha` of lines 1282-1284
for the channel values `b` and `g` (converted exactly): the subtraction, the two
products and the sum are each rounded to the format. -/
def blendSum (f : FloatFormat) (b g : Nat) (alpha : ℚ) : ℚ :=
  fl f (fl f ((b : ℚ) * fl f (1 - alpha)) + fl f ((g : ℚ) * alpha))

/-- A bound on the rounding error that the four operations of `blendSum`
accumulate on 8-bit channel values: `2 ^ (11 - p)` for a format of `p`
significand bits, that is `2 ^ (-13)` for binary32 and `2 ^ (-42)` for
binary64. -/
def FloatFormat.blendSlack (f : FloatFormat) : ℚ := (2 : ℚ) ^ ((11 : Int) - (f.prec : Int))

/-- The function `PixelsBase::computeColor(RGB bg, double alpha)`; `alpha` is the
value of a `double`. -/
def computeColor (st : PixelsBase) (bg : RGB) (alpha : ℚ) : RGB :=
  if alpha < 0 then bg
  else
    let alpha := if alpha > 1 then 1 else alpha
    let sr := wrap16 (wrapInt st.intWidth (truncToInt
      (blendSum st.doubleFormat bg.red st.foreground.red alpha)))
    let sg := wrap16 (wrapInt st.intWidth (truncToInt
      (blendSum st.doubleFormat bg.green st.foreground.green alpha)))
    let sb := wrap16 (wrapInt st.intWidth (truncToInt
      (blendSum st.doubleFormat bg.blue st.foreground.blue alpha)))
    RGB.ctor sr sg sb

/-- One channel of `PixelsBase::computeColor(RGB fg, uint8_t opacity)`: the
weighted sum, the division by 200 and the clamp.  Only the first product is
cast to `int32_t` (line 1289); `background * opacity` is a product of two
promoted `uint8_t` values, computed in `int` and then widened for the sum. -/
def opacityChannel (w : IntWidth) (fg bg opacity : Nat) : Int :=
  let s := wrap32 (wrap32 ((fg : Int) * (255 - (opacity : Int))) +
    wrapInt w ((bg : Int) * (opacity : Int)))
  let s := wrap32 (s.tdiv 200)
  if s > 255 then 255 else s

/-- The function `PixelsBase::computeColor(RGB fg, uint8_t opacity)` (the second
overload of `computeColor`). -/
def computeColorOpacity (st : PixelsBase) (fg : RGB) (opacity : Nat) : RGB :=
  RGB.ctor (opacityChannel st.intWidth fg.red st.background.red opacity)
    (opacityChannel st.intWidth fg.green st.background.green opacity)
    (opacityChannel st.intWidth fg.blue st.background.blue opacity)

/-! ## Low level drawing (`Pixels.cpp` lines 1410-1573) -/

/-- The Arduino macro `highByte(w)`, that is `(uint8_t)((w) >> 8)`. -/
def highByte (w : Int) : Nat := toU8 (w >>> (8 : Nat))

/-- The Arduino macro `lowByte(w)`, that is `(uint8_t)((w) & 0xff)`; the low
eight bits of a two's complement value are its residue modulo 256. -/
def lowByte (w : Int) : Nat := toU8 (w % 256)

/-- The function `PixelsBase::setCurrentPixel(RGB color)`. -/
def setCurrentPixel (color : RGB) : List DevOp :=
  let c := wrap16 (color.convertTo565 : Int)
  [DevOp.deviceWriteData (highByte c) (lowByte c)]

/-- The last four statements of `drawPixel`: select, 1x1 window, pixel word,
deselect. -/
def writePixel (st : PixelsBase) (x y : Int) : List DevOp :=
  [DevOp.chipSelect, DevOp.setRegion x y x y] ++ setCurrentPixel st.foreground ++
    [DevOp.chipDeselect]

/-- The function `PixelsBase::drawPixel(int16_t x, int16_t y)`. -/
def drawPixel (st : PixelsBase) (x y : Int) : List DevOp :=
  if x < 0 ∨ y < 0 ∨ x ≥ st.width ∨ y ≥ st.height then []
  else if st.relativeOrigin then
    if st.currentScroll ≠ 0 then
      if st.landscape then
        let edge := st.currentScroll
        if (st.scrollCleanMode = false ∧ x = edge) ∨ x > edge then []
        else writePixel st x y
      else
        let edge := st.currentScroll
        if (st.scrollCleanMode = false ∧ y = edge) ∨ y > edge then []
        else writePixel st x y
    else writePixel st x y
  else
    if st.landscape then
      writePixel st
        (wrap16 ((wrapInt st.intWidth (x + st.deviceHeight + st.currentScroll)).tmod
          st.deviceHeight)) y
    else
      writePixel st x
        (wrap16 ((wrapInt st.intWidth (y + st.deviceHeight + st.currentScroll)).tmod
          st.deviceHeight))

/-- The part of `PixelsBase::fill` after the two `swap`s: here `x1 ≤ x2` and
`y1 ≤ y2` have been established by the caller. -/
def fillOrdered (st : PixelsBase) (color : Int) (x1 y1 x2 y2 : Int) : List DevOp :=
  if x1 ≥ st.width then []
  else if y1 ≥ st.height then []
  else if x1 < 0 ∧ x2 < 0 then []
  else
    let x1 := if x1 < 0 then 0 else x1
    if y1 < 0 ∧ y2 < 0 then []
    else
      let y1 := if y1 < 0 then 0 else y1
      if st.relativeOrigin = true ∨ st.currentScroll = 0 then
        if st.currentScroll ≠ 0 then
          if st.landscape then
            let edge := st.currentScroll
            if x2 ≥ edge ∧ x1 ≥ edge then []
            else
              let x2 := if x2 ≥ edge then wrap16 (edge - 1) else x2
              let y2 := if y2 ≥ st.height then wrap16 (st.height - 1) else y2
              [DevOp.quickFill color x1 y1 x2 y2]
          else
            let edge := st.currentScroll
            if y2 ≥ edge ∧ y1 ≥ edge then []
            else
              let y2 := if y2 ≥ edge then wrap16 (edge - 1) else y2
              let x2 := if x2 ≥ st.width then wrap16 (st.width - 1) else x2
              [DevOp.quickFill color x1 y1 x2 y2]
        else
          let x2 := if x2 ≥ st.width then wrap16 (st.width - 1) else x2
          let y2 := if y2 ≥ st.height then wrap16 (st.height - 1) else y2
          [DevOp.quickFill color x1 y1 x2 y2]
      else
        let x2 := if x2 ≥ st.width then wrap16 (st.width - 1) else x2
        let y2 := if y2 ≥ st.height then wrap16 (st.height - 1) else y2
        if st.currentScroll ≠ 0 then
          match st.orientation with
          | Orientation.PORTRAIT | Orientation.PORTRAIT_FLIP =>
            let y1 := wrap16 (y1 + st.currentScroll)
            let y2 := wrap16 (y2 + st.currentScroll)
            let y1 := wrap16 (y1.tmod st.deviceHeight)
            let y2 := wrap16 (y2.tmod st.deviceHeight)
            if y1 > y2 then
              [DevOp.quickFill color x1 y1 x2 (st.deviceHeight - 1),
               DevOp.quickFill color x1 0 x2 y2]
            else [DevOp.quickFill color x1 y1 x2 y2]
          | Orientation.LANDSCAPE | Orientation.LANDSCAPE_FLIP =>
            let x1 := wrap16 (x1 + st.currentScroll)
            let x2 := wrap16 (x2 + st.currentScroll)
            let x1 := wrap16 (x1.tmod st.deviceHeight)
            let x2 := wrap16 (x2.tmod st.deviceHeight)
            if x1 > x2 then
              [DevOp.quickFill color x1 y1 (st.deviceHeight - 1) y2,
               DevOp.quickFill color 0 y1 x2 y2]
            else [DevOp.quickFill color x1 y1 x2 y2]
        else [DevOp.quickFill color x1 y1 x2 y2]

/-- The function `PixelsBase::fill(int color, int16_t x1, int16_t y1, int16_t x2,
int16_t y2)`: the two `swap`s, then the rest of the body. -/
def fill (st : PixelsBase) (color : Int) (x1 y1 x2 y2 : Int) : List DevOp :=
  fillOrdered st color (if x2 < x1 then x2 else x1) (if y2 < y1 then y2 else y1)
    (if x2 < x1 then x1 else x2) (if y2 < y1 then y1 else y2)

/-- The function `PixelsBase::fillRectangle(int16_t x, int16_t y, int16_t width,
int16_t height)`; the corner sums are converted to the `int16_t` parameters of
`fill`. -/
def fillRectangle (st : PixelsBase) (x y width height : Int) : List DevOp :=
  fill st (st.foreground.convertTo565 : Int) x y (wrap16 (x + width - 1))
    (wrap16 (y + height - 1))

/-- A portrait canvas of 10 by 20 pixels in its initial state, as the
constructor leaves it, used for concrete evaluations. -/
def demoCanvas : PixelsBase where
  deviceWidth := 10
  deviceHeight := 20
  width := 10
  height := 20
  orientation := Orientation.PORTRAIT
  landscape := false
  relativeOrigin := true
  currentScroll := 0
  flipScroll := 0
  scrollCleanMode := false
  scrollSupported := true
  scrollEnabled := true
  foreground := ⟨255, 255, 255⟩
  background := ⟨0, 0, 0⟩

/-- A portrait canvas of 10 by 20000 pixels in wrap mode, scrolled by 19999
rows. -/
def tallCanvas : PixelsBase :=
  { demoCanvas with
    deviceHeight := 20000
    height := 20000
    relativeOrigin := false
    currentScroll := 19999 }

/-- The canvas `tallCanvas` on a board with a 32-bit `int`. -/
def tallCanvas32 : PixelsBase := { tallCanvas with intWidth := IntWidth.w32 }

/-- A portrait canvas of 10 by 16000 pixels in wrap mode, scrolled by 15999
rows, on a board with a 16-bit `int`. -/
def midCanvas : PixelsBase :=
  { demoCanvas with
    deviceHeight := 16000
    height := 16000
    relativeOrigin := false
    currentScroll := 15999
    intWidth := IntWidth.w16 }

/-- The portrait canvas of 10 by 20 pixels in wrap mode, scrolled by 15 rows. -/
def scrolledCanvas : PixelsBase :=
  { demoCanvas with
    relativeOrigin := false
    currentScroll := 15 }

/-- A landscape canvas of 20 by 10 pixels in wrap mode, scrolled by 15
columns. -/
def wideCanvas : PixelsBase :=
  { demoCanvas with
    width := 20
    height := 10
    orientation := Orientation.LANDSCAPE
    landscape := true
    relativeOrigin := false
    currentScroll := 15 }

/-- The canvas of 10 by 20 pixels with a white background, on a board whose
`int` has width `w`. -/
def whitePaper (w : IntWidth) : PixelsBase :=
  { demoCanvas with
    background := ⟨255, 255, 255⟩
    intWidth := w }

/-- The canvas of 10 by 20 pixels with the grey foreground `(g, g, g)`, on a
board whose `double` has format `f`. -/
def grayCanvas (f : FloatFormat) (g : Nat) : PixelsBase :=
  { demoCanvas with
    foreground := ⟨g, g, g⟩
    doubleFormat := f }

/-! ## Lines (`Pixels.cpp` lines 115-175 and 1555-1561) -/

/-- The function `PixelsBase::hLine(int16_t x1, int16_t y, int16_t x2)`. -/
def hLine (st : PixelsBase) (x1 y x2 : Int) : List DevOp :=
  fill st (st.foreground.convertTo565 : Int) x1 y x2 y

/-- The function `PixelsBase::vLine(int16_t x, int16_t y1, int16_t y2)`. -/
def vLine (st : PixelsBase) (x y1 y2 : Int) : List DevOp :=
  fill st (st.foreground.convertTo565 : Int) x y1 x y2

/-- The `while (true)` loop of `drawLine` (lines 153-167), started at `(x, y)`
with error term `err`: the arguments of its successive `drawPixel` calls.  All
loop variables are `int16_t`.  The result is `none` when the loop has not left
through its `break` within `fuel` iterations. -/
def bresenham (dx dy sx sy x2 y2 : Int) : Nat → Int → Int → Int → Option (List (Int × Int))
  | 0, _, _, _ => none
  | fuel + 1, x, y, err =>
    if x = x2 ∧ y = y2 then some [(x, y)]
    else
      let e2 := wrap16 (2 * err)
      let err1 := if e2 > -dy then wrap16 (err - dy) else err
      let xn := if e2 > -dy then wrap16 (x + sx) else x
      let err2 := if e2 < dx then wrap16 (err1 + dx) else err1
      let yn := if e2 < dx then wrap16 (y + sy) else y
      (bresenham dx dy sx sy x2 y2 fuel xn yn err2).map (fun l => (x, y) :: l)

/-- The `drawPixel` arguments of the integer branch of `drawLine` (lines
128-167). -/
def linePoints (fuel : Nat) (x1 y1 x2 y2 : Int) : Option (List (Int × Int)) :=
  let dx := if x2 > x1 then wrap16 (x2 - x1) else wrap16 (x1 - x2)
  let sx : Int := if x2 > x1 then 1 else -1
  let dy := if y2 > y1 then wrap16 (y2 - y1) else wrap16 (y1 - y2)
  let sy : Int := if y2 > y1 then 1 else -1
  let err := wrap16 (dx - dy)
  bresenham dx dy sx sy x2 y2 fuel x1 y1 err

/-- The function `PixelsBase::drawLine(int16_t x1, int16_t y1, int16_t x2,
int16_t y2)`.  The floating point routines `drawLineAntialiased` and
`drawFatLineAntialiased` are passed in as `aa` and `fat`. -/
def drawLine (st : PixelsBase) (aa fat : Int → Int → Int → Int → Option (List DevOp))
    (fuel : Nat) (x1 y1 x2 y2 : Int) : Option (List DevOp) :=
  if y1 = y2 ∧ st.lineWidth = 1 then some (hLine st x1 y1 x2)
  else if x1 = x2 ∧ st.lineWidth = 1 then some (vLine st x1 y1 y2)
  else if st.lineWidth = 1 then
    if st.antialiasing then aa x1 y1 x2 y2
    else
      (linePoints fuel x1 y1 x2 y2).map
        (fun pts => (pts.map (fun p => drawPixel st p.1 p.2)).flatten)
  else fat x1 y1 x2 y2

/-- The step relation between consecutive `drawPixel` calls of a line: each
coordinate changes by at most 1. -/
def Adjacent (p q : Int × Int) : Prop := |q.1 - p.1| ≤ 1 ∧ |q.2 - p.2| ≤ 1

/-! ## fillCircle (`Pixels.cpp` lines 353-370) -/

/-- The inner loop `for (xx = -r; xx <= r; xx++)` of `fillCircle`, entered with
the given `xx`, for the row `yy`: the offsets `(xx, yy)` for which `drawPixel`
is called, in order.  `xx` is an `int16_t`; the products and sums are `int`.
The result is `none` when the loop has not ended within `fuel` iterations. -/
def circleRow (w : IntWidth) (r yy : Int) : Nat → Int → Option (List (Int × Int))
  | 0, _ => none
  | fuel + 1, xx =>
    if xx ≤ r then
      (circleRow w r yy fuel (wrap16 (xx + 1))).map
        (fun l =>
          if wrapInt w (wrapInt w (xx * xx) + wrapInt w (yy * yy)) ≤ wrapInt w (r * r) then
            (xx, yy) :: l
          else l)
    else some []

/-- The outer loop `for (yy = -r; yy <= r; yy++)` of `fillCircle`, entered with
the given `yy`; `rowFuel` bounds each inner loop. -/
def circleRows (w : IntWidth) (r : Int) (rowFuel : Nat) :
    Nat → Int → Option (List (Int × Int))
  | 0, _ => none
  | fuel + 1, yy =>
    if yy ≤ r then
      (circleRow w r yy rowFuel (wrap16 (-r))).bind
        (fun row => (circleRows w r rowFuel fuel (wrap16 (yy + 1))).map (fun l => row ++ l))
    else some []

/-- The offsets `(xx, yy)` at which the two loops of `fillCircle` call
`drawPixel(x+xx, y+yy)`, in order, on a board whose `int` has width `w`. -/
def fillCircleOffsets (w : IntWidth) (fuel : Nat) (r : Int) : Option (List (Int × Int)) :=
  circleRows w r fuel fuel (wrap16 (-r))

/-- The function `PixelsBase::fillCircle(int16_t x, int16_t y, int16_t r)`.  The
floating point routine `drawCircleAntialiaced` is passed in as `aaCircle`. -/
def fillCircle (st : PixelsBase) (aaCircle : Int → Int → Int → Bool → Option (List DevOp))
    (fuel : Nat) (x y r : Int) : Option (List DevOp) :=
  (if st.antialiasing then aaCircle x y r true else some []).bind
    (fun pre => (fillCircleOffsets st.intWidth fuel r).map
      (fun offs => pre ++
        (offs.map (fun o => drawPixel st (wrap16 (x + o.1)) (wrap16 (y + o.2)))).flatten))

/-! ## drawBitmap (`Pixels.cpp` lines 620-630) -/

/-- The function `PixelsBase::setCurrentPixel(int16_t color)`. -/
def setCurrentPixel16 (color : Int) : List DevOp :=
  [DevOp.deviceWriteData (highByte color) (lowByte color)]

/-- The inner loop `for (i = 0; i < width; i++)` of `drawBitmap` with `n`
iterations left and the `int16_t` index `ptr`: the pixel writes and the final
index.  `data` is the caller's buffer of `int16_t` values; a read outside the
buffer has no defined result (`none`). -/
def bitmapRow (data : List Int) : Nat → Int → Option (List DevOp × Int)
  | 0, ptr => some ([], ptr)
  | n + 1, ptr =>
    if 0 ≤ ptr ∧ ptr < data.length then
      (bitmapRow data n (wrap16 (ptr + 1))).map
        (fun r => (setCurrentPixel16 (data.getD ptr.toNat 0) ++ r.1, r.2))
    else none

/-- The outer loop `for (j = 0; j < height; j++)` of `drawBitmap` with `m` rows
left. -/
def bitmapRows (data : List Int) (width : Nat) : Nat → Int → Option (List DevOp)
  | 0, _ => some []
  | m + 1, ptr =>
    (bitmapRow data width ptr).bind
      (fun r => (bitmapRows data width m r.2).map (fun l => r.1 ++ l))

/-- The function `PixelsBase::drawBitmap(int16_t x, int16_t y, int16_t width,
int16_t height, int16_t* data)`: the device operations and the returned status.
The loop counters `i` and `j` run from 0 while below `width` and `height`, so
they never leave the `int16_t` range and the loops make `width` and `height`
iterations (none when the bound is not positive). -/
def drawBitmap (x y width height : Int) (data : List Int) : Option (List DevOp × Int) :=
  (bitmapRows data width.toNat height.toNat 0).map
    (fun ops => (DevOp.setRegion x y (x + width) (y + height) :: ops, 0))

/-- A bitmap of 32767 by 2 pixels, all zero. -/
def bigBitmap : List Int := List.replicate 65534 0

/-! ## Scrolling (`Pixels.cpp` lines 1307-1407) -/

/-- Modelled from the spec: the numeric values of the orientation constants are
declared in `Pixels.h`, which is not part of the sources.  The code's test
`orientation > LANDSCAPE` selects, by section 4.4 of the spec ("sign flipped for
the two flip orientations"), exactly `PORTRAIT_FLIP` and `LANDSCAPE_FLIP`. -/
def Orientation.code : Orientation → Nat
  | Orientation.PORTRAIT => 0
  | Orientation.LANDSCAPE => 1
  | Orientation.PORTRAIT_FLIP => 2
  | Orientation.LANDSCAPE_FLIP => 3

/-- Modelled from the spec: `canScroll` is declared in `Pixels.h`; by section 7 a
scroll is a no-op on a canvas with scrolling disabled or unsupported. -/
def canScroll (st : PixelsBase) : Bool := st.scrollEnabled && st.scrollSupported

/-- The loop `while (currentScroll < 0) currentScroll += deviceHeight;` on the
`int16_t` scroll offset `cs`; `none` when it has not ended within `fuel`
iterations. -/
def whileNeg (deviceHeight : Int) : Nat → Int → Option Int
  | 0, _ => none
  | fuel + 1, cs =>
    if cs < 0 then whileNeg deviceHeight fuel (wrap16 (cs + deviceHeight)) else some cs

/-- The band painted by a scroll with the clean flag (lines 1379-1396), on the
state prepared for it; `dy` is the value tested by `dy < 0`. -/
def cleanBand (st : PixelsBase) (dy mdy : Int) : List DevOp :=
  match st.orientation with
  | Orientation.PORTRAIT | Orientation.PORTRAIT_FLIP =>
    if dy < 0 then fillRectangle st 0 0 st.deviceWidth mdy
    else fillRectangle st 0 (wrap16 (st.deviceHeight - mdy)) st.deviceWidth mdy
  | Orientation.LANDSCAPE | Orientation.LANDSCAPE_FLIP =>
    if dy < 0 then fillRectangle st 0 0 mdy st.deviceWidth
    else fillRectangle st (wrap16 (st.deviceHeight - mdy)) 0 mdy st.deviceWidth

/-- The `else` branch of `scroll` (lines 1345-1405): one atomic scroll by `dy`,
with `mdy` as computed at line 1317 and `clean` the outcome of the test
`(flags & SCROLL_CLEAN) > 0`.  `setColor`, `getColor` and `getBackground` write
and read the `foreground` and `background` members. -/
def scrollDirect (fuel : Nat) (st : PixelsBase) (dy mdy : Int) (clean : Bool) :
    Option (PixelsBase × List DevOp) :=
  let flip : Bool := st.orientation.code > Orientation.LANDSCAPE.code
  let dy1 := if flip then wrap16 (-dy) else dy
  (whileNeg st.deviceHeight fuel (wrap16 (st.currentScroll + dy1))).map (fun cs2 =>
    let cs3 := wrap16 (cs2.tmod st.deviceHeight)
    let fs := wrap16 ((wrapInt st.intWidth (st.deviceHeight - cs3)).tmod st.deviceHeight)
    let st1 := { st with currentScroll := cs3, flipScroll := fs }
    if clean then
      let st2 := { st1 with
        scrollCleanMode := true
        foreground := st1.background
        relativeOrigin := false }
      let st3 := if flip then { st2 with currentScroll := st2.flipScroll } else st2
      let dy2 := if flip then wrap16 (-dy1) else dy1
      ({ st3 with
          currentScroll := cs3
          relativeOrigin := st.relativeOrigin
          foreground := st.foreground
          scrollCleanMode := false },
        DevOp.scrollCmd :: cleanBand st3 dy2 mdy)
    else (st1, [DevOp.scrollCmd]))

/-- The recursive call `scroll(step, x1, x2, flags & SCROLL_CLEAN)` made by the
smooth branch, where `step` is 1 or -1: since `mdy` is then 1, the call takes
the `else` branch whatever its flags. -/
def scrollUnit (fuel : Nat) (st : PixelsBase) (step : Int) (clean : Bool) :
    Option (PixelsBase × List DevOp) :=
  if canScroll st = false then some (st, [])
  else scrollDirect fuel st step (if step > 0 then step else wrap16 (-step)) clean

/-- One `for` loop of the smooth branch: for each index `i` of the list, the
delay before (`pre i`), one unit scroll, the delay after (`post i`). -/
def scrollLoop (unit : PixelsBase → Option (PixelsBase × List DevOp))
    (pre post : Int → List DevOp) : List Int → PixelsBase → Option (PixelsBase × List DevOp)
  | [], st => some (st, [])
  | i :: rest, st =>
    (unit st).bind (fun r =>
      (scrollLoop unit pre post rest r.1).map
        (fun r2 => (r2.1, pre i ++ r.2 ++ post i ++ r2.2)))

/-- The indices `from, from+1, ..., from+n-1` of a counting `for` loop. -/
def counter (start : Int) (n : Nat) : List Int :=
  (List.range n).map (fun (k : Nat) => start + (k : Int))

/-- The function `PixelsBase::scroll(int16_t dy, int16_t x1, int16_t x2, int8_t
flags)`.  Modelled from the spec: the flag constants `SCROLL_SMOOTH` and
`SCROLL_CLEAN` are declared in `Pixels.h`; `smooth` and `clean` stand for the
outcomes of the tests `(flags & SCROLL_SMOOTH) > 0` and
`(flags & SCROLL_CLEAN) > 0` (section 4.4: a smooth-scroll flag and a clean
flag).  `delay` is recorded as a device operation. -/
def scroll (fuel : Nat) (st : PixelsBase) (dy x1 x2 : Int) (smooth clean : Bool) :
    Option (PixelsBase × List DevOp) :=
  if canScroll st = false then some (st, [])
  else
    let mdy := if dy > 0 then dy else wrap16 (-dy)
    if mdy > 1 ∧ smooth = true then
      let easingLen : Int := if mdy.tdiv 2 < 5 then mdy.tdiv 2 else 5
      let dlx : Int := if clean then 8 else 15
      let factor : Int := 3
      let step : Int := if dy < 0 then -1 else 1
      let unit := fun s => scrollUnit fuel s step clean
      (scrollLoop unit
        (fun i => [DevOp.delay (dlx + ((easingLen - i) * (easingLen - i) * factor).tdiv 2)])
        (fun _ => []) (counter 0 easingLen.toNat) st).bind (fun r1 =>
      (scrollLoop unit (fun _ => []) (fun _ => [DevOp.delay (dlx + factor)])
        (counter 0 (mdy - easingLen * 2).toNat) r1.1).bind (fun r2 =>
      (scrollLoop unit (fun _ => [])
        (fun i => [DevOp.delay (dlx + (i * i * factor).tdiv 2)])
        (counter 1 easingLen.toNat) r2.1).map (fun r3 =>
          (r3.1, r1.2 ++ r2.2 ++ r3.2))))
    else scrollDirect fuel st dy mdy clean

/-- A portrait-flip canvas of 240 by 320 pixels. -/
def flipCanvas : PixelsBase :=
  { demoCanvas with
    deviceWidth := 240
    deviceHeight := 320
    width := 240
    height := 320
    orientation := Orientation.PORTRAIT_FLIP }

/-- Following the claim's words: the sign `s` applied to `dy`, -1 for the two
flip orientations and +1 for the other two. -/
def orientSign : Orientation → Int
  | Orientation.PORTRAIT => 1
  | Orientation.LANDSCAPE => 1
  | Orientation.PORTRAIT_FLIP => -1
  | Orientation.LANDSCAPE_FLIP => -1

/-- The fields that a scroll leaves alone. -/
def ScrollFrame (st st' : PixelsBase) : Prop :=
  st'.deviceHeight = st.deviceHeight ∧ st'.deviceWidth = st.deviceWidth ∧
  st'.orientation = st.orientation ∧
  st'.scrollEnabled = st.scrollEnabled ∧ st'.scrollSupported = st.scrollSupported ∧
  st'.foreground = st.foreground ∧ st'.relativeOrigin = st.relativeOrigin

/-! ## Text (`Pixels.cpp` lines 911-1243) -/

/-- The constants `HEADER_LENGTH`, `ANTIALIASED_FONT` and `BITMASK_FONT` are
declared in `Pixels.h`, which is not part of the sources; the text functions
take them as a parameter. -/
structure FontConsts where
  HEADER_LENGTH : Int
  ANTIALIASED_FONT : Int
  BITMASK_FONT : Int

/-- The call `pgm_read_byte_near(font + i)`: one byte of program memory. -/
def pgm (font : Font) (i : Int) : Nat := font i % 256

/-- The function `PixelsBase::setFont(prog_uchar font[])`: the new state and the
returned status. -/
def setFont (k : FontConsts) (st : PixelsBase) (font : Font) : PixelsBase × Int :=
  let p1 : Int := pgm font 0
  let p2 : Int := pgm font 1
  if p1 ≠ 90 ∨ p2 ≠ 70 then ({ st with currentFont := none }, -1)
  else
    let fontType : Int := pgm font 2
    if fontType ≠ k.ANTIALIASED_FONT ∧ fontType ≠ k.BITMASK_FONT then
      ({ st with currentFont := none }, -1)
    else ({ st with currentFont := some font }, 0)

/-- The function `PixelsBase::getTextLineHeight()`. -/
def getTextLineHeight (k : FontConsts) (st : PixelsBase) : Int :=
  match st.currentFont with
  | none => 0
  | some font =>
    let fontType : Int := pgm font 2
    if fontType ≠ k.ANTIALIASED_FONT ∧ fontType ≠ k.BITMASK_FONT then 0
    else pgm font 3

/-- The function `PixelsBase::getTextBaseline()`. -/
def getTextBaseline (k : FontConsts) (st : PixelsBase) : Int :=
  match st.currentFont with
  | none => 0
  | some font =>
    let fontType : Int := pgm font 2
    if fontType ≠ k.ANTIALIASED_FONT ∧ fontType ≠ k.BITMASK_FONT then 0
    else pgm font 4

/-- The code-point of the record at `ptr` as the scans compute it:
`(char)(((int)byte0 << 8) + byte1)`, a `char` of 8 bits, given by its bit
pattern `0..255`. -/
def recordChar (font : Font) (ptr : Int) : Int :=
  (((pgm font (ptr + 0) : Int) * 256 + (pgm font (ptr + 1) : Int)) % 256 : Int)

/-- The declared length of the record at `ptr`, an `int16_t`:
`((byte2 & 0xff) << 8) + (byte3 & 0xff)`. -/
def recordLength (font : Font) (ptr : Int) : Int :=
  wrap16 (((pgm font (ptr + 2) &&& 0xff : Nat) : Int) * 256 +
    ((pgm font (ptr + 3) &&& 0xff : Nat) : Int))

/-- The advance width of the record at `ptr`: `0xff & byte4`. -/
def recordWidth (font : Font) (ptr : Int) : Int := ((0xff &&& pgm font (ptr + 4) : Nat) : Int)

/-- The kerning update made after each character (lines 1146-1151 and
1227-1232): the new `kernPtr` and `kern`.  `kerning` is `none` for `NULL`,
otherwise the `int8_t` entries of the table by index. -/
def kernStep (kerning : Option (Int → Int)) (kernPtr kern : Int) : Int × Int :=
  match kerning with
  | none => (kernPtr, kern)
  | some table =>
    if table kernPtr > -100 then
      (if table (kernPtr + 1) > -100 then wrap16 (kernPtr + 1) else kernPtr, table kernPtr)
    else (kernPtr, kern)

/-- The pen update made after each character (lines 1153-1158 and
1234-1239). -/
def penStep (found : Bool) (width kern x1 : Int) : Int :=
  if found then
    if kern > -100 then wrap16 (wrap16 (x1 + width) + kern) else wrap16 (x1 + width)
  else x1

/-- The glyph scan `while (1)` of `getTextWidth` (lines 1205-1225) for the
character `c`, entered at `ptr` with the current `found` and `width`: the final
`found` and `width`, or `none` when the scan has not ended within `fuel`
records. -/
def widthScan (font : Font) (c : Int) : Nat → Int → Bool → Int → Option (Bool × Int)
  | 0, _, _, _ => none
  | fuel + 1, ptr, found, width =>
    if recordChar font ptr = 0 then some (found, width)
    else if recordChar font ptr = c then
      if recordLength font ptr < 8 then some (found, width)
      else widthScan font c fuel (wrap16 (ptr + recordLength font ptr)) true
        (recordWidth font ptr)
    else widthScan font c fuel (wrap16 (ptr + recordLength font ptr)) found width

/-- The character loop of `getTextWidth` (lines 1199-1240).  The text is the
list of its `char` values, each given by its bit pattern `0..255`; it has fewer
than 32768 characters, so the `int16_t` counter `t` does not overflow. -/
def widthLoop (k : FontConsts) (fuel : Nat) (font : Font) (kerning : Option (Int → Int)) :
    List Int → Int → Int → Int → Option Int
  | [], _, _, x1 => some x1
  | c :: rest, kernPtr, kern, x1 =>
    (widthScan font c fuel (wrap16 k.HEADER_LENGTH) false 0).bind (fun r =>
      widthLoop k fuel font kerning rest (kernStep kerning kernPtr kern).1
        (kernStep kerning kernPtr kern).2
        (penStep r.1 r.2 (kernStep kerning kernPtr kern).2 x1))

/-- The function `PixelsBase::getTextWidth(String text, int8_t kerning[])`. -/
def getTextWidth (k : FontConsts) (fuel : Nat) (st : PixelsBase) (text : List Int)
    (kerning : Option (Int → Int)) : Option Int :=
  match st.currentFont with
  | none => some 0
  | some font => widthLoop k fuel font kerning text 0 (-100) 0

/-- The functions `setColor(RGB)` and `setColor(r, g, b)` (declared in
`Pixels.h`): they store the colour in `foreground`. -/
def setColor (st : PixelsBase) (c : RGB) : PixelsBase := { st with foreground := c }

/-- One line of a glyph run: along the column `cross` from row `a` to row `b`
for a column-major glyph (`vLine`), along the row `cross` from column `a` to
column `b` for a row-major glyph (`hLine`); the sums are converted to the
`int16_t` parameters. -/
def glyphSeg (st : PixelsBase) (vraster : Bool) (x1 yy marginLeft marginTop : Int)
    (cross a b : Int) : List DevOp :=
  if vraster then
    vLine st (wrap16 (x1 + marginLeft + cross)) (wrap16 (yy + marginTop + a))
      (wrap16 (yy + marginTop + b))
  else
    hLine st (wrap16 (x1 + marginLeft + a)) (wrap16 (yy + marginTop + cross))
      (wrap16 (x1 + marginLeft + b))

/-- The `while (y + len > effHeight) { ... }` loop of a run and the line drawn
after it (lines 1013-1019, 1050-1056, 1093-1100, 1111-1118), with `a` the
position along the raster axis of extent `ext`, `cross` the row or column
index, `len` the remaining run length.  `slack` is -1 for the antialiased
glyphs, whose lines end at `effHeight - 1` and `y + len - 1`, and 0 for the
bitmask glyphs, whose lines end at `effHeight` and `y + len`; `bump` says
whether the loop body also advances `ctr` (bitmask glyphs).  Result: the
device operations and the final `len` and `ctr`; `none` when the loop has not
ended within `fuel` iterations. -/
def drawRun (ext : Int) (seg : Int → Int → Int → List DevOp) (slack : Int) (bump : Bool) :
    Nat → Int → Int → Int → Int → Option (List DevOp × Int × Int)
  | 0, _, _, _, _ => none
  | fuel + 1, a, cross, len, ctr =>
    if a + len > ext then
      (drawRun ext seg slack bump fuel 0 (wrap16 (cross + 1)) (wrap16 (len - (ext - a)))
        (if bump then wrap16 (ctr + (ext - a)) else ctr)).map
        (fun r => (seg cross a (ext + slack) ++ r.1, r.2))
    else some (seg cross a (a + len + slack), len, ctr)

/-- The body of the payload loop of an antialiased glyph (lines 1000-1031 and
1037-1068) for the payload byte `b` at cursor `ctr`: the new state, the device
operations and the new cursor.  `ext` is `effHeight` for a column-major glyph
and `effWidth` for a row-major one; the division by `ext = 0` has no defined
result. -/
def aaByte (fuel : Nat) (vraster clean : Bool) (fg : RGB) (ext x1 yy marginLeft marginTop : Int)
    (st : PixelsBase) (b : Nat) (ctr : Int) : Option (PixelsBase × List DevOp × Int) :=
  if ext = 0 then none
  else
    let along := wrap16 (ctr.tmod ext)
    let cross := wrap16 (ctr.tdiv ext)
    if (0xc0 &&& b) > 0 then
      let len : Int := ((0x3f &&& b : Nat) : Int)
      let ctr1 := wrap16 (ctr + len)
      if (0x80 &&& b) > 0 then
        let st1 := setColor st (if clean then st.background else fg)
        (drawRun ext (glyphSeg st1 vraster x1 yy marginLeft marginTop) (-1) false fuel
          along cross len ctr1).map (fun r => (st1, r.1, ctr1))
      else some (st, [], ctr1)
    else
      let st1 := setColor st
        (if clean then st.background
          else computeColorOpacity st fg ((0xff &&& (b * 4)) % 256))
      let ops :=
        if vraster then
          drawPixel st1 (wrap16 (x1 + marginLeft + cross)) (wrap16 (yy + marginTop + along))
        else
          drawPixel st1 (wrap16 (x1 + marginLeft + along)) (wrap16 (yy + marginTop + cross))
      some (st1, ops, wrap16 (ctr + 1))

/-- The body of the payload loop of a compressed bitmask glyph (lines 1088-1102
and 1106-1120) for the payload byte `b` at cursor `ctr`. -/
def bmByte (fuel : Nat) (vraster : Bool) (ext x1 yy marginLeft marginTop : Int)
    (st : PixelsBase) (b : Nat) (ctr : Int) : Option (PixelsBase × List DevOp × Int) :=
  let len : Int := ((0x7f &&& b : Nat) : Int)
  if (0x80 &&& b) > 0 then
    if ext = 0 then none
    else
      let cross := wrap16 (ctr.tdiv ext)
      let along := wrap16 (ctr.tmod ext)
      (drawRun ext (glyphSeg st vraster x1 yy marginLeft marginTop) 0 true fuel
        along cross len ctr).map (fun r => (st, r.1, wrap16 (r.2.2 + r.2.1)))
  else some (st, [], wrap16 (ctr + len))

/-- The loop `for (j = 0; j < 8; j++)` of an uncompressed bitmask glyph (lines
1128-1137), over the remaining values of `j`, with the current `x` and `y`. -/
def maskBits (st : PixelsBase) (b : Nat) (effWidth x1 yy marginLeft marginTop : Int) :
    List Nat → Int → Int → List DevOp
  | [], _, _ => []
  | j :: rest, x, y =>
    let xn := if x + (j : Int) = effWidth then wrap16 (-(j : Int)) else x
    let yn := if x + (j : Int) = effWidth then wrap16 (y + 1) else y
    (if b &&& (1 <<< (7 - j)) = 0 then
      vLine st (wrap16 (x1 + marginLeft + xn + (j : Int))) (wrap16 (yy + marginTop + yn))
        (wrap16 (yy + marginTop + yn + 1))
    else []) ++ maskBits st b effWidth x1 yy marginLeft marginTop rest xn yn

/-- The body of the payload loop of an uncompressed bitmask glyph (lines
1125-1137) for the payload byte `b` with loop index `i`; the product `i * 8` is
an `int`, and the division by `effWidth = 0` has no defined result. -/
def rawByte (effWidth x1 yy marginLeft marginTop : Int) (st : PixelsBase) (b : Nat) (i : Int) :
    Option (PixelsBase × List DevOp × Int) :=
  if effWidth = 0 then none
  else
    some (st,
      maskBits st b effWidth x1 yy marginLeft marginTop (List.range 8)
        (wrap16 ((wrapInt st.intWidth (i * 8)).tmod effWidth))
        (wrap16 ((wrapInt st.intWidth (i * 8)).tdiv effWidth)),
      i + 1)

/-- A payload loop `for (i = 0; i < length - 8; i++)`: `step` is its body, run on
the successive payload bytes with the cursor it threads. -/
def glyphLoop (step : PixelsBase → Nat → Int → Option (PixelsBase × List DevOp × Int)) :
    List Nat → PixelsBase → Int → Option (PixelsBase × List DevOp)
  | [], st, _ => some (st, [])
  | b :: rest, st, ctr =>
    (step st b ctr).bind (fun r =>
      (glyphLoop step rest r.1 r.2.2).map (fun r2 => (r2.1, r.2.1 ++ r2.2)))

/-- The payload bytes `0xff & pgm_read_byte_near(currentFont + ptr + 8 + i)` of
the record at `ptr`, for `i = 0 .. length - 9`. -/
def payload (font : Font) (ptr length : Int) : List Nat :=
  (List.range (length - 8).toNat).map (fun (i : Nat) => 0xff &&& pgm font (ptr + 8 + (i : Int)))

/-- The value `effWidth = width - marginLeft - marginRight` of the record at
`ptr` (lines 982-987). -/
def effWidth (font : Font) (ptr : Int) : Int :=
  wrap16 (recordWidth font ptr - ((0x7f &&& pgm font (ptr + 5) : Nat) : Int) -
    ((0x7f &&& pgm font (ptr + 7) : Nat) : Int))

/-- The value `effHeight = glyphHeight - marginTop - marginBottom` of the record
at `ptr`, with `marginBottom = marginRight` (lines 996-997, 1084-1085). -/
def effHeight (font : Font) (glyphHeight ptr : Int) : Int :=
  wrap16 (glyphHeight - ((0xff &&& pgm font (ptr + 6) : Nat) : Int) -
    ((0x7f &&& pgm font (ptr + 7) : Nat) : Int))

/-- The rasterisation of the record at `ptr` divides by zero: the extent along
the raster axis (`effHeight` for a column-major glyph, `effWidth` otherwise) is
0 and the payload has a byte for which the quotient is computed, that is any
byte of an antialiased glyph (lines 1001-1002, 1038-1039) or of an uncompressed
bitmask glyph (lines 1126-1127), and a byte with the top bit set of a compressed
bitmask glyph (lines 1091-1092, 1109-1110). -/
def dividesByZero (k : FontConsts) (font : Font) (fontType glyphHeight ptr : Int) : Prop :=
  if fontType = k.ANTIALIASED_FONT then
    (if (0x80 &&& pgm font (ptr + 5)) > 0 then effHeight font glyphHeight ptr
      else effWidth font ptr) = 0 ∧ payload font ptr (recordLength font ptr) ≠ []
  else if fontType = k.BITMASK_FONT then
    if (pgm font (ptr + 7) &&& 0x80) > 0 then
      (if (pgm font (ptr + 5) &&& 0x80) > 0 then effHeight font glyphHeight ptr
        else effWidth font ptr) = 0 ∧
        ∃ b ∈ payload font ptr (recordLength font ptr), (0x80 &&& b) > 0
    else effWidth font ptr = 0 ∧ payload font ptr (recordLength font ptr) ≠ []
  else False

instance (k : FontConsts) (font : Font) (fontType glyphHeight ptr : Int) :
    Decidable (dividesByZero k font fontType glyphHeight ptr) := by
  unfold dividesByZero; infer_instance

/-- The rasterisation of the matched record at `ptr` (lines 982-1140): the new
state and the device operations, `none` when it has no defined result or does
not end within `fuel` iterations of a run loop. -/
def drawGlyph (k : FontConsts) (fuel : Nat) (font : Font) (fontType glyphHeight : Int)
    (clean : Bool) (fg : RGB) (x1 yy : Int) (st : PixelsBase) (ptr : Int) :
    Option (PixelsBase × List DevOp) :=
  let length := recordLength font ptr
  let marginLeft : Int := ((0x7f &&& pgm font (ptr + 5) : Nat) : Int)
  let marginTop : Int := ((0xff &&& pgm font (ptr + 6) : Nat) : Int)
  let effWidth := effWidth font ptr
  let effHeight := effHeight font glyphHeight ptr
  if fontType = k.ANTIALIASED_FONT then
    let vraster : Bool := (0x80 &&& pgm font (ptr + 5)) > 0
    glyphLoop
      (aaByte fuel vraster clean fg (if vraster then effHeight else effWidth) x1 yy
        marginLeft marginTop)
      (payload font ptr length) st 0
  else if fontType = k.BITMASK_FONT then
    let st1 := if clean then setColor st st.background else st
    let compressed : Bool := (pgm font (ptr + 7) &&& 0x80) > 0
    if compressed then
      let vraster : Bool := (pgm font (ptr + 5) &&& 0x80) > 0
      glyphLoop
        (bmByte fuel vraster (if vraster then effHeight else effWidth) x1 yy marginLeft
          marginTop)
        (payload font ptr length) st1 0
    else
      glyphLoop (rawByte effWidth x1 yy marginLeft marginTop) (payload font ptr length) st1 0
  else some (st, [])

/-- The glyph scan `while (1)` of `printString` (lines 966-1144) for the
character `c`, entered at `ptr`: the new state, the device operations, `found`
and `width`; `none` when the scan has not ended within `fuel` records or the
rasterisation has no result. -/
def printScan (k : FontConsts) (fuel : Nat) (font : Font) (fontType glyphHeight : Int)
    (clean : Bool) (fg : RGB) (x1 yy : Int) (st : PixelsBase) (c : Int) :
    Nat → Int → Option (PixelsBase × List DevOp × Bool × Int)
  | 0, _ => none
  | n + 1, ptr =>
    if recordChar font ptr = 0 then some (st, [], false, 0)
    else if recordChar font ptr = c then
      if recordLength font ptr < 8 then some (st, [], false, 0)
      else
        (drawGlyph k fuel font fontType glyphHeight clean fg x1 yy st ptr).map
          (fun r => (r.1, r.2, true, recordWidth font ptr))
    else
      printScan k fuel font fontType glyphHeight clean fg x1 yy st c n
        (wrap16 (ptr + recordLength font ptr))

/-- The character loop of `printString` (lines 960-1159): the state, the device
operations and the final pen position `x1`. -/
def printLoop (k : FontConsts) (fuel : Nat) (font : Font) (fontType glyphHeight : Int)
    (clean : Bool) (fg : RGB) (yy : Int) (kerning : Option (Int → Int)) :
    List Int → PixelsBase → Int → Int → Int → Option (PixelsBase × List DevOp × Int)
  | [], st, _, _, x1 => some (st, [], x1)
  | c :: rest, st, kernPtr, kern, x1 =>
    (printScan k fuel font fontType glyphHeight clean fg x1 yy st c fuel
      (wrap16 k.HEADER_LENGTH)).bind (fun r =>
      (printLoop k fuel font fontType glyphHeight clean fg yy kerning rest r.1
        (kernStep kerning kernPtr kern).1 (kernStep kerning kernPtr kern).2
        (penStep r.2.2.1 r.2.2.2 (kernStep kerning kernPtr kern).2 x1)).map
        (fun r2 => (r2.1, r.2.1 ++ r2.2.1, r2.2.2)))

/-- The function `PixelsBase::printString(int16_t xx, int16_t yy, String text,
boolean clean, int8_t kerning[])`: the new state, the device operations and
the final value of the pen `x1` (`xx` when the function returns at once). -/
def printString (k : FontConsts) (fuel : Nat) (st : PixelsBase) (xx yy : Int) (text : List Int)
    (clean : Bool) (kerning : Option (Int → Int)) : Option (PixelsBase × List DevOp × Int) :=
  match st.currentFont with
  | none => some (st, [], xx)
  | some font =>
    let fontType : Int := pgm font 2
    if fontType ≠ k.ANTIALIASED_FONT ∧ fontType ≠ k.BITMASK_FONT then some (st, [], xx)
    else
      let fg := st.foreground
      let glyphHeight : Int := pgm font 3
      (printLoop k fuel font fontType glyphHeight clean fg yy kerning text st 0 (-100) xx).map
        (fun r => (setColor r.1 fg, r.2.1, r.2.2))

/-- Zero-initialised storage for a `PixelsBase` object, as an object of static
storage duration has it before its constructor runs: every member is 0,
`false` or `NULL`. -/
def zeroStorage : PixelsBase where
  deviceWidth := 0
  deviceHeight := 0
  width := 0
  height := 0
  orientation := Orientation.PORTRAIT
  landscape := false
  relativeOrigin := false
  currentScroll := 0
  flipScroll := 0
  scrollCleanMode := false
  scrollSupported := false
  scrollEnabled := false
  foreground := ⟨0, 0, 0⟩
  background := ⟨0, 0, 0⟩
  lineWidth := 0
  antialiasing := false
  currentFont := none

/-- The constructor `PixelsBase::PixelsBase(uint16_t width, uint16_t height)`
(lines 46-64) run on the storage `raw`: it assigns the members below and leaves
the others (`landscape`, `flipScroll`, `scrollCleanMode`, `antialiasing`,
`currentFont`) as `raw` has them.  `setBackground` and `setColor` (declared in
`Pixels.h`) store the colour in `background` and `foreground`. -/
def construct (raw : PixelsBase) (width height : Nat) : PixelsBase :=
  { raw with
    deviceWidth := if width < height then (width : Int) else (height : Int)
    deviceHeight := if width > height then (width : Int) else (height : Int)
    width := (width : Int)
    height := (height : Int)
    orientation := if width > height then Orientation.LANDSCAPE else Orientation.PORTRAIT
    relativeOrigin := true
    currentScroll := 0
    scrollSupported := true
    scrollEnabled := true
    lineWidth := 1
    background := RGB.ctor 0 0 0
    foreground := RGB.ctor 0xFF 0xFF 0xFF }

/-- Sample values for the constants of `Pixels.h`. -/
def sampleConsts : FontConsts := ⟨5, 2, 1⟩

/-- The program memory holding the given bytes from the font pointer on, and
zero elsewhere. -/
def fontOfBytes (bytes : List Nat) : Font := fun i => if 0 ≤ i then bytes.getD i.toNat 0 else 0

/-- An antialiased font with two records for the character `A`, of advance
widths 5 and 9, both without payload. -/
def dupFont : Font :=
  fontOfBytes [90, 70, 2, 10, 8, 0, 65, 0, 8, 5, 0, 0, 0, 0, 65, 0, 8, 9, 0, 0, 0, 0, 0]

/-- An antialiased font with the single character `A` of advance width 1 and no
payload. -/
def tinyFont : Font := fontOfBytes [90, 70, 2, 10, 8, 0, 65, 0, 8, 1, 0, 0, 0, 0, 0]

/-- An antialiased font with the single character `A` of advance width 0, no
margins and one payload byte: its effective width is 0. -/
def zeroFont : Font := fontOfBytes [90, 70, 2, 10, 8, 0, 65, 0, 9, 0, 0, 0, 0, 0, 0, 0]

/-- A blob without the `ZF` signature. -/
def badFont : Font := fontOfBytes [90, 71, 2, 10, 8, 0, 0]


/-- A kerning table with the two entries 2 and -3 before its sentinel entry. -/
def sampleKerning : Int → Int := fun i => if i = 0 then 2 else if i = 1 then -3 else -100

/-- The position of the `j`-th glyph record, scanning linearly from the header:
each record lies `length` bytes after the one before, in `int16_t`
arithmetic. -/
def recPtr (k : FontConsts) (font : Font) : Nat → Int
  | 0 => wrap16 k.HEADER_LENGTH
  | j + 1 => wrap16 (recPtr k font j + recordLength font (recPtr k font j))

/-- Following the claim's words: the first record, among the `r` records from
index `j` on, whose code-point equals `c`. -/
def firstRecord (k : FontConsts) (font : Font) (c : Int) : Nat → Nat → Option Nat
  | 0, _ => none
  | r + 1, j =>
    if recordChar font (recPtr k font j) = c then some j else firstRecord k font c r (j + 1)

/-- Following the claim's words: the advance of the character `c` in a font
whose sentinel is record `sentinel`: the advance-width byte of the first
record before the sentinel whose code-point equals `c`, if it exists and
declares a length of at least 8; `none` for an unmatched character. -/
def glyphAdvance (k : FontConsts) (font : Font) (sentinel : Nat) (c : Int) : Option Int :=
  match firstRecord k font c sentinel 0 with
  | some j =>
    if 8 ≤ recordLength font (recPtr k font j) then some (recordWidth font (recPtr k font j))
    else none
  | none => none

/-- Following the claim's words: the kerning `k_i` of the character of index
`i`: `kerning[min(i, n-1)]` when the table is non-null and has `n ≥ 1` entries
before its first sentinel entry, else 0. -/
def kernAt (kerning : Option (Int → Int)) (n i : Nat) : Int :=
  match kerning with
  | none => 0
  | some table => if 1 ≤ n then table ((min i (n - 1) : Nat) : Int) else 0

/-- Following the claim's words: the sum over the matched characters, from
index `i` on, of advance plus kerning. -/
def penAdvance (k : FontConsts) (font : Font) (sentinel : Nat) (kerning : Option (Int → Int))
    (n : Nat) : List Int → Nat → Int
  | [], _ => 0
  | c :: rest, i =>
    (match glyphAdvance k font sentinel c with
      | some adv => adv + kernAt kerning n i
      | none => 0) + penAdvance k font sentinel kerning n rest (i + 1)


/-- An antialiased font whose first record, for `B`, declares the length 4, and
is followed by a record for `A` of advance width 5 and by the sentinel. -/
def skipFont : Font :=
  fontOfBytes [90, 70, 2, 10, 8, 0, 66, 0, 4, 0, 65, 0, 8, 5, 0, 0, 0, 0, 0]

/-! ## Clip mode and drawRectangle (`Pixels.cpp` lines 177-182 and 1410-1430) -/

/-- Following the claim's words: the scroll-axis coordinate of `(x, y)`, `y` in
the portrait orientations and `x` in the landscape orientations. -/
def scrollAxis (o : Orientation) (x y : Int) : Int :=
  match o with
  | Orientation.PORTRAIT | Orientation.PORTRAIT_FLIP => y
  | Orientation.LANDSCAPE | Orientation.LANDSCAPE_FLIP => x

/-- The member `landscape` agrees with `orientation`, as `setOrientation` (lines
66-89) leaves them. -/
def Oriented (st : PixelsBase) : Prop :=
  st.landscape = true ↔
    (st.orientation = Orientation.LANDSCAPE ∨ st.orientation = Orientation.LANDSCAPE_FLIP)

instance (st : PixelsBase) : Decidable (Oriented st) := by unfold Oriented; infer_instance

/-- The function `PixelsBase::drawRectangle(int16_t x, int16_t y, int16_t width,
int16_t height)`; the sums are converted to the `int16_t` parameters of `hLine`
and `vLine`. -/
def drawRectangle (st : PixelsBase) (x y width height : Int) : List DevOp :=
  hLine st x y (wrap16 (x + width - 2)) ++
  vLine st (wrap16 (x + width - 1)) y (wrap16 (y + height - 2)) ++
  hLine st (wrap16 (x + 1)) (wrap16 (y + height - 1)) (wrap16 (x + width - 1)) ++
  vLine st x (wrap16 (y + 1)) (wrap16 (y + height - 1))


/-! ## Antialiased line (`Pixels.cpp` lines 641-686) -/

/-- Modelled from the spec: the macro `ipart` is declared in `Pixels.h`, which is
not part of the sources; by section 4.3 the pixel pair of a column lies at
`floor(intery)` and `floor(intery)+1`. -/
def ipart (q : ℚ) : Int := ⌊q⌋

/-- Modelled from the spec: the macro `fpart` is declared in `Pixels.h`; by
section 4.3 it is the fractional part `frac(intery)`. -/
def fpart (q : ℚ) : ℚ := q - (⌊q⌋ : Int)

/-- Modelled from the spec: the macro `rfpart` is declared in `Pixels.h`; by
section 4.3 it is the complementary weight `1 - frac(intery)`. -/
def rfpart (q : ℚ) : ℚ := 1 - fpart q

/-- The arguments of one call `putColor(x, y, steep, alpha)`. -/
structure PutCall where
  x : Int
  y : Int
  steep : Bool
  alpha : ℚ
deriving DecidableEq

/-- The loop `for (x = xpxl1 + 1; x < xpxl2 - 1; x++)` of `drawLineAntialiased`
(lines 681-685) with `n` iterations left, at column `x` with the running
`intery`: its `putColor` calls. -/
def lineColumns (steep : Bool) (gradient : ℚ) : Nat → Int → ℚ → List PutCall
  | 0, _, _ => []
  | n + 1, x, intery =>
    ⟨x, wrap16 (ipart intery), steep, rfpart intery⟩ ::
      ⟨x, wrap16 (ipart intery + 1), steep, fpart intery⟩ ::
      lineColumns steep gradient n (wrap16 (x + 1)) (intery + gradient)

/-- The function `PixelsBase::drawLineAntialiased(int16_t x1, int16_t y1, int16_t
x2, int16_t y2)`: its `putColor` calls in order.  The loop counter runs from
`xpxl1 + 1` while below `xpxl2 - 1`, so it makes `xpxl2 - 1 - (xpxl1 + 1)`
iterations (none when that is not positive).  The quotient by `deltax = 0` has
no rational value (`none`). -/
def drawLineAntialiased (x1 y1 x2 y2 : Int) : Option (List PutCall) :=
  let steep : Bool :=
    (if y2 > y1 then y2 - y1 else y1 - y2) > (if x2 > x1 then x2 - x1 else x1 - x2)
  let a1 := if steep then y1 else x1
  let b1 := if steep then x1 else y1
  let a2 := if steep then y2 else x2
  let b2 := if steep then x2 else y2
  let x1 := if a1 > a2 then a2 else a1
  let y1 := if a1 > a2 then b2 else b1
  let x2 := if a1 > a2 then a1 else a2
  let y2 := if a1 > a2 then b1 else b2
  let deltax := wrap16 (x2 - x1)
  let deltay := wrap16 (y2 - y1)
  if deltax = 0 then none
  else
    let gradient : ℚ := 1 * (deltay : ℚ) / (deltax : ℚ)
    let xend := x1
    let yend : ℚ := (y1 : ℚ) + gradient * ((xend - x1 : Int) : ℚ)
    let xgap := rfpart ((x1 : ℚ) + 1 / 2)
    let xpxl1 := xend
    let ypxl1 := wrap16 (ipart yend)
    let intery := yend + gradient
    let xend2 := x2
    let yend2 : ℚ := (y2 : ℚ) + gradient * ((xend2 - x2 : Int) : ℚ)
    let xgap2 := rfpart ((x2 : ℚ) + 1 / 2)
    let xpxl2 := xend2
    let ypxl2 := wrap16 (ipart yend2)
    some ([⟨xpxl1, ypxl1, steep, rfpart yend * xgap⟩,
        ⟨xpxl1, wrap16 (ypxl1 + 1), steep, fpart yend * xgap⟩,
        ⟨xpxl2, ypxl2, steep, rfpart yend2 * xgap2⟩,
        ⟨xpxl2, wrap16 (ypxl2 + 1), steep, fpart yend2 * xgap2⟩] ++
      lineColumns steep gradient (xpxl2 - 1 - (xpxl1 + 1)).toNat (wrap16 (xpxl1 + 1)) intery)

/-! ## Traces of scroll -/

/-- A portrait canvas of 10 by 32767 pixels at scroll offset 32766. -/
def maxCanvas : PixelsBase :=
  { demoCanvas with
    deviceHeight := 32767
    height := 32767
    currentScroll := 32766 }

/-- Following the claim's words: `n` unit scrolls performed one after the
other; the state they leave. -/
def unitScrolls (unit : PixelsBase → Option (PixelsBase × List DevOp)) :
    Nat → PixelsBase → Option PixelsBase
  | 0, st => some st
  | n + 1, st => (unit st).bind (fun r => unitScrolls unit n r.1)

/-- The arguments of the `delay` calls among a list of device operations, in
order. -/
def delays (ops : List DevOp) : List Int :=
  ops.filterMap (fun op => match op with
    | DevOp.delay ms => some ms
    | _ => none)

/-- A list of device operations without `scrollCmd` and without `delay`. -/
def Quiet (ops : List DevOp) : Prop := ops.count DevOp.scrollCmd = 0 ∧ delays ops = []

/-- The member `flipScroll` holds the mirror of `currentScroll`, as line 1356
computes it. -/
def Mirrored (s : PixelsBase) : Prop :=
  s.flipScroll =
    wrap16 ((wrapInt s.intWidth (s.deviceHeight - s.currentScroll)).tmod s.deviceHeight)


/-- A portrait canvas of 10 by 20000 pixels in clip mode at scroll offset
19000. -/
def tallClip : PixelsBase :=
  { demoCanvas with
    deviceHeight := 20000
    height := 20000
    currentScroll := 19000 }


/-! ## fillRoundRectangle (`Pixels.cpp` lines 248-310) -/

/-- The scan-line loop `for (j = 0; j < height; j++)` of `fillRoundRectangle`
(lines 270-277) over the remaining values of `j`. -/
def roundRows (st : PixelsBase) (x y width height radius : Int) : List Int → List DevOp
  | [] => []
  | j :: rest =>
    let corr : Int := if j < radius ∨ j > height - radius then radius else 0
    hLine st (wrap16 (x + corr)) (wrap16 (y + j)) (wrap16 (x + width - 1 - corr)) ++
      roundRows st x y width height radius rest

/-- The corner loop `while (x1 < y1)` of `fillRoundRectangle` (lines 290-309);
all its variables are `int16_t`.  The result is `none` when the loop has not
ended within `fuel` iterations. -/
def roundCorners (st : PixelsBase) (xx yy shiftX shiftY : Int) :
    Nat → Int → Int → Int → Int → Int → Option (List DevOp)
  | 0, _, _, _, _, _ => none
  | fuel + 1, f, ddF_x, ddF_y, x1, y1 =>
    if x1 < y1 then
      let y1a := if f ≥ 0 then wrap16 (y1 - 1) else y1
      let ddF_ya := if f ≥ 0 then wrap16 (ddF_y + 2) else ddF_y
      let fa := if f ≥ 0 then wrap16 (f + ddF_ya) else f
      let x1a := wrap16 (x1 + 1)
      let ddF_xa := wrap16 (ddF_x + 2)
      let fb := wrap16 (fa + ddF_xa)
      (roundCorners st xx yy shiftX shiftY fuel fb ddF_xa ddF_ya x1a y1a).map (fun rest =>
        hLine st (wrap16 (xx + shiftX)) (wrap16 (yy - y1a)) (wrap16 (xx + shiftX + x1a)) ++
        hLine st (wrap16 (xx - x1a)) (wrap16 (yy - y1a)) xx ++
        hLine st (wrap16 (xx + shiftX)) (wrap16 (yy - x1a)) (wrap16 (xx + shiftX + y1a)) ++
        hLine st (wrap16 (xx - y1a)) (wrap16 (yy - x1a)) xx ++
        hLine st (wrap16 (xx + shiftX)) (wrap16 (yy + y1a + shiftY))
          (wrap16 (xx + x1a + shiftX)) ++
        hLine st (wrap16 (xx + shiftX)) (wrap16 (yy + x1a + shiftY))
          (wrap16 (xx + shiftX + y1a)) ++
        hLine st (wrap16 (xx - x1a)) (wrap16 (yy + y1a + shiftY)) xx ++
        hLine st (wrap16 (xx - y1a)) (wrap16 (yy + x1a + shiftY)) xx ++ rest)
    else some []

/-- The function `PixelsBase::fillRoundRectangle(int16_t x, int16_t y, int16_t
width, int16_t height, int16_t r)`.  The floating point routine
`drawRoundRectangleAntialiased` is passed in as `aaRound`. -/
def fillRoundRectangle (st : PixelsBase)
    (aaRound : Int → Int → Int → Int → Int → Int → Bool → Option (List DevOp))
    (fuel : Nat) (x y width height r : Int) : Option (List DevOp) :=
  if r < 1 then some (fillRectangle st x y width height)
  else
    let radius := if r > (height - 1).tdiv 2 then wrap16 ((height - 1).tdiv 2) else r
    let radius := if radius > (width - 1).tdiv 2 then wrap16 ((width - 1).tdiv 2) else radius
    (if st.antialiasing then
        aaRound x y (wrap16 (width - 1)) (wrap16 (height - 1)) radius radius true
      else some []).bind (fun pre =>
      let rows := roundRows st x y width height radius (counter 0 height.toNat)
      let shiftX := wrap16 (width - 1 - radius * 2)
      let shiftY := wrap16 (height - 1 - radius * 2)
      (roundCorners st (wrap16 (x + radius)) (wrap16 (y + radius)) shiftX shiftY fuel
        (wrap16 (1 - radius)) 1 (wrap16 (-radius * 2)) 0 radius).map
        (fun corners => pre ++ rows ++ corners))


/-! ## Ovals (`Pixels.cpp` lines 372-618) -/

/-- The ways in which a run of the oval routines can fail to give a result. -/
inductive Fault where
  | divisionByZero
  | outOfFuel
deriving DecidableEq, Repr

/-- The `do { ... } while (i > h)` loop of `drawOval` for `width > height`
(lines 412-452), entered with the given `ix`, `iy`, `oj`, `ok`; all variables
are `int16_t`, the products and quotients are `int`.  The quotients by
`rx = 0` have no value. -/
def drawOvalWide (st : PixelsBase) (xx yy rx ry : Int) :
    Nat → Int → Int → Int → Int → Except Fault (List DevOp)
  | 0, _, _, _, _ => Except.error Fault.outOfFuel
  | fuel + 1, ix, iy, oj, ok =>
    let h := wrap16 ((ix + 32) >>> (6 : Nat))
    let i := wrap16 ((iy + 32) >>> (6 : Nat))
    if rx = 0 then Except.error Fault.divisionByZero
    else
      let j := wrap16 ((wrapInt st.intWidth (h * ry)).tdiv rx)
      let k := wrap16 ((wrapInt st.intWidth (i * ry)).tdiv rx)
      let draw : Bool := ((ok ≠ k) ∧ (oj ≠ k)) ∨ ((oj ≠ j) ∧ (ok ≠ j)) ∨ (k ≠ j)
      let xph := wrap16 (xx + h)
      let xmh := wrap16 (xx - h)
      let xpi := wrap16 (xx + i)
      let xmi := wrap16 (xx - i)
      let ops : List DevOp :=
        if draw then
          (if k > 0 then
            drawPixel st xmh (wrap16 (yy + k)) ++ drawPixel st xph (wrap16 (yy + k)) ++
            drawPixel st xmh (wrap16 (yy - k)) ++ drawPixel st xph (wrap16 (yy - k))
          else drawPixel st xmh yy ++ drawPixel st xph yy) ++
          (if j > 0 then
            drawPixel st xmi (wrap16 (yy + j)) ++ drawPixel st xpi (wrap16 (yy + j)) ++
            drawPixel st xmi (wrap16 (yy - j)) ++ drawPixel st xpi (wrap16 (yy - j))
          else drawPixel st xmi yy ++ drawPixel st xpi yy)
        else []
      let ok1 := if draw then k else ok
      let oj1 := if draw then j else oj
      let ix1 := wrap16 (ix + iy.tdiv rx)
      let iy1 := wrap16 (iy - ix1.tdiv rx)
      if i > h then (drawOvalWide st xx yy rx ry fuel ix1 iy1 oj1 ok1).map (fun l => ops ++ l)
      else Except.ok ops

/-- The `do { ... } while (i > h)` loop of `drawOval` for `width ≤ height`
(lines 457-497), entered with the given `ix`, `iy`, `oh`, `oi`.  The quotients
by `ry = 0` have no value. -/
def drawOvalTall (st : PixelsBase) (xx yy rx ry : Int) :
    Nat → Int → Int → Int → Int → Except Fault (List DevOp)
  | 0, _, _, _, _ => Except.error Fault.outOfFuel
  | fuel + 1, ix, iy, oh, oi =>
    let h := wrap16 ((ix + 32) >>> (6 : Nat))
    let i := wrap16 ((iy + 32) >>> (6 : Nat))
    if ry = 0 then Except.error Fault.divisionByZero
    else
      let j := wrap16 ((wrapInt st.intWidth (h * rx)).tdiv ry)
      let k := wrap16 ((wrapInt st.intWidth (i * rx)).tdiv ry)
      let draw : Bool := ((oi ≠ i) ∧ (oh ≠ i)) ∨ ((oh ≠ h) ∧ (oi ≠ h) ∧ (i ≠ h))
      let xmj := wrap16 (xx - j)
      let xpj := wrap16 (xx + j)
      let xmk := wrap16 (xx - k)
      let xpk := wrap16 (xx + k)
      let ops : List DevOp :=
        if draw then
          (if i > 0 then
            drawPixel st xmj (wrap16 (yy + i)) ++ drawPixel st xpj (wrap16 (yy + i)) ++
            drawPixel st xmj (wrap16 (yy - i)) ++ drawPixel st xpj (wrap16 (yy - i))
          else drawPixel st xmj yy ++ drawPixel st xpj yy) ++
          (if h > 0 then
            drawPixel st xmk (wrap16 (yy + h)) ++ drawPixel st xpk (wrap16 (yy + h)) ++
            drawPixel st xmk (wrap16 (yy - h)) ++ drawPixel st xpk (wrap16 (yy - h))
          else drawPixel st xmk yy ++ drawPixel st xpk yy)
        else []
      let oi1 := if draw then i else oi
      let oh1 := if draw then h else oh
      let ix1 := wrap16 (ix + iy.tdiv ry)
      let iy1 := wrap16 (iy - ix1.tdiv ry)
      if i > h then (drawOvalTall st xx yy rx ry fuel ix1 iy1 oh1 oi1).map (fun l => ops ++ l)
      else Except.ok ops

/-- The function `PixelsBase::drawOval(int16_t x, int16_t y, int16_t width,
int16_t height)`.  The floating point routine `drawRoundRectangleAntialiased`
is passed in as `aaRound`; `0xFFFF` stored in an `int16_t` is -1. -/
def drawOval (st : PixelsBase)
    (aaRound : Int → Int → Int → Int → Int → Int → Bool → Except Fault (List DevOp))
    (fuel : Nat) (x y width height : Int) : Except Fault (List DevOp) :=
  if st.antialiasing then
    aaRound x y (wrap16 (width - 1)) (wrap16 (height - 1)) (wrap16 ((width - 1).tdiv 2))
      (wrap16 ((height - 1).tdiv 2)) false
  else
    let rx := wrap16 ((width - 1).tdiv 2)
    let ry := wrap16 ((height - 1).tdiv 2)
    let xx := wrap16 (x + rx)
    let yy := wrap16 (y + ry)
    if width ≤ 0 ∨ height ≤ 0 then Except.ok []
    else if width = 1 then Except.ok (vLine st xx yy (wrap16 (yy + height - 1)))
    else if height = 1 then Except.ok (hLine st xx yy (wrap16 (xx + width - 1)))
    else if width > height then
      drawOvalWide st xx yy rx ry fuel 0 (wrap16 (rx * 64)) (wrap16 0xFFFF) (wrap16 0xFFFF)
    else
      drawOvalTall st xx yy rx ry fuel 0 (wrap16 (ry * 64)) (wrap16 0xFFFF) (wrap16 0xFFFF)

/-- The `do { ... } while (i > h)` loop of `fillOval` for `rx > ry` (lines
547-579), entered with the given `ix`, `iy`, `oj`, `ok`.  The quotients by
`rx = 0` have no value. -/
def fillOvalWide (st : PixelsBase) (x y rx ry : Int) :
    Nat → Int → Int → Int → Int → Except Fault (List DevOp)
  | 0, _, _, _, _ => Except.error Fault.outOfFuel
  | fuel + 1, ix, iy, oj, ok =>
    let h := wrap16 ((ix + 32) >>> (6 : Nat))
    let i := wrap16 ((iy + 32) >>> (6 : Nat))
    if rx = 0 then Except.error Fault.divisionByZero
    else
      let j := wrap16 ((wrapInt st.intWidth (h * ry)).tdiv rx)
      let k := wrap16 ((wrapInt st.intWidth (i * ry)).tdiv rx)
      let first : Bool := (ok ≠ k) ∧ (oj ≠ k)
      let xph := wrap16 (x + h)
      let xmh := wrap16 (x - h)
      let ops1 : List DevOp :=
        if first then
          (if k > 0 then hLine st xmh (wrap16 (y + k)) xph ++ hLine st xmh (wrap16 (y - k)) xph
          else hLine st xmh y xph)
        else []
      let ok1 := if first then k else ok
      let second : Bool := (oj ≠ j) ∧ (ok1 ≠ j) ∧ (k ≠ j)
      let xmi := wrap16 (x - i)
      let xpi := wrap16 (x + i)
      let ops2 : List DevOp :=
        if second then
          (if j > 0 then hLine st xmi (wrap16 (y + j)) xpi ++ hLine st xmi (wrap16 (y - j)) xpi
          else hLine st xmi y xpi)
        else []
      let oj1 := if second then j else oj
      let ix1 := wrap16 (ix + iy.tdiv rx)
      let iy1 := wrap16 (iy - ix1.tdiv rx)
      if i > h then
        (fillOvalWide st x y rx ry fuel ix1 iy1 oj1 ok1).map (fun l => ops1 ++ ops2 ++ l)
      else Except.ok (ops1 ++ ops2)

/-- The `do { ... } while (i > h)` loop of `fillOval` for `rx ≤ ry` (lines
584-616), entered with the given `ix`, `iy`, `oh`, `oi`.  The quotients by
`ry = 0` have no value. -/
def fillOvalTall (st : PixelsBase) (x y rx ry : Int) :
    Nat → Int → Int → Int → Int → Except Fault (List DevOp)
  | 0, _, _, _, _ => Except.error Fault.outOfFuel
  | fuel + 1, ix, iy, oh, oi =>
    let h := wrap16 ((ix + 32) >>> (6 : Nat))
    let i := wrap16 ((iy + 32) >>> (6 : Nat))
    if ry = 0 then Except.error Fault.divisionByZero
    else
      let j := wrap16 ((wrapInt st.intWidth (h * rx)).tdiv ry)
      let k := wrap16 ((wrapInt st.intWidth (i * rx)).tdiv ry)
      let first : Bool := (oi ≠ i) ∧ (oh ≠ i)
      let xmj := wrap16 (x - j)
      let xpj := wrap16 (x + j)
      let ops1 : List DevOp :=
        if first then
          (if i > 0 then hLine st xmj (wrap16 (y + i)) xpj ++ hLine st xmj (wrap16 (y - i)) xpj
          else hLine st xmj y xpj)
        else []
      let oi1 := if first then i else oi
      let second : Bool := (oh ≠ h) ∧ (oi1 ≠ h) ∧ (i ≠ h)
      let xmk := wrap16 (x - k)
      let xpk := wrap16 (x + k)
      let ops2 : List DevOp :=
        if second then
          (if h > 0 then hLine st xmk (wrap16 (y + h)) xpk ++ hLine st xmk (wrap16 (y - h)) xpk
          else hLine st xmk y xpk)
        else []
      let oh1 := if second then h else oh
      let ix1 := wrap16 (ix + iy.tdiv ry)
      let iy1 := wrap16 (iy - ix1.tdiv ry)
      if i > h then
        (fillOvalTall st x y rx ry fuel ix1 iy1 oh1 oi1).map (fun l => ops1 ++ ops2 ++ l)
      else Except.ok (ops1 ++ ops2)

/-- The function `PixelsBase::fillOval(int16_t xx, int16_t yy, int16_t width,
int16_t height)`.  The floating point routine `drawRoundRectangleAntialiased`
is passed in as `aaRound`. -/
def fillOval (st : PixelsBase)
    (aaRound : Int → Int → Int → Int → Int → Int → Bool → Except Fault (List DevOp))
    (fuel : Nat) (xx yy width height : Int) : Except Fault (List DevOp) :=
  let rx := wrap16 ((width - 1).tdiv 2)
  let ry := wrap16 ((height - 1).tdiv 2)
  let x := wrap16 (xx + rx)
  let y := wrap16 (yy + ry)
  if rx < 0 ∨ ry < 0 then Except.ok []
  else if width < 2 then Except.ok (vLine st xx yy (wrap16 (yy + height - 1)))
  else if height < 2 then Except.ok (hLine st xx yy (wrap16 (xx + width - 1)))
  else
    (if st.antialiasing then
        aaRound (wrap16 (x - rx)) (wrap16 (y - ry)) (wrap16 (rx * 2)) (wrap16 (ry * 2)) rx ry
          true
      else Except.ok []).bind (fun pre =>
      (if rx > ry then
          fillOvalWide st x y rx ry fuel 0 (wrap16 (rx * 64)) (wrap16 0xFFFF) (wrap16 0xFFFF)
        else
          fillOvalTall st x y rx ry fuel 0 (wrap16 (ry * 64)) (wrap16 0xFFFF)
            (wrap16 0xFFFF)).map (fun l => pre ++ l))

/-! ## drawCircle (`Pixels.cpp` lines 312-351) -/

/-- The loop `while (x1 < y1)` of `drawCircle` (lines 330-347): the offsets
`(dx, dy)` of its `drawPixel(x + dx, y + dy)` calls, in order.  All variables
are `int16_t`.  The result is `none` when the loop has not ended within `fuel`
iterations. -/
def circleOutline : Nat → Int → Int → Int → Int → Int → Option (List (Int × Int))
  | 0, _, _, _, _, _ => none
  | fuel + 1, f, ddF_x, ddF_y, x1, y1 =>
    if x1 < y1 then
      let y1a := if f ≥ 0 then wrap16 (y1 - 1) else y1
      let ddF_ya := if f ≥ 0 then wrap16 (ddF_y + 2) else ddF_y
      let fa := if f ≥ 0 then wrap16 (f + ddF_ya) else f
      let x1a := wrap16 (x1 + 1)
      let ddF_xa := wrap16 (ddF_x + 2)
      let fb := wrap16 (fa + ddF_xa)
      (circleOutline fuel fb ddF_xa ddF_ya x1a y1a).map (fun rest =>
        [(x1a, y1a), (-x1a, y1a), (x1a, -y1a), (-x1a, -y1a),
          (y1a, x1a), (-y1a, x1a), (y1a, -x1a), (-y1a, -x1a)] ++ rest)
    else some []

/-- The offsets `(dx, dy)` of all `drawPixel(x + dx, y + dy)` calls of the
integer branch of `drawCircle` (lines 319-347), in order. -/
def drawCircleOffsets (fuel : Nat) (r : Int) : Option (List (Int × Int)) :=
  (circleOutline fuel (wrap16 (1 - r)) 1 (wrap16 (-2 * r)) 0 r).map
    (fun l => [(0, r), (0, -r), (r, 0), (-r, 0)] ++ l)

/-- The function `PixelsBase::drawCircle(int16_t x, int16_t y, int16_t r)`.  The
floating point routine `drawCircleAntialiaced` is passed in as `aaCircle`; the
sums are converted to the `int16_t` parameters of `drawPixel`. -/
def drawCircle (st : PixelsBase) (aaCircle : Int → Int → Int → Bool → Option (List DevOp))
    (fuel : Nat) (x y r : Int) : Option (List DevOp) :=
  if st.antialiasing then aaCircle x y r false
  else
    (drawCircleOffsets fuel r).map
      (fun offs =>
        (offs.map (fun o => drawPixel st (wrap16 (x + o.1)) (wrap16 (y + o.2)))).flatten)


/-! ## State invariant -/

/-- Following the claim's words: the state invariant `0 ≤ currentScroll <
deviceHeight`, `(width, height) = (deviceHeight, deviceWidth)` with `landscape =
true` in the landscape orientations and `(deviceWidth, deviceHeight)` with
`landscape = false` in the portrait orientations. -/
def StateInv (st : PixelsBase) : Prop :=
  0 ≤ st.currentScroll ∧ st.currentScroll < st.deviceHeight ∧
  ((st.orientation = Orientation.LANDSCAPE ∨ st.orientation = Orientation.LANDSCAPE_FLIP) →
    st.landscape = true ∧ st.width = st.deviceHeight ∧ st.height = st.deviceWidth) ∧
  ((st.orientation = Orientation.PORTRAIT ∨ st.orientation = Orientation.PORTRAIT_FLIP) →
    st.landscape = false ∧ st.width = st.deviceWidth ∧ st.height = st.deviceHeight)

instance (st : PixelsBase) : Decidable (StateInv st) := by unfold StateInv; infer_instance

/-- The canvas of 20 by 10 pixels as its constructor leaves zero-initialised
storage, after a scroll by 5: the orientation is `LANDSCAPE`, the member
`landscape` has never been assigned. -/
def lopsided : PixelsBase :=
  { construct zeroStorage 20 10 with
    currentScroll := 5
    flipScroll := 15 }

/-- A portrait canvas of width 0. -/
def emptyCanvas : PixelsBase :=
  { demoCanvas with
    deviceWidth := 0
    width := 0 }

/-! ## Bit-level helper lemmas -/

theorem shl_and_shr (a p k : Nat) : ((a <<< k) &&& p) >>> k = a &&& (p >>> k) := by
  apply Nat.eq_of_testBit_eq
  intro i
  simp [Nat.testBit_shiftLeft, Nat.testBit_shiftRight]

theorem pack565 (a b c : Nat) (hb : b < 64) (hc : c < 32) :
    ((a <<< 11) ||| (b <<< 5) ||| c) = a * 2048 + b * 32 + c := by
  have h1 : (a <<< 11) ||| (b <<< 5) = 2 ^ 11 * a + b * 32 := by
    rw [Nat.shiftLeft_eq, Nat.shiftLeft_eq, Nat.mul_comm a (2 ^ 11)]
    exact (Nat.mul_add_lt_is_or (by omega) a).symm
  have h2 : 2 ^ 11 * a + b * 32 = 2 ^ 5 * (a * 64 + b) := by omega
  rw [h1, h2, ← Nat.mul_add_lt_is_or (by omega : c < 2 ^ 5)]
  omega

theorem field_red (p : Nat) : (0xf800 &&& p) >>> 11 = (p >>> 11) &&& 0x1F := by
  have h := shl_and_shr 0x1F p 11
  rw [Nat.and_comm (p >>> 11)]
  exact h

theorem field_green (p : Nat) : (0x7e0 &&& p) >>> 5 = (p >>> 5) &&& 0x3F := by
  have h := shl_and_shr 0x3F p 5
  rw [Nat.and_comm (p >>> 5)]
  exact h

theorem and31 (x : Nat) : x &&& 0x1F = x % 32 := Nat.and_pow_two_sub_one_eq_mod x 5

theorem and63 (x : Nat) : x &&& 0x3F = x % 64 := Nat.and_pow_two_sub_one_eq_mod x 6

theorem shr11 (x : Nat) : x >>> 11 = x / 2048 := Nat.shiftRight_eq_div_pow x 11

theorem shr5 (x : Nat) : x >>> 5 = x / 32 := Nat.shiftRight_eq_div_pow x 5

theorem rgb_eq {a b c a' b' c' : Nat} (h1 : a = a') (h2 : b = b') (h3 : c = c') :
    RGB.mk a b c = RGB.mk a' b' c' := by
  subst h1 h2 h3; rfl

/-- The packed value in arithmetic form. -/
theorem convertTo565_eq (c : RGB) (h : c.WF) :
    c.convertTo565 = (c.red / 8) * 2048 + (c.green / 4) * 32 + c.blue / 8 := by
  obtain ⟨hr, hg, hb⟩ := h
  unfold RGB.convertTo565
  rw [pack565 _ _ _ (by omega) (by omega)]
  omega

/-- Unpacking in arithmetic form. -/
theorem convert565toRGB_eq (p : Nat) :
    RGB.convert565toRGB p =
      ⟨(p / 2048 % 32) * 255 / 31, (p / 32 % 64) * 255 / 63, (p % 32) * 255 / 31⟩ := by
  unfold RGB.convert565toRGB
  rw [field_red, field_green, Nat.and_comm 0x1f p]
  simp only [and31, and63, shr11, shr5]
  apply rgb_eq <;> omega

/-! ## Colour conversion -/

/-- C1: for every RGB colour with 8-bit channels, `convertTo565` and
`convertRGBto565` both return `(r/8)*2048 + (g/4)*32 + b/8`, a 16-bit value whose
bits 15-11 are `r/8`, bits 10-5 are `g/4` and bits 4-0 are `b/8`; and
`RGB(255,0,0)` packs to `0xF800`. -/
theorem convertTo565_layout (r g b : Nat) (hr : r < 256) (hg : g < 256) (hb : b < 256) :
    RGB.convertTo565 ⟨r, g, b⟩ = (r / 8) * 2048 + (g / 4) * 32 + b / 8 ∧
    RGB.convertRGBto565 ⟨r, g, b⟩ = (r / 8) * 2048 + (g / 4) * 32 + b / 8 ∧
    RGB.convertTo565 ⟨r, g, b⟩ < 65536 ∧
    (RGB.convertTo565 ⟨r, g, b⟩ >>> 11) = r / 8 ∧
    ((RGB.convertTo565 ⟨r, g, b⟩ >>> 5) &&& 0x3F) = g / 4 ∧
    (RGB.convertTo565 ⟨r, g, b⟩ &&& 0x1F) = b / 8 ∧
    RGB.convertTo565 ⟨255, 0, 0⟩ = 0xF800 := by
  have h := convertTo565_eq ⟨r, g, b⟩ ⟨hr, hg, hb⟩
  have h' : RGB.convertRGBto565 ⟨r, g, b⟩ = RGB.convertTo565 ⟨r, g, b⟩ := rfl
  simp only at h
  refine ⟨h, h' ▸ h, ?_, ?_, ?_, ?_, by decide⟩
  all_goals rw [h]
  · omega
  · rw [shr11]; omega
  · rw [and63, shr5]; omega
  · rw [and31]; omega

theorem convertTo565_layout_witness :
    RGB.convertTo565 ⟨200, 100, 50⟩ = (200 / 8) * 2048 + (100 / 4) * 32 + 50 / 8 :=
  (convertTo565_layout 200 100 50 (by decide) (by decide) (by decide)).1

/-- C2: for every 16-bit packed value `p`, `convert565toRGB p` has
red `((p>>11)&0x1F)*255/31`, green `((p>>5)&0x3F)*255/63` and blue
`(p&0x1F)*255/31`, each at most 255; and `convert565toRGB 0xF800` is
`RGB(255,0,0)`. -/
theorem convert565toRGB_fields (p : Nat) :
    RGB.convert565toRGB p =
      ⟨((p >>> 11) &&& 0x1F) * 255 / 31, ((p >>> 5) &&& 0x3F) * 255 / 63,
        (p &&& 0x1F) * 255 / 31⟩ ∧
    ((p >>> 11) &&& 0x1F) * 255 / 31 ≤ 255 ∧
    ((p >>> 5) &&& 0x3F) * 255 / 63 ≤ 255 ∧
    (p &&& 0x1F) * 255 / 31 ≤ 255 ∧
    RGB.convert565toRGB 0xF800 = ⟨255, 0, 0⟩ := by
  refine ⟨?_, ?_, ?_, ?_, by decide⟩
  · rw [convert565toRGB_eq, and31, and63, and31, shr11, shr5]
  all_goals simp only [and31, and63, shr11, shr5]
  all_goals omega

/-- The round trip through the packed form, channel by channel. -/
theorem roundTrip_eq (c : RGB) (h : c.WF) :
    RGB.convert565toRGB (RGB.convertRGBto565 c) =
      ⟨(c.red / 8) * 255 / 31, (c.green / 4) * 255 / 63, (c.blue / 8) * 255 / 31⟩ := by
  have h1 : RGB.convertRGBto565 c = RGB.convertTo565 c := rfl
  rw [h1, convertTo565_eq c h, convert565toRGB_eq]
  obtain ⟨hr, hg, hb⟩ := h
  apply rgb_eq <;> omega

/-- C3: for every RGB colour `c` and `c' = convert565toRGB (convertRGBto565 c)`,
the red and blue channels of `c` and `c'` differ by at most 7 and the green
channels by at most 3. -/
theorem roundTrip_bound (c : RGB) (h : c.WF) :
    |(c.red : Int) - ((RGB.convert565toRGB (RGB.convertRGBto565 c)).red : Int)| ≤ 7 ∧
    |(c.blue : Int) - ((RGB.convert565toRGB (RGB.convertRGBto565 c)).blue : Int)| ≤ 7 ∧
    |(c.green : Int) - ((RGB.convert565toRGB (RGB.convertRGBto565 c)).green : Int)| ≤ 3 := by
  rw [roundTrip_eq c h]
  obtain ⟨hr, hg, hb⟩ := h
  simp only [abs_le]
  omega

theorem roundTrip_bound_witness :
    |((15 : Nat) : Int) -
      ((RGB.convert565toRGB (RGB.convertRGBto565 ⟨15, 3, 248⟩)).red : Int)| ≤ 7 :=
  (roundTrip_bound ⟨15, 3, 248⟩ (by decide)).1

/-- C4: quantisation through the packed form is idempotent: with
`q c = convert565toRGB (convertRGBto565 c)`, `q (q c) = q c` for every colour. -/
theorem roundTrip_idempotent (c : RGB) (h : c.WF) :
    RGB.convert565toRGB (RGB.convertRGBto565
        (RGB.convert565toRGB (RGB.convertRGBto565 c))) =
      RGB.convert565toRGB (RGB.convertRGBto565 c) := by
  obtain ⟨hr, hg, hb⟩ := h
  have hq := roundTrip_eq c ⟨hr, hg, hb⟩
  have hwf : (RGB.convert565toRGB (RGB.convertRGBto565 c)).WF := by
    rw [hq]
    refine ⟨?_, ?_, ?_⟩ <;> simp only <;> omega
  have e5 : ∀ v : Nat, v < 256 → (v / 8) * 255 / 31 / 8 = v / 8 := by intro v hv; omega
  have e6 : ∀ v : Nat, v < 256 → (v / 4) * 255 / 63 / 4 = v / 4 := by intro v hv; omega
  rw [roundTrip_eq _ hwf, hq]
  simp only [e5 _ hr, e6 _ hg, e5 _ hb]

theorem roundTrip_idempotent_witness :
    RGB.convert565toRGB (RGB.convertRGBto565
        (RGB.convert565toRGB (RGB.convertRGBto565 ⟨15, 3, 248⟩))) =
      RGB.convert565toRGB (RGB.convertRGBto565 ⟨15, 3, 248⟩) :=
  roundTrip_idempotent ⟨15, 3, 248⟩ (by decide)

/-! ## Conversions that change nothing -/

theorem wrap16_id (v : Int) (h : I16 v) : wrap16 v = v := by
  unfold wrap16; unfold I16 at h; omega

theorem wrap32_id (v : Int) (h1 : -2147483648 ≤ v) (h2 : v ≤ 2147483647) : wrap32 v = v := by
  unfold wrap32; omega

/-- A value of the `int16_t` range is unchanged by the conversion to `int`. -/
theorem wrapInt_id (w : IntWidth) (v : Int) (h : I16 v) : wrapInt w v = v := by
  unfold I16 at h
  cases w
  · exact wrap16_id v h
  · exact wrap32_id v (by omega) (by omega)

/-- A value within `INT_MAX` is unchanged by the conversion to `int`. -/
theorem wrapInt_small (w : IntWidth) (v : Int) (h0 : 0 ≤ v) (h1 : v ≤ w.intMax) :
    wrapInt w v = v := by
  cases w
  · exact wrap16_id v ⟨by omega, h1⟩
  · exact wrap32_id v (by omega) h1

/-! ## Rounding to the format of `double` -/

theorem prec_ge (f : FloatFormat) : 24 ≤ f.prec := by cases f <;> decide

theorem emin_le (f : FloatFormat) : f.emin ≤ -126 := by cases f <;> decide

theorem roundEven_err (q : ℚ) : |(roundEven q : ℚ) - q| ≤ 1 / 2 := by
  have h1 := Int.floor_le q
  have h2 := Int.lt_floor_add_one q
  unfold roundEven
  split_ifs with a b c
  · rw [abs_le]; constructor <;> linarith
  · push_cast; rw [abs_le]; constructor <;> linarith
  · rw [abs_le]; constructor <;> linarith
  · push_cast; rw [abs_le]; constructor <;> linarith

theorem roundEven_nonneg (q : ℚ) (h : 0 ≤ q) : 0 ≤ roundEven q := by
  have h0 : (0 : Int) ≤ ⌊q⌋ := Int.floor_nonneg.mpr h
  unfold roundEven
  split_ifs <;> omega

theorem roundEven_int (m : Int) : roundEven (m : ℚ) = m := by
  unfold roundEven
  rw [Int.floor_intCast, sub_self, if_pos (by norm_num)]

theorem ulp_pos (f : FloatFormat) (q : ℚ) : 0 < f.ulp q := by
  unfold FloatFormat.ulp
  positivity

theorem fl_nonneg (f : FloatFormat) (q : ℚ) (h : 0 ≤ q) : 0 ≤ fl f q := by
  unfold fl
  split_ifs with h0
  · exact le_refl _
  · have hu := ulp_pos f q
    have : 0 ≤ roundEven (q / f.ulp q) := roundEven_nonneg _ (div_nonneg h hu.le)
    have : (0 : ℚ) ≤ (roundEven (q / f.ulp q) : ℚ) := by exact_mod_cast this
    positivity

/-- The error of one rounding: at most half a unit in the last place. -/
theorem fl_err (f : FloatFormat) (q : ℚ) (k : Int) (hk : f.emin ≤ k) (hq : |q| ≤ 2 ^ k) :
    |fl f q - q| ≤ 2 ^ (k - (f.prec : Int)) := by
  unfold fl
  split_ifs with h0
  · rw [h0, sub_zero, abs_zero]; positivity
  · have hu := ulp_pos f q
    have habs : 0 < |q| := abs_pos.mpr h0
    have hlog : Int.log 2 |q| ≤ k := by
      have : Int.log 2 |q| < k + 1 := by
        rw [← Int.lt_zpow_iff_log_lt (by norm_num) habs]
        calc |q| ≤ 2 ^ k := hq
          _ < ((2 : ℕ) : ℚ) ^ (k + 1) := by
            push_cast
            exact zpow_lt_zpow_right₀ (by norm_num) (by omega)
      omega
    have he : max (Int.log 2 |q|) f.emin ≤ k := max_le hlog hk
    have hr := roundEven_err (q / f.ulp q)
    have e1 : (roundEven (q / f.ulp q) : ℚ) * f.ulp q - q =
        ((roundEven (q / f.ulp q) : ℚ) - q / f.ulp q) * f.ulp q := by
      field_simp
    rw [e1, abs_mul, abs_of_pos hu]
    have hub : f.ulp q * (1 / 2) ≤ 2 ^ (k - (f.prec : Int)) := by
      unfold FloatFormat.ulp
      have : (2 : ℚ) ^ (max (Int.log 2 |q|) f.emin - ((f.prec : Int) - 1)) * (1 / 2) =
          2 ^ (max (Int.log 2 |q|) f.emin - (f.prec : Int)) := by
        rw [show max (Int.log 2 |q|) f.emin - ((f.prec : Int) - 1) =
          (max (Int.log 2 |q|) f.emin - (f.prec : Int)) + 1 by ring,
          zpow_add₀ (by norm_num : (2 : ℚ) ≠ 0), zpow_one]
        ring
      rw [this]
      exact zpow_le_zpow_right₀ (by norm_num) (by omega)
    calc |(roundEven (q / f.ulp q) : ℚ) - q / f.ulp q| * f.ulp q
        ≤ 1 / 2 * f.ulp q := mul_le_mul_of_nonneg_right hr hu.le
      _ = f.ulp q * (1 / 2) := by ring
      _ ≤ _ := hub

/-- Small natural numbers are numbers of the format. -/
theorem fl_nat (f : FloatFormat) (n : Nat) (hn : n < 256) : fl f (n : ℚ) = n := by
  unfold fl
  split_ifs with h0
  · exact h0.symm
  · have hn0 : (0 : ℚ) < n := lt_of_le_of_ne (Nat.cast_nonneg n) (Ne.symm h0)
    have habs : |(n : ℚ)| = n := abs_of_pos hn0
    have hn1 : (1 : ℚ) ≤ n := by
      have : 1 ≤ n := by
        rcases Nat.eq_zero_or_pos n with h | h
        · exfalso; apply h0; rw [h]; rfl
        · exact h
      exact_mod_cast this
    have hl0 : 0 ≤ Int.log 2 (n : ℚ) := by
      rw [← Int.zpow_le_iff_le_log (by norm_num) hn0]
      simpa using hn1
    have hl1 : Int.log 2 (n : ℚ) < 8 := by
      rw [← Int.lt_zpow_iff_log_lt (by norm_num) hn0]
      have : (n : ℚ) < 256 := by exact_mod_cast hn
      calc (n : ℚ) < 256 := this
        _ = ((2 : ℕ) : ℚ) ^ (8 : Int) := by norm_num
    have hp := prec_ge f
    have hem := emin_le f
    have hmax : max (Int.log 2 (n : ℚ)) f.emin = Int.log 2 (n : ℚ) := max_eq_left (by omega)
    obtain ⟨d, hd⟩ : ∃ d : Nat, Int.log 2 (n : ℚ) - ((f.prec : Int) - 1) = -(d : Int) :=
      ⟨((f.prec : Int) - 1 - Int.log 2 (n : ℚ)).toNat, by omega⟩
    have hu : f.ulp (n : ℚ) = ((2 : ℚ) ^ d)⁻¹ := by
      unfold FloatFormat.ulp
      rw [habs, hmax, hd, zpow_neg, zpow_natCast]
    rw [hu]
    have hq : (n : ℚ) / ((2 : ℚ) ^ d)⁻¹ = (((n * 2 ^ d : Nat) : Int) : ℚ) := by
      push_cast
      field_simp
    rw [hq, roundEven_int]
    push_cast
    field_simp

theorem fl_zero (f : FloatFormat) : fl f 0 = 0 := by
  unfold fl
  rw [if_pos rfl]

theorem fl_one (f : FloatFormat) : fl f 1 = 1 := by
  have := fl_nat f 1 (by decide)
  simpa using this

/-! ## Blending -/

/-- A `double` in `[0, 256)` converted to `int`, stored in an `int16_t` and
passed to the `RGB` constructor yields its integer part. -/
theorem chan_floor (w : IntWidth) (q : ℚ) (h0 : 0 ≤ q) (h1 : q < 256) :
    ((toU8 (wrap16 (wrapInt w (truncToInt q))) : Nat) : Int) = ⌊q⌋ := by
  have f0 : (0 : Int) ≤ ⌊q⌋ := Int.floor_nonneg.mpr h0
  have f1 : ⌊q⌋ < 256 := by
    rw [Int.floor_lt]
    exact_mod_cast h1
  unfold truncToInt
  rw [if_pos h0, wrapInt_id _ _ ⟨by omega, by omega⟩, wrap16_id _ ⟨by omega, by omega⟩]
  unfold toU8
  omega

/-- The convex combination of two channel values stays in `[0, 255]`. -/
theorem blend_range (b f : Nat) (hb : b < 256) (hf : f < 256) (a : ℚ) (h0 : 0 ≤ a)
    (h1 : a ≤ 1) : 0 ≤ (b : ℚ) * (1 - a) + (f : ℚ) * a ∧ (b : ℚ) * (1 - a) + (f : ℚ) * a ≤ 255 := by
  have hb' : (b : ℚ) ≤ 255 := by exact_mod_cast Nat.lt_succ_iff.mp hb
  have hf' : (f : ℚ) ≤ 255 := by exact_mod_cast Nat.lt_succ_iff.mp hf
  have hb0 : (0 : ℚ) ≤ b := Nat.cast_nonneg b
  have hf0 : (0 : ℚ) ≤ f := Nat.cast_nonneg f
  have h1a : 0 ≤ 1 - a := by linarith
  constructor
  · positivity
  · nlinarith [mul_le_mul_of_nonneg_right hb' h1a, mul_le_mul_of_nonneg_right hf' h0]

/-- The accumulated rounding error of the blend expression: the computed sum
is nonnegative and within `2 ^ (11 - p)` of the exact weighted sum. -/
theorem blendSum_err (f : FloatFormat) (b g : Nat) (hb : b < 256) (hg : g < 256) (a : ℚ)
    (h0 : 0 ≤ a) (h1 : a ≤ 1) :
    0 ≤ blendSum f b g a ∧
    |blendSum f b g a - ((b : ℚ) * (1 - a) + (g : ℚ) * a)| ≤ f.blendSlack := by
  unfold blendSum FloatFormat.blendSlack
  have hp := prec_ge f
  have hem := emin_le f
  have hb' : (b : ℚ) ≤ 255 := by exact_mod_cast Nat.lt_succ_iff.mp hb
  have hg' : (g : ℚ) ≤ 255 := by exact_mod_cast Nat.lt_succ_iff.mp hg
  have hb0 : (0 : ℚ) ≤ b := Nat.cast_nonneg b
  have hg0 : (0 : ℚ) ≤ g := Nat.cast_nonneg g
  -- the unit roundoff
  obtain ⟨d, hd0, hd1, e0, e8, e9, e11⟩ : ∃ d : ℚ, 0 < d ∧ d ≤ 1 / 16777216 ∧
      (2 : ℚ) ^ ((0 : Int) - (f.prec : Int)) = d ∧
      (2 : ℚ) ^ ((8 : Int) - (f.prec : Int)) = 256 * d ∧
      (2 : ℚ) ^ ((9 : Int) - (f.prec : Int)) = 512 * d ∧
      (2 : ℚ) ^ ((11 : Int) - (f.prec : Int)) = 2048 * d := by
    refine ⟨(2 : ℚ) ^ (-(f.prec : Int)), by positivity, ?_, by rw [zero_sub], ?_, ?_, ?_⟩
    · calc (2 : ℚ) ^ (-(f.prec : Int)) ≤ 2 ^ (-(24 : Int)) :=
            zpow_le_zpow_right₀ (by norm_num) (by omega)
        _ = 1 / 16777216 := by norm_num
    · rw [sub_eq_add_neg, zpow_add₀ (by norm_num : (2 : ℚ) ≠ 0)]; norm_num
    · rw [sub_eq_add_neg, zpow_add₀ (by norm_num : (2 : ℚ) ≠ 0)]; norm_num
    · rw [sub_eq_add_neg, zpow_add₀ (by norm_num : (2 : ℚ) ≠ 0)]; norm_num
  have h1a0 : 0 ≤ 1 - a := by linarith
  have h1a1 : 1 - a ≤ 1 := by linarith
  -- t = fl (1 - a)
  have ht := fl_err f (1 - a) 0 (by omega) (by rw [abs_of_nonneg h1a0]; simpa using h1a1)
  rw [e0, abs_le] at ht
  have ht0 := fl_nonneg f (1 - a) h1a0
  generalize fl f (1 - a) = t at ht ht0
  -- x = fl (b * t)
  have hbt0 : 0 ≤ (b : ℚ) * t := mul_nonneg hb0 ht0
  have hbt1 : (b : ℚ) * t ≤ 256 := by nlinarith
  have hx := fl_err f ((b : ℚ) * t) 8 (by omega) (by rw [abs_of_nonneg hbt0]; norm_num; exact hbt1)
  rw [e8, abs_le] at hx
  have hx0 := fl_nonneg f _ hbt0
  -- y = fl (g * a)
  have hga0 : 0 ≤ (g : ℚ) * a := mul_nonneg hg0 h0
  have hga1 : (g : ℚ) * a ≤ 255 := by nlinarith
  have hy := fl_err f ((g : ℚ) * a) 8 (by omega)
    (by rw [abs_of_nonneg hga0]; norm_num; linarith)
  rw [e8, abs_le] at hy
  have hy0 := fl_nonneg f _ hga0
  have hbt2 : |(b : ℚ) * t - (b : ℚ) * (1 - a)| ≤ 255 * d := by
    rw [← mul_sub, abs_mul, abs_of_nonneg hb0]
    have : |t - (1 - a)| ≤ d := abs_le.mpr ht
    nlinarith [abs_nonneg (t - (1 - a))]
  rw [abs_le] at hbt2
  have hS := blend_range b g hb hg a h0 h1
  generalize fl f ((b : ℚ) * t) = x at hx hx0
  generalize fl f ((g : ℚ) * a) = y at hy hy0
  have hxy0 : 0 ≤ x + y := by linarith
  have hxy1 : x + y ≤ 512 := by linarith
  have hs := fl_err f (x + y) 9 (by omega) (by rw [abs_of_nonneg hxy0]; norm_num; exact hxy1)
  rw [e9, abs_le] at hs
  have hs0 := fl_nonneg f _ hxy0
  refine ⟨hs0, ?_⟩
  rw [e11, abs_le]
  constructor <;> linarith

theorem blendSlack_le (f : FloatFormat) : 0 < f.blendSlack ∧ f.blendSlack ≤ 1 / 8192 := by
  unfold FloatFormat.blendSlack
  refine ⟨by positivity, ?_⟩
  have hp := prec_ge f
  calc (2 : ℚ) ^ ((11 : Int) - (f.prec : Int)) ≤ 2 ^ (-(13 : Int)) :=
        zpow_le_zpow_right₀ (by norm_num) (by omega)
    _ = 1 / 8192 := by norm_num

theorem blendSum_zero (f : FloatFormat) (b g : Nat) (hb : b < 256) :
    blendSum f b g 0 = b := by
  unfold blendSum
  rw [sub_zero, fl_one, mul_one, mul_zero, fl_zero, fl_nat f b hb, add_zero, fl_nat f b hb]

theorem blendSum_one (f : FloatFormat) (b g : Nat) (hg : g < 256) :
    blendSum f b g 1 = g := by
  unfold blendSum
  rw [sub_self, fl_zero, mul_zero, fl_zero, mul_one, fl_nat f g hg, zero_add, fl_nat f g hg]

/-- Each channel of the linear blend, for `alpha` in `[0, 1]`, is the integer
part of the computed sum. -/
theorem computeColor_floor (st : PixelsBase) (bg : RGB) (alpha : ℚ) (hbg : bg.WF)
    (hfg : st.foreground.WF) (h0 : 0 ≤ alpha) (h1 : alpha ≤ 1) :
    ((computeColor st bg alpha).red : Int) =
        ⌊blendSum st.doubleFormat bg.red st.foreground.red alpha⌋ ∧
    ((computeColor st bg alpha).green : Int) =
        ⌊blendSum st.doubleFormat bg.green st.foreground.green alpha⌋ ∧
    ((computeColor st bg alpha).blue : Int) =
        ⌊blendSum st.doubleFormat bg.blue st.foreground.blue alpha⌋ := by
  obtain ⟨br, bgn, bb⟩ := hbg
  obtain ⟨fr, fgn, fb⟩ := hfg
  unfold computeColor
  rw [if_neg (not_lt.mpr h0)]
  simp only [if_neg (not_lt.mpr h1), RGB.ctor]
  obtain ⟨s0, s1⟩ := blendSlack_le st.doubleFormat
  have key : ∀ b g : Nat, b < 256 → g < 256 →
      0 ≤ blendSum st.doubleFormat b g alpha ∧ blendSum st.doubleFormat b g alpha < 256 := by
    intro b g hb hg
    obtain ⟨e0, e1⟩ := blendSum_err st.doubleFormat b g hb hg alpha h0 h1
    obtain ⟨_, r1⟩ := blend_range b g hb hg alpha h0 h1
    rw [abs_le] at e1
    exact ⟨e0, by linarith⟩
  obtain ⟨r0, r1⟩ := key _ _ br fr
  obtain ⟨g0, g1⟩ := key _ _ bgn fgn
  obtain ⟨b0, b1⟩ := key _ _ bb fb
  exact ⟨chan_floor _ _ r0 r1, chan_floor _ _ g0 g1, chan_floor _ _ b0 b1⟩

/-- One channel: the integer part of the computed sum lies within the slack of
the exact weighted sum, from below by less than one more. -/
theorem floor_near (f : FloatFormat) (b g : Nat) (hb : b < 256) (hg : g < 256) (a : ℚ)
    (h0 : 0 ≤ a) (h1 : a ≤ 1) (c : Int) (hc : c = ⌊blendSum f b g a⌋) :
    (c : ℚ) ≤ (b : ℚ) * (1 - a) + (g : ℚ) * a + f.blendSlack ∧
    (b : ℚ) * (1 - a) + (g : ℚ) * a - 1 - f.blendSlack < c ∧ 0 ≤ c ∧ c ≤ 255 := by
  obtain ⟨e0, e1⟩ := blendSum_err f b g hb hg a h0 h1
  obtain ⟨r0, r1⟩ := blend_range b g hb hg a h0 h1
  obtain ⟨s0, s1⟩ := blendSlack_le f
  rw [abs_le] at e1
  have f1 := Int.floor_le (blendSum f b g a)
  have f2 := Int.lt_floor_add_one (blendSum f b g a)
  rw [← hc] at f1 f2
  refine ⟨by linarith, by linarith, ?_, ?_⟩
  · rw [hc]; exact Int.floor_nonneg.mpr e0
  · have : (c : ℚ) < 256 := by linarith
    have : c < 256 := by exact_mod_cast this
    omega

/-- C5: for every background `bg` and foreground colour, the linear blend
`computeColor bg alpha` returns `bg` unchanged for every `alpha ≤ 0` and returns
exactly the foreground for every `alpha ≥ 1`. -/
theorem computeColor_boundary (st : PixelsBase) (bg : RGB) (alpha : ℚ) (hbg : bg.WF)
    (hfg : st.foreground.WF) :
    (alpha ≤ 0 → computeColor st bg alpha = bg) ∧
    (1 ≤ alpha → computeColor st bg alpha = st.foreground) := by
  constructor
  · intro ha
    rcases lt_or_eq_of_le ha with hlt | heq
    · unfold computeColor; rw [if_pos hlt]
    · subst heq
      obtain ⟨h1, h2, h3⟩ := computeColor_floor st bg 0 hbg hfg le_rfl zero_le_one
      rw [blendSum_zero _ _ _ hbg.1] at h1
      rw [blendSum_zero _ _ _ hbg.2.1] at h2
      rw [blendSum_zero _ _ _ hbg.2.2] at h3
      simp only [Int.floor_natCast, Nat.cast_inj] at h1 h2 h3
      cases bg
      cases hc : computeColor st _ 0
      rw [hc] at h1 h2 h3
      simp only at h1 h2 h3
      subst h1 h2 h3
      rfl
  · intro ha
    have hclamp : computeColor st bg alpha = computeColor st bg 1 := by
      unfold computeColor
      have hn : ¬ alpha < 0 := by linarith
      have hn1 : ¬ (1 : ℚ) < 0 := by norm_num
      rw [if_neg hn, if_neg hn1]
      by_cases hgt : alpha > 1
      · simp only [if_pos hgt, gt_iff_lt, lt_self_iff_false, if_false]
      · have : alpha = 1 := le_antisymm (not_lt.mp hgt) ha
        subst this
        rfl
    rw [hclamp]
    obtain ⟨h1, h2, h3⟩ := computeColor_floor st bg 1 hbg hfg zero_le_one le_rfl
    rw [blendSum_one _ _ _ hfg.1] at h1
    rw [blendSum_one _ _ _ hfg.2.1] at h2
    rw [blendSum_one _ _ _ hfg.2.2] at h3
    simp only [Int.floor_natCast, Nat.cast_inj] at h1 h2 h3
    cases hf : st.foreground
    cases hc : computeColor st bg 1
    rw [hc, hf] at h1 h2 h3
    simp only at h1 h2 h3
    subst h1 h2 h3
    rfl

theorem computeColor_boundary_witness :
    computeColor demoCanvas ⟨10, 20, 30⟩ (-1 / 2) = ⟨10, 20, 30⟩ ∧
    computeColor demoCanvas ⟨10, 20, 30⟩ 2 = demoCanvas.foreground :=
  ⟨(computeColor_boundary demoCanvas ⟨10, 20, 30⟩ (-1 / 2) (by decide) (by decide)).1
      (by norm_num),
    (computeColor_boundary demoCanvas ⟨10, 20, 30⟩ 2 (by decide) (by decide)).2
      (by norm_num)⟩

/-- The value of `roundEven` from the distance to an integer. -/
theorem roundEven_eval (q : ℚ) (n : Int)
    (h : |q - n| < 1 / 2 ∨ (|q - n| = 1 / 2 ∧ n % 2 = 0)) : roundEven q = n := by
  have h1 := Int.floor_le q
  have h2 := Int.lt_floor_add_one q
  have hlo : ⌊q⌋ ≤ n := by
    have : ((⌊q⌋ : Int) : ℚ) < (n : ℚ) + 1 := by
      rcases h with h | ⟨h, _⟩
      · rw [abs_lt] at h; linarith
      · have := (abs_le.mp (le_of_eq h)); linarith
    have : ⌊q⌋ < n + 1 := by exact_mod_cast this
    omega
  have hhi : n ≤ ⌊q⌋ + 1 := by
    have : (n : ℚ) < ((⌊q⌋ : Int) : ℚ) + 2 := by
      rcases h with h | ⟨h, _⟩
      · rw [abs_lt] at h; linarith
      · have := (abs_le.mp (le_of_eq h)); linarith
    have : n < ⌊q⌋ + 2 := by exact_mod_cast this
    omega
  have hcase : n = ⌊q⌋ ∨ n = ⌊q⌋ + 1 := by omega
  unfold roundEven
  rcases hcase with hn | hn
  · have hqn : q - n = q - ⌊q⌋ := by rw [hn]
    have hnn : 0 ≤ q - n := by rw [hqn]; linarith
    rw [abs_of_nonneg hnn, hqn] at h
    rcases h with h | ⟨h, he⟩
    · rw [if_pos h, hn]
    · rw [if_neg (by linarith), if_neg (by linarith), if_pos (by rw [← hn]; exact he), hn]
  · have hqn : q - n = q - ⌊q⌋ - 1 := by rw [hn]; push_cast; ring
    have hnn : q - n ≤ 0 := by rw [hqn]; linarith
    rw [abs_of_nonpos hnn, hqn] at h
    rcases h with h | ⟨h, he⟩
    · rw [if_neg (by linarith), if_pos (by linarith), hn]
    · rw [if_neg (by linarith), if_neg (by linarith), if_neg (by omega), hn]

/-- The value of `fl` from the binade of the argument and the rounded
significand. -/
theorem fl_eval (f : FloatFormat) (q : ℚ) (e n : Int) (h1 : (2 : ℚ) ^ e ≤ |q|)
    (h2 : |q| < (2 : ℚ) ^ (e + 1)) (he : f.emin ≤ e)
    (hn : roundEven (q / (2 : ℚ) ^ (e - ((f.prec : Int) - 1))) = n) :
    fl f q = (n : ℚ) * (2 : ℚ) ^ (e - ((f.prec : Int) - 1)) := by
  have hpos : 0 < |q| := lt_of_lt_of_le (by positivity) h1
  have hq0 : q ≠ 0 := abs_pos.mp hpos
  have hlog : Int.log 2 |q| = e := by
    have a1 : e ≤ Int.log 2 |q| := by
      rw [← Int.zpow_le_iff_le_log (by norm_num) hpos]
      exact_mod_cast h1
    have a2 : Int.log 2 |q| < e + 1 := by
      rw [← Int.lt_zpow_iff_log_lt (by norm_num) hpos]
      exact_mod_cast h2
    omega
  unfold fl FloatFormat.ulp
  rw [if_neg hq0, hlog, max_eq_left he, hn]

/-- The blend of two equal channels of value 3 at the binary64 number nearest
to 0.3: the three roundings are ties, and the computed sum falls one unit in the
last place short of 3. -/
theorem blendSum_sample :
    blendSum FloatFormat.binary64 3 3 (5404319552844595 / 18014398509481984) =
      6755399441055743 / 2251799813685248 := by
  have e1 : fl FloatFormat.binary64 (1 - 5404319552844595 / 18014398509481984) =
      3152519739159347 / 4503599627370496 := by
    rw [fl_eval FloatFormat.binary64 _ (-1) 6305039478318694
      (by rw [abs_of_pos (by norm_num)]; norm_num)
      (by rw [abs_of_pos (by norm_num)]; norm_num) (by decide)
      (roundEven_eval _ _ (Or.inr ⟨by norm_num [FloatFormat.prec, abs_of_pos], by decide⟩))]
    norm_num [FloatFormat.prec]
  have e2 : fl FloatFormat.binary64 (((3 : Nat) : ℚ) * (3152519739159347 / 4503599627370496)) =
      1182194902184755 / 562949953421312 := by
    rw [fl_eval FloatFormat.binary64 _ 1 4728779608739020
      (by rw [abs_of_pos (by norm_num)]; norm_num)
      (by rw [abs_of_pos (by norm_num)]; norm_num) (by decide)
      (roundEven_eval _ _ (Or.inr ⟨by norm_num [FloatFormat.prec, abs_of_pos], by decide⟩))]
    norm_num [FloatFormat.prec]
  have e3 : fl FloatFormat.binary64 (((3 : Nat) : ℚ) * (5404319552844595 / 18014398509481984)) =
      2026619832316723 / 2251799813685248 := by
    rw [fl_eval FloatFormat.binary64 _ (-1) 8106479329266892
      (by rw [abs_of_pos (by norm_num)]; norm_num)
      (by rw [abs_of_pos (by norm_num)]; norm_num) (by decide)
      (roundEven_eval _ _ (Or.inr ⟨by norm_num [FloatFormat.prec, abs_of_pos], by decide⟩))]
    norm_num [FloatFormat.prec]
  have e4 : fl FloatFormat.binary64
      (1182194902184755 / 562949953421312 + 2026619832316723 / 2251799813685248) =
      6755399441055743 / 2251799813685248 := by
    rw [fl_eval FloatFormat.binary64 _ 1 6755399441055743
      (by rw [abs_of_pos (by norm_num)]; norm_num)
      (by rw [abs_of_pos (by norm_num)]; norm_num) (by decide)
      (roundEven_eval _ _ (Or.inl (by norm_num [FloatFormat.prec]))) ]
    norm_num [FloatFormat.prec]
  unfold blendSum
  rw [e1, e2, e3, e4]

/-- C6 (as stated) fails, in two ways.  The conversion `(int)` truncates: with
background channel 0, foreground channel 1 and `alpha = 3/4`, a number of both
formats, the weighted sum is `3/4`, whose nearest integer is 1, while the red
channel returned by `computeColor` is 0 on both formats.  And what is truncated
is the computed sum, not the exact one: in binary64, with both channels equal
to 3 and `alpha` the `double` nearest to 0.3, the exact weighted sum is 3 and
the red channel returned is 2. -/
theorem computeColor_not_rounded :
    (0 : ℚ) ≤ 3 / 4 ∧ (3 / 4 : ℚ) ≤ 1 ∧
    (computeColor (grayCanvas FloatFormat.binary32 1) ⟨0, 0, 0⟩ (3 / 4)).red = 0 ∧
    (computeColor (grayCanvas FloatFormat.binary64 1) ⟨0, 0, 0⟩ (3 / 4)).red = 0 ∧
    round (((0 : Nat) : ℚ) * (1 - 3 / 4) + ((1 : Nat) : ℚ) * (3 / 4)) = 1 ∧
    (computeColor (grayCanvas FloatFormat.binary64 3) ⟨3, 3, 3⟩
      (5404319552844595 / 18014398509481984)).red = 2 ∧
    ((3 : Nat) : ℚ) * (1 - 5404319552844595 / 18014398509481984) +
      ((3 : Nat) : ℚ) * (5404319552844595 / 18014398509481984) = 3 := by
  have hr : round (((0 : Nat) : ℚ) * (1 - 3 / 4) + ((1 : Nat) : ℚ) * (3 / 4)) = 1 := by
    rw [round_eq, Int.floor_eq_iff]
    norm_num
  have hc : ∀ f : FloatFormat,
      (computeColor (grayCanvas f 1) ⟨0, 0, 0⟩ (3 / 4)).red = 0 := by
    intro f
    have h1 := (computeColor_floor (grayCanvas f 1) ⟨0, 0, 0⟩ (3 / 4)
      (by decide) (show (⟨1, 1, 1⟩ : RGB).WF by decide) (by norm_num) (by norm_num)).1
    obtain ⟨a1, _, a3, _⟩ := floor_near f 0 1 (by decide) (by decide) (3 / 4) (by norm_num)
      (by norm_num) _ h1
    obtain ⟨_, s1⟩ := blendSlack_le f
    have a2 : ((0 : Nat) : ℚ) * (1 - 3 / 4) + ((1 : Nat) : ℚ) * (3 / 4) = 3 / 4 := by norm_num
    rw [a2] at a1
    have : (((computeColor (grayCanvas f 1) ⟨0, 0, 0⟩ (3 / 4)).red : Int) : ℚ) < 1 := by
      linarith
    have : ((computeColor (grayCanvas f 1) ⟨0, 0, 0⟩ (3 / 4)).red : Int) < 1 := by
      exact_mod_cast this
    omega
  have h3 : (computeColor (grayCanvas FloatFormat.binary64 3) ⟨3, 3, 3⟩
      (5404319552844595 / 18014398509481984)).red = 2 := by
    have h1 := (computeColor_floor (grayCanvas FloatFormat.binary64 3) ⟨3, 3, 3⟩
      (5404319552844595 / 18014398509481984) (by decide) (by decide) (by norm_num)
      (by norm_num)).1
    have h2 : blendSum (grayCanvas FloatFormat.binary64 3).doubleFormat 3 3
        (5404319552844595 / 18014398509481984) = 6755399441055743 / 2251799813685248 :=
      blendSum_sample
    have h4 : ⌊(6755399441055743 / 2251799813685248 : ℚ)⌋ = 2 := by
      rw [Int.floor_eq_iff]
      norm_num
    have h5 : ((computeColor (grayCanvas FloatFormat.binary64 3) ⟨3, 3, 3⟩
        (5404319552844595 / 18014398509481984)).red : Int) = 2 := by
      rw [h1]
      exact (congrArg Int.floor h2).trans h4
    exact_mod_cast h5
  exact ⟨by norm_num, by norm_num, hc _, hc _, hr, h3, by norm_num⟩

/-- C6 (amended): for every `alpha` in `[0, 1]` and all 8-bit channel values,
each channel `c` returned by the linear blend `computeColor bg alpha` is the
integer part of the `double` value computed for `bg*(1-alpha) + fg*alpha` (the
sum truncated by the `(int)` conversion, not rounded); it lies in `0..255` and
satisfies `S - 1 - e < c ≤ S + e` for the exact weighted sum `S` and the bound
`e = 2^(11-p)` on the rounding error of the format. -/
theorem computeColor_truncates (st : PixelsBase) (bg : RGB) (alpha : ℚ) (hbg : bg.WF)
    (hfg : st.foreground.WF) (h0 : 0 ≤ alpha) (h1 : alpha ≤ 1) :
    (((computeColor st bg alpha).red : Int) =
        ⌊blendSum st.doubleFormat bg.red st.foreground.red alpha⌋ ∧
      ((computeColor st bg alpha).red : ℚ) ≤
        (bg.red : ℚ) * (1 - alpha) + (st.foreground.red : ℚ) * alpha +
          st.doubleFormat.blendSlack ∧
      (bg.red : ℚ) * (1 - alpha) + (st.foreground.red : ℚ) * alpha - 1 -
          st.doubleFormat.blendSlack < ((computeColor st bg alpha).red : ℚ)) ∧
    (((computeColor st bg alpha).green : Int) =
        ⌊blendSum st.doubleFormat bg.green st.foreground.green alpha⌋ ∧
      ((computeColor st bg alpha).green : ℚ) ≤
        (bg.green : ℚ) * (1 - alpha) + (st.foreground.green : ℚ) * alpha +
          st.doubleFormat.blendSlack ∧
      (bg.green : ℚ) * (1 - alpha) + (st.foreground.green : ℚ) * alpha - 1 -
          st.doubleFormat.blendSlack < ((computeColor st bg alpha).green : ℚ)) ∧
    (((computeColor st bg alpha).blue : Int) =
        ⌊blendSum st.doubleFormat bg.blue st.foreground.blue alpha⌋ ∧
      ((computeColor st bg alpha).blue : ℚ) ≤
        (bg.blue : ℚ) * (1 - alpha) + (st.foreground.blue : ℚ) * alpha +
          st.doubleFormat.blendSlack ∧
      (bg.blue : ℚ) * (1 - alpha) + (st.foreground.blue : ℚ) * alpha - 1 -
          st.doubleFormat.blendSlack < ((computeColor st bg alpha).blue : ℚ)) ∧
    (computeColor st bg alpha).WF := by
  obtain ⟨hr, hg, hb⟩ := computeColor_floor st bg alpha hbg hfg h0 h1
  obtain ⟨r1, r2, r3, r4⟩ := floor_near st.doubleFormat _ _ hbg.1 hfg.1 alpha h0 h1 _ hr
  obtain ⟨g1, g2, g3, g4⟩ := floor_near st.doubleFormat _ _ hbg.2.1 hfg.2.1 alpha h0 h1 _ hg
  obtain ⟨b1, b2, b3, b4⟩ := floor_near st.doubleFormat _ _ hbg.2.2 hfg.2.2 alpha h0 h1 _ hb
  refine ⟨⟨hr, by exact_mod_cast r1, by exact_mod_cast r2⟩,
    ⟨hg, by exact_mod_cast g1, by exact_mod_cast g2⟩,
    ⟨hb, by exact_mod_cast b1, by exact_mod_cast b2⟩, ?_⟩
  unfold RGB.WF
  omega

theorem computeColor_truncates_witness :
    ((computeColor demoCanvas ⟨10, 20, 30⟩ (1 / 4)).red : Int) =
        ⌊blendSum demoCanvas.doubleFormat 10 255 (1 / 4)⌋ ∧
      ((computeColor demoCanvas ⟨10, 20, 30⟩ (1 / 4)).red : ℚ) ≤
        ((10 : Nat) : ℚ) * (1 - 1 / 4) + ((255 : Nat) : ℚ) * (1 / 4) +
          demoCanvas.doubleFormat.blendSlack ∧
      ((10 : Nat) : ℚ) * (1 - 1 / 4) + ((255 : Nat) : ℚ) * (1 / 4) - 1 -
          demoCanvas.doubleFormat.blendSlack <
        ((computeColor demoCanvas ⟨10, 20, 30⟩ (1 / 4)).red : ℚ) :=
  (computeColor_truncates demoCanvas ⟨10, 20, 30⟩ (1 / 4) (by decide) (by decide)
    (by norm_num) (by norm_num)).1

/-! ## Opacity blend -/

/-- One channel of the opacity blend, for 8-bit operands, where the product
`background * opacity` fits an `int`. -/
theorem opacityChannel_eq (w : IntWidth) (f b o : Nat) (hf : f < 256) (hb : b < 256)
    (ho : o < 256) (hw : ((b * o : Nat) : Int) ≤ w.intMax) :
    toU8 (opacityChannel w f b o) = min 255 ((f * (255 - o) + b * o) / 200) := by
  have hA : f * (255 - o) ≤ 255 * 255 := Nat.mul_le_mul (by omega) (by omega)
  have hB : b * o ≤ 255 * 255 := Nat.mul_le_mul (by omega) (by omega)
  have e1 : (f : Int) * (255 - (o : Int)) = ((f * (255 - o) : Nat) : Int) := by
    push_cast [Nat.cast_sub (by omega : o ≤ 255)]
    ring
  have e2 : (b : Int) * (o : Int) = ((b * o : Nat) : Int) := by push_cast; ring
  unfold opacityChannel
  simp only [e1, e2]
  rw [wrapInt_small w _ (by omega) hw]
  clear e1 e2 hw hf hb ho
  generalize f * (255 - o) = A at hA ⊢
  generalize b * o = B at hB ⊢
  have w0 : wrap32 (A : Int) = (A : Int) := wrap32_id _ (by omega) (by omega)
  have w1 : wrap32 ((A : Int) + (B : Int)) = ((A + B : Nat) : Int) := by
    rw [wrap32_id _ (by omega) (by omega)]
    push_cast
    rfl
  rw [w0, w1]
  have hs : A + B ≤ 130050 := by omega
  generalize A + B = s at hs ⊢
  have w2 : (s : Int).tdiv 200 = (s : Int) / 200 :=
    Int.tdiv_eq_ediv (by omega) (by omega)
  have w3 : wrap32 ((s : Int) / 200) = (s : Int) / 200 := wrap32_id _ (by omega) (by omega)
  rw [w2, w3]
  unfold toU8
  clear hA hB w0 w1
  split_ifs with h
  · omega
  · omega

/-- Where the product `background * opacity` fits an `int` (on a 32-bit `int`,
and for `opacity ≤ 128` on a 16-bit one), each channel of the opacity blend
`computeColor fg opacity` equals
`min 255 ((fg*(255-opacity) + bg*opacity) / 200)` with integer division. -/
theorem computeColorOpacity_eq (st : PixelsBase) (fg : RGB) (opacity : Nat) (hfg : fg.WF)
    (hbg : st.background.WF) (ho : opacity < 256)
    (hw : st.intWidth = IntWidth.w32 ∨ opacity ≤ 128) :
    (computeColorOpacity st fg opacity).red =
      min 255 ((fg.red * (255 - opacity) + st.background.red * opacity) / 200) ∧
    (computeColorOpacity st fg opacity).green =
      min 255 ((fg.green * (255 - opacity) + st.background.green * opacity) / 200) ∧
    (computeColorOpacity st fg opacity).blue =
      min 255 ((fg.blue * (255 - opacity) + st.background.blue * opacity) / 200) ∧
    (computeColorOpacity st fg opacity).WF := by
  have hfit : ∀ b : Nat, b < 256 → ((b * opacity : Nat) : Int) ≤ st.intWidth.intMax := by
    intro b hb
    have h1 : b * opacity ≤ 255 * 255 := Nat.mul_le_mul (by omega) (by omega)
    rcases hw with h | h
    · rw [h]
      show ((b * opacity : Nat) : Int) ≤ 2147483647
      omega
    · have h2 : b * opacity ≤ 255 * 128 := Nat.mul_le_mul (by omega) h
      cases st.intWidth
      · show ((b * opacity : Nat) : Int) ≤ 32767
        omega
      · show ((b * opacity : Nat) : Int) ≤ 2147483647
        omega
  have hr := opacityChannel_eq st.intWidth _ _ _ hfg.1 hbg.1 ho (hfit _ hbg.1)
  have hg := opacityChannel_eq st.intWidth _ _ _ hfg.2.1 hbg.2.1 ho (hfit _ hbg.2.1)
  have hb := opacityChannel_eq st.intWidth _ _ _ hfg.2.2 hbg.2.2 ho (hfit _ hbg.2.2)
  have wr : (computeColorOpacity st fg opacity).red = _ := hr
  have wg : (computeColorOpacity st fg opacity).green = _ := hg
  have wb : (computeColorOpacity st fg opacity).blue = _ := hb
  refine ⟨wr, wg, wb, ?_⟩
  unfold RGB.WF
  rw [wr, wg, wb]
  refine ⟨?_, ?_, ?_⟩ <;> exact Nat.lt_succ_of_le (Nat.min_le_left _ _)

/-- C7 fails on a board with a 16-bit `int`: the product `background * opacity`
is computed in `int`, and for the background channel 255 and opacity 129 it is
32895, which does not fit.  The glyph colour black over a white background at
opacity 129 gives the channel 93, where the claim's formula
`min 255 ((0*(255-129) + 255*129) / 200)` gives 164, the value returned on a
board with a 32-bit `int`. -/
theorem computeColorOpacity_int_overflow :
    (whitePaper IntWidth.w16).background = ⟨255, 255, 255⟩ ∧
    computeColorOpacity (whitePaper IntWidth.w16) ⟨0, 0, 0⟩ 129 = ⟨93, 93, 93⟩ ∧
    min 255 ((0 * (255 - 129) + 255 * 129) / 200) = 164 ∧
    computeColorOpacity (whitePaper IntWidth.w32) ⟨0, 0, 0⟩ 129 = ⟨164, 164, 164⟩ := by
  decide

/-! ## drawPixel -/

/-- The two bytes sent by `setCurrentPixel` are the packed colour, high byte
first. -/
theorem pixelWord (c : RGB) :
    highByte (wrap16 (c.convertTo565 : Int)) < 256 ∧
    lowByte (wrap16 (c.convertTo565 : Int)) < 256 ∧
    highByte (wrap16 (c.convertTo565 : Int)) * 256 + lowByte (wrap16 (c.convertTo565 : Int)) =
      c.convertTo565 := by
  have hp : c.convertTo565 < 65536 := by
    unfold RGB.convertTo565
    exact Nat.mod_lt _ (by norm_num)
  generalize c.convertTo565 = p at hp
  unfold highByte lowByte toU8 wrap16
  rw [Int.shiftRight_eq_div_pow]
  norm_num
  omega

/-- The device operations of one pixel write at device coordinate `(dx, dy)`. -/
theorem writePixel_eq (st : PixelsBase) (dx dy : Int) :
    writePixel st dx dy =
      [DevOp.chipSelect, DevOp.setRegion dx dy dx dy,
        DevOp.deviceWriteData (highByte (wrap16 (st.foreground.convertTo565 : Int)))
          (lowByte (wrap16 (st.foreground.convertTo565 : Int))),
        DevOp.chipDeselect] := rfl

/-- C8 (as stated) fails: in clip mode with `currentScroll = 5` the in-bounds
pixel `(3, 7)` of a 10 by 20 portrait canvas produces no device write. -/
theorem drawPixel_inBounds_noWrite :
    (0 : Int) ≤ 3 ∧ (3 : Int) < ({ demoCanvas with currentScroll := 5 } : PixelsBase).width ∧
    (0 : Int) ≤ 7 ∧ (7 : Int) < ({ demoCanvas with currentScroll := 5 } : PixelsBase).height ∧
    drawPixel { demoCanvas with currentScroll := 5 } 3 7 = [] := by
  decide

/-- C8 (amended): `drawPixel x y` issues no device write when `x < 0`, `y < 0`,
`x ≥ width` or `y ≥ height`; for an in-bounds pixel it issues no write either
when the canvas is in clip mode (`relativeOrigin`) with `currentScroll ≠ 0` and
the scroll-axis coordinate (`x` in landscape, `y` otherwise) is greater than
`currentScroll`, or equal to it while `scrollCleanMode` is off; in every other
case it issues exactly one addressed pixel write: select, one 1x1 window, one
pixel word carrying the packed foreground colour, deselect. -/
theorem drawPixel_spec (st : PixelsBase) (x y : Int) :
    ((x < 0 ∨ y < 0 ∨ x ≥ st.width ∨ y ≥ st.height) → drawPixel st x y = []) ∧
    (0 ≤ x → 0 ≤ y → x < st.width → y < st.height →
      (st.relativeOrigin = true ∧ st.currentScroll ≠ 0 ∧
        ((st.scrollCleanMode = false ∧ (if st.landscape then x else y) = st.currentScroll) ∨
          (if st.landscape then x else y) > st.currentScroll)) →
      drawPixel st x y = []) ∧
    (0 ≤ x → 0 ≤ y → x < st.width → y < st.height →
      ¬ (st.relativeOrigin = true ∧ st.currentScroll ≠ 0 ∧
        ((st.scrollCleanMode = false ∧ (if st.landscape then x else y) = st.currentScroll) ∨
          (if st.landscape then x else y) > st.currentScroll)) →
      ∃ dx dy hi lo, drawPixel st x y =
          [DevOp.chipSelect, DevOp.setRegion dx dy dx dy, DevOp.deviceWriteData hi lo,
            DevOp.chipDeselect] ∧
        hi < 256 ∧ lo < 256 ∧ hi * 256 + lo = st.foreground.convertTo565 ∧
        (st.relativeOrigin = true → dx = x ∧ dy = y)) := by
  obtain ⟨w1, w2, w3⟩ := pixelWord st.foreground
  refine ⟨?_, ?_, ?_⟩
  · intro h
    unfold drawPixel
    rw [if_pos h]
  · intro hx hy hxw hyh hclip
    obtain ⟨hro, hcs, hedge⟩ := hclip
    have hin : ¬ (x < 0 ∨ y < 0 ∨ x ≥ st.width ∨ y ≥ st.height) := by omega
    unfold drawPixel
    rw [if_neg hin, if_pos hro, if_pos hcs]
    cases hl : st.landscape <;> simp only [hl, Bool.false_eq_true, if_false, if_true] at hedge ⊢
    · rw [if_pos hedge]
    · rw [if_pos hedge]
  · intro hx hy hxw hyh hclip
    have hin : ¬ (x < 0 ∨ y < 0 ∨ x ≥ st.width ∨ y ≥ st.height) := by omega
    unfold drawPixel
    rw [if_neg hin]
    cases hro : st.relativeOrigin
    · simp only [Bool.false_eq_true, if_false]
      cases hl : st.landscape
      · exact ⟨_, _, _, _, writePixel_eq st _ _, w1, w2, w3, by simp⟩
      · exact ⟨_, _, _, _, writePixel_eq st _ _, w1, w2, w3, by simp⟩
    · simp only [if_true]
      by_cases hcs : st.currentScroll ≠ 0
      · rw [if_pos hcs]
        have hedge : ¬ ((st.scrollCleanMode = false ∧
            (if st.landscape then x else y) = st.currentScroll) ∨
            (if st.landscape then x else y) > st.currentScroll) :=
          fun h => hclip ⟨hro, hcs, h⟩
        cases hl : st.landscape <;>
          simp only [hl, Bool.false_eq_true, if_false, if_true] at hedge ⊢
        · rw [if_neg hedge]
          exact ⟨x, y, _, _, writePixel_eq st _ _, w1, w2, w3, fun _ => ⟨rfl, rfl⟩⟩
        · rw [if_neg hedge]
          exact ⟨x, y, _, _, writePixel_eq st _ _, w1, w2, w3, fun _ => ⟨rfl, rfl⟩⟩
      · rw [if_neg hcs]
        exact ⟨x, y, _, _, writePixel_eq st _ _, w1, w2, w3, fun _ => ⟨rfl, rfl⟩⟩

theorem drawPixel_spec_witness :
    drawPixel demoCanvas (-1) 3 = [] ∧
    drawPixel { demoCanvas with currentScroll := 5 } 3 7 = [] ∧
    (∃ dx dy hi lo, drawPixel demoCanvas 3 7 =
          [DevOp.chipSelect, DevOp.setRegion dx dy dx dy, DevOp.deviceWriteData hi lo,
            DevOp.chipDeselect] ∧
        hi < 256 ∧ lo < 256 ∧ hi * 256 + lo = demoCanvas.foreground.convertTo565 ∧
        (demoCanvas.relativeOrigin = true → dx = 3 ∧ dy = 7)) :=
  ⟨(drawPixel_spec demoCanvas (-1) 3).1 (by decide),
    (drawPixel_spec { demoCanvas with currentScroll := 5 } 3 7).2.1 (by decide) (by decide)
      (by decide) (by decide) (by decide),
    (drawPixel_spec demoCanvas 3 7).2.2 (by decide) (by decide) (by decide) (by decide)
      (by decide)⟩

/-! ## fill -/

theorem painted_nil (px py : Int) : ¬ painted [] px py := by
  simp [painted]

theorem painted_single (c a b d e px py : Int) :
    painted [DevOp.quickFill c a b d e] px py ↔ a ≤ px ∧ px ≤ d ∧ b ≤ py ∧ py ≤ e := by
  simp [painted, DevOp.paints]

theorem painted_pair (c a b d e c' a' b' d' e' px py : Int) :
    painted [DevOp.quickFill c a b d e, DevOp.quickFill c' a' b' d' e'] px py ↔
      (a ≤ px ∧ px ≤ d ∧ b ≤ py ∧ py ≤ e) ∨ (a' ≤ px ∧ px ≤ d' ∧ b' ≤ py ∧ py ≤ e') := by
  simp [painted, DevOp.paints]

/-- The two `swap`s of `fill` order the corners. -/
theorem fill_canon (st : PixelsBase) (color x1 y1 x2 y2 : Int) :
    fill st color x1 y1 x2 y2 =
      fillOrdered st color (min x1 x2) (min y1 y2) (max x1 x2) (max y1 y2) := by
  have a1 : (if x2 < x1 then x2 else x1) = min x1 x2 := by split_ifs <;> omega
  have a2 : (if y2 < y1 then y2 else y1) = min y1 y2 := by split_ifs <;> omega
  have a3 : (if x2 < x1 then x1 else x2) = max x1 x2 := by split_ifs <;> omega
  have a4 : (if y2 < y1 then y1 else y2) = max y1 y2 := by split_ifs <;> omega
  unfold fill
  rw [a1, a2, a3, a4]

theorem quickFill_congr (c a b d e a' b' d' e' : Int) (h1 : a = a') (h2 : b = b')
    (h3 : d = d') (h4 : e = e') :
    [DevOp.quickFill c a b d e] = [DevOp.quickFill c a' b' d' e'] := by
  subst h1 h2 h3 h4; rfl

/-- With `currentScroll = 0`, ordered corners: one rectangle write of the
clipped rectangle, or nothing when the rectangle misses the canvas. -/
theorem fillOrdered_noScroll_eq (st : PixelsBase) (color lx ly ux uy : Int)
    (hcs : st.currentScroll = 0) (hw : 0 < st.width) (hh : 0 < st.height)
    (hx : lx ≤ ux) (hy : ly ≤ uy) (hux : ux ≤ 32767) (huy : uy ≤ 32767) :
    fillOrdered st color lx ly ux uy =
      if lx ≥ st.width ∨ ly ≥ st.height ∨ ux < 0 ∨ uy < 0 then []
      else [DevOp.quickFill color (max lx 0) (max ly 0)
        (min ux (st.width - 1)) (min uy (st.height - 1))] := by
  unfold fillOrdered
  simp only [hcs, or_true, ne_eq, not_true_eq_false, if_true, if_false]
  generalize st.width = w at hw
  generalize st.height = h at hh
  by_cases c1 : lx ≥ w
  · rw [if_pos c1, if_pos (Or.inl c1)]
  rw [if_neg c1]
  by_cases c2 : ly ≥ h
  · rw [if_pos c2, if_pos (Or.inr (Or.inl c2))]
  rw [if_neg c2]
  by_cases c3 : ux < 0
  · rw [if_pos ⟨by omega, c3⟩, if_pos (Or.inr (Or.inr (Or.inl c3)))]
  rw [if_neg (fun h => c3 h.2)]
  by_cases c4 : uy < 0
  · rw [if_pos ⟨by omega, c4⟩, if_pos (Or.inr (Or.inr (Or.inr c4)))]
  rw [if_neg (fun h => c4 h.2),
    if_neg (show ¬ (lx ≥ w ∨ ly ≥ h ∨ ux < 0 ∨ uy < 0) by omega)]
  apply quickFill_congr
  · split_ifs <;> omega
  · split_ifs <;> omega
  · unfold wrap16; split_ifs <;> omega
  · unfold wrap16; split_ifs <;> omega

/-- With `currentScroll = 0`, `fill` is one rectangle write of the clipped
rectangle, or nothing when the rectangle misses the canvas. -/
theorem fill_noScroll_eq (st : PixelsBase) (color x1 y1 x2 y2 : Int)
    (hcs : st.currentScroll = 0) (hw : 0 < st.width) (hh : 0 < st.height)
    (hx1 : I16 x1) (hy1 : I16 y1) (hx2 : I16 x2) (hy2 : I16 y2) :
    fill st color x1 y1 x2 y2 =
      if min x1 x2 ≥ st.width ∨ min y1 y2 ≥ st.height ∨ max x1 x2 < 0 ∨ max y1 y2 < 0 then []
      else [DevOp.quickFill color (max (min x1 x2) 0) (max (min y1 y2) 0)
        (min (max x1 x2) (st.width - 1)) (min (max y1 y2) (st.height - 1))] := by
  unfold I16 at hx1 hy1 hx2 hy2
  rw [fill_canon]
  exact fillOrdered_noScroll_eq st color _ _ _ _ hcs hw hh (by omega) (by omega)
    (by omega) (by omega)

/-- Reduction modulo `d` of a value in `[0, 2d)`. -/
theorem emod_wrap (a d : Int) (h0 : 0 ≤ a) (h1 : a < 2 * d) :
    a % d = if a < d then a else a - d := by
  split_ifs with h
  · exact Int.emod_eq_of_lt h0 h
  · have e : a = (a - d) + d * 1 := by ring
    rw [e, Int.add_mul_emod_self_left, Int.emod_eq_of_lt (by omega) (by omega)]
    ring

/-- The scroll mapping of one coordinate in `fill`: add `currentScroll`, reduce
modulo `deviceHeight`, both stored in an `int16_t`. -/
theorem scrollMap (v cs d : Int) (hv0 : 0 ≤ v) (hv1 : v < d) (hcs0 : 0 < cs) (hcs1 : cs < d)
    (hd : d ≤ 16384) : wrap16 ((wrap16 (v + cs)).tmod d) = (v + cs) % d := by
  rw [wrap16_id (v + cs) ⟨by omega, by omega⟩, Int.tmod_eq_emod (by omega) (by omega),
    emod_wrap _ _ (by omega) (by omega)]
  split_ifs <;> exact wrap16_id _ ⟨by omega, by omega⟩

/-- Wrap mode, portrait orientations, ordered corners meeting the canvas: the
rectangles that `fill` issues. -/
theorem fillOrdered_wrap_portrait (st : PixelsBase) (color lx ly ux uy : Int)
    (hro : st.relativeOrigin = false) (hcs0 : 0 < st.currentScroll)
    (hcs1 : st.currentScroll < st.deviceHeight) (hd : st.deviceHeight ≤ 16384)
    (hor : st.orientation = Orientation.PORTRAIT ∨ st.orientation = Orientation.PORTRAIT_FLIP)
    (hh : st.height = st.deviceHeight) (hw : 0 < st.width)
    (hux : ux ≤ 32767)
    (i1 : lx < st.width) (i2 : ly < st.height) (i3 : 0 ≤ ux) (i4 : 0 ≤ uy) :
    fillOrdered st color lx ly ux uy =
      if (max ly 0 + st.currentScroll) % st.deviceHeight >
          (min uy (st.deviceHeight - 1) + st.currentScroll) % st.deviceHeight then
        [DevOp.quickFill color (max lx 0)
            ((max ly 0 + st.currentScroll) % st.deviceHeight)
            (min ux (st.width - 1)) (st.deviceHeight - 1),
          DevOp.quickFill color (max lx 0) 0 (min ux (st.width - 1))
            ((min uy (st.deviceHeight - 1) + st.currentScroll) % st.deviceHeight)]
      else
        [DevOp.quickFill color (max lx 0)
            ((max ly 0 + st.currentScroll) % st.deviceHeight)
            (min ux (st.width - 1))
            ((min uy (st.deviceHeight - 1) + st.currentScroll) % st.deviceHeight)] := by
  have e1 : (if lx < 0 then 0 else lx) = max lx 0 := by split_ifs <;> omega
  have e2 : (if ly < 0 then 0 else ly) = max ly 0 := by split_ifs <;> omega
  have e3 : (if ux ≥ st.width then wrap16 (st.width - 1) else ux) = min ux (st.width - 1) := by
    unfold wrap16; split_ifs <;> omega
  have e4 : (if uy ≥ st.height then wrap16 (st.height - 1) else uy) =
      min uy (st.deviceHeight - 1) := by
    unfold wrap16; rw [hh]; split_ifs <;> omega
  have m1 := scrollMap (max ly 0) st.currentScroll st.deviceHeight (by omega) (by omega)
    hcs0 hcs1 hd
  have m2 := scrollMap (min uy (st.deviceHeight - 1)) st.currentScroll st.deviceHeight
    (by omega) (by omega) hcs0 hcs1 hd
  unfold fillOrdered
  rw [if_neg (by omega), if_neg (by omega), if_neg (by omega), if_neg (by omega)]
  simp only [e1, e2, e3, e4]
  rw [if_neg (by rw [hro]; simp; omega), if_pos (by omega)]
  rcases hor with ho | ho <;> simp only [ho, m1, m2]

/-- Wrap mode, landscape orientations, ordered corners meeting the canvas: the
rectangles that `fill` issues. -/
theorem fillOrdered_wrap_landscape (st : PixelsBase) (color lx ly ux uy : Int)
    (hro : st.relativeOrigin = false) (hcs0 : 0 < st.currentScroll)
    (hcs1 : st.currentScroll < st.deviceHeight) (hd : st.deviceHeight ≤ 16384)
    (hor : st.orientation = Orientation.LANDSCAPE ∨
      st.orientation = Orientation.LANDSCAPE_FLIP)
    (hw : st.width = st.deviceHeight) (hh : 0 < st.height)
    (huy : uy ≤ 32767)
    (i1 : lx < st.width) (i2 : ly < st.height) (i3 : 0 ≤ ux) (i4 : 0 ≤ uy) :
    fillOrdered st color lx ly ux uy =
      if (max lx 0 + st.currentScroll) % st.deviceHeight >
          (min ux (st.deviceHeight - 1) + st.currentScroll) % st.deviceHeight then
        [DevOp.quickFill color ((max lx 0 + st.currentScroll) % st.deviceHeight)
            (max ly 0) (st.deviceHeight - 1) (min uy (st.height - 1)),
          DevOp.quickFill color 0 (max ly 0)
            ((min ux (st.deviceHeight - 1) + st.currentScroll) % st.deviceHeight)
            (min uy (st.height - 1))]
      else
        [DevOp.quickFill color ((max lx 0 + st.currentScroll) % st.deviceHeight)
            (max ly 0)
            ((min ux (st.deviceHeight - 1) + st.currentScroll) % st.deviceHeight)
            (min uy (st.height - 1))] := by
  have e1 : (if lx < 0 then 0 else lx) = max lx 0 := by split_ifs <;> omega
  have e2 : (if ly < 0 then 0 else ly) = max ly 0 := by split_ifs <;> omega
  have e3 : (if ux ≥ st.width then wrap16 (st.width - 1) else ux) =
      min ux (st.deviceHeight - 1) := by
    unfold wrap16; rw [hw]; split_ifs <;> omega
  have e4 : (if uy ≥ st.height then wrap16 (st.height - 1) else uy) =
      min uy (st.height - 1) := by
    unfold wrap16; split_ifs <;> omega
  have m1 := scrollMap (max lx 0) st.currentScroll st.deviceHeight (by omega) (by omega)
    hcs0 hcs1 hd
  have m2 := scrollMap (min ux (st.deviceHeight - 1)) st.currentScroll st.deviceHeight
    (by omega) (by omega) hcs0 hcs1 hd
  unfold fillOrdered
  rw [if_neg (by omega), if_neg (by omega), if_neg (by omega), if_neg (by omega)]
  simp only [e1, e2, e3, e4]
  rw [if_neg (by rw [hro]; simp; omega), if_pos (by omega)]
  rcases hor with ho | ho <;> simp only [ho, m1, m2]

/-- The mapped interval wraps exactly when its first row stays below the wrap
boundary and its last row passes it. -/
theorem rows_straddle (a b cs d : Int) (ha : 0 ≤ a) (hab : a ≤ b) (hb : b < d)
    (hcs0 : 0 < cs) (hcs1 : cs < d) :
    (a + cs) % d > (b + cs) % d ↔ (a + cs < d ∧ d ≤ b + cs) := by
  rw [emod_wrap (a + cs) d (by omega) (by omega), emod_wrap (b + cs) d (by omega) (by omega)]
  split_ifs <;> omega

/-- The device rows written for the logical rows `a..b` are exactly their
images under `p ↦ (p + cs) % d`. -/
theorem rows_union (a b cs d q : Int) (ha : 0 ≤ a) (hab : a ≤ b) (hb : b < d)
    (hcs0 : 0 < cs) (hcs1 : cs < d) :
    (if (a + cs) % d > (b + cs) % d then
        ((a + cs) % d ≤ q ∧ q ≤ d - 1) ∨ (0 ≤ q ∧ q ≤ (b + cs) % d)
      else ((a + cs) % d ≤ q ∧ q ≤ (b + cs) % d)) ↔
    ∃ p, a ≤ p ∧ p ≤ b ∧ q = (p + cs) % d := by
  rw [emod_wrap (a + cs) d (by omega) (by omega), emod_wrap (b + cs) d (by omega) (by omega)]
  constructor
  · intro h
    have hq0 : 0 ≤ q ∧ q < d := by split_ifs at h <;> omega
    by_cases hq : q < cs
    · refine ⟨q - cs + d, ?_, ?_, ?_⟩
      · split_ifs at h <;> omega
      · split_ifs at h <;> omega
      · rw [emod_wrap _ d (by omega) (by omega)]
        split_ifs at h ⊢ <;> omega
    · refine ⟨q - cs, ?_, ?_, ?_⟩
      · split_ifs at h <;> omega
      · split_ifs at h <;> omega
      · rw [emod_wrap _ d (by omega) (by omega)]
        split_ifs at h ⊢ <;> omega
  · rintro ⟨p, hp1, hp2, rfl⟩
    rw [emod_wrap (p + cs) d (by omega) (by omega)]
    split_ifs <;> omega

/-- The shape shared by both orientations: one rectangle, or two rectangles
split at the wrap boundary, described along the scroll axis by the mapped
interval `A..B` and along the other axis by `c1..c2`. -/
theorem split_spec (ops : List DevOp) (color c1 c2 A B d : Int) (vert : Bool)
    (hops : ops =
      if A > B then
        [if vert then DevOp.quickFill color c1 A c2 (d - 1)
          else DevOp.quickFill color A c1 (d - 1) c2,
         if vert then DevOp.quickFill color c1 0 c2 B else DevOp.quickFill color 0 c1 B c2]
      else
        [if vert then DevOp.quickFill color c1 A c2 B else DevOp.quickFill color A c1 B c2])
    (hc : c1 ≤ c2) (hA0 : 0 ≤ A) (hA1 : A < d) (hB0 : 0 ≤ B) (hB1 : B < d) :
    (ops.length = 1 ∨ ops.length = 2) ∧
    (ops.length = 2 ↔ A > B) ∧
    (∀ op ∈ ops, ∃ a b c e, op = DevOp.quickFill color a b c e ∧
      (if vert then c1 ≤ a ∧ a ≤ c ∧ c ≤ c2 ∧ 0 ≤ b ∧ b ≤ e ∧ e < d
        else c1 ≤ b ∧ b ≤ e ∧ e ≤ c2 ∧ 0 ≤ a ∧ a ≤ c ∧ c < d)) ∧
    ops.Pairwise (fun o1 o2 => ∀ px py, ¬ (o1.paints px py ∧ o2.paints px py)) ∧
    (∀ qx qy, painted ops qx qy ↔
      (if vert then c1 ≤ qx ∧ qx ≤ c2 else c1 ≤ qy ∧ qy ≤ c2) ∧
      (if A > B then
        (A ≤ (if vert then qy else qx) ∧ (if vert then qy else qx) ≤ d - 1) ∨
          (0 ≤ (if vert then qy else qx) ∧ (if vert then qy else qx) ≤ B)
        else (A ≤ (if vert then qy else qx) ∧ (if vert then qy else qx) ≤ B))) := by
  subst hops
  by_cases hAB : A > B
  · simp only [if_pos hAB]
    cases vert
    · simp only [Bool.false_eq_true, if_false]
      refine ⟨Or.inr rfl, ⟨fun _ => hAB, fun _ => rfl⟩, ?_, ?_, ?_⟩
      · intro op hop
        simp only [List.mem_cons, List.mem_singleton, List.not_mem_nil, or_false] at hop
        rcases hop with rfl | rfl
        · exact ⟨_, _, _, _, rfl, by omega⟩
        · exact ⟨_, _, _, _, rfl, by omega⟩
      · rw [List.pairwise_pair]
        intro px py
        simp only [DevOp.paints]
        omega
      · intro qx qy
        rw [painted_pair]
        omega
    · simp only [if_true]
      refine ⟨Or.inr rfl, ⟨fun _ => hAB, fun _ => rfl⟩, ?_, ?_, ?_⟩
      · intro op hop
        simp only [List.mem_cons, List.mem_singleton, List.not_mem_nil, or_false] at hop
        rcases hop with rfl | rfl
        · exact ⟨_, _, _, _, rfl, by omega⟩
        · exact ⟨_, _, _, _, rfl, by omega⟩
      · rw [List.pairwise_pair]
        intro px py
        simp only [DevOp.paints]
        omega
      · intro qx qy
        rw [painted_pair]
        omega
  · simp only [if_neg hAB]
    cases vert
    · simp only [Bool.false_eq_true, if_false]
      refine ⟨Or.inl rfl, ⟨fun h => absurd h (by simp), fun h => absurd h hAB⟩, ?_, ?_, ?_⟩
      · intro op hop
        simp only [List.mem_singleton] at hop
        subst hop
        exact ⟨_, _, _, _, rfl, by omega⟩
      · exact List.pairwise_singleton _ _
      · intro qx qy
        rw [painted_single]
        omega
    · simp only [if_true]
      refine ⟨Or.inl rfl, ⟨fun h => absurd h (by simp), fun h => absurd h hAB⟩, ?_, ?_, ?_⟩
      · intro op hop
        simp only [List.mem_singleton] at hop
        subst hop
        exact ⟨_, _, _, _, rfl, by omega⟩
      · exact List.pairwise_singleton _ _
      · intro qx qy
        rw [painted_single]
        omega

/-- C10 (as stated) fails: on a wrap-mode portrait canvas of 20000 rows scrolled
by 19999, the one-pixel rectangle at row 19999 meets the canvas, yet `fill`
issues a rectangle at device row -5538 (the sum 39998 does not fit the
`int16_t` corner), so the mapped row `(19999 + 19999) mod 20000 = 19998` is not
painted. -/
theorem fill_wrap_overflow :
    tallCanvas.relativeOrigin = false ∧ 0 < tallCanvas.currentScroll ∧
    tallCanvas.currentScroll < tallCanvas.deviceHeight ∧
    tallCanvas.orientation = Orientation.PORTRAIT ∧
    tallCanvas.height = tallCanvas.deviceHeight ∧
    (0 : Int) < tallCanvas.width ∧ (19999 : Int) < tallCanvas.height ∧
    fill tallCanvas 0 0 19999 0 19999 = [DevOp.quickFill 0 0 (-5538) 0 (-5538)] ∧
    ¬ painted (fill tallCanvas 0 0 19999 0 19999) 0
      ((19999 + tallCanvas.currentScroll) % tallCanvas.deviceHeight) := by
  decide

/-- C10 (amended): in wrap mode (`relativeOrigin = false`) with
`0 < currentScroll < deviceHeight` and `deviceHeight ≤ 16384` (so that a
coordinate plus the scroll offset fits an `int16_t`), for every rectangle that
meets the canvas: in a portrait orientation with `height = deviceHeight`, `fill`
issues one or two device rectangles, each within the panel with ordered
corners, pairwise disjoint, whose union is exactly the set of
`(px, (py + currentScroll) mod deviceHeight)` for `(px, py)` in the clipped
rectangle, and two rectangles are issued exactly when the mapped rows straddle
the wrap boundary; in a landscape orientation with `width = deviceHeight` the
same holds along the x axis. -/
theorem fill_wrap (st : PixelsBase) (color x1 y1 x2 y2 : Int)
    (hro : st.relativeOrigin = false) (hcs0 : 0 < st.currentScroll)
    (hcs1 : st.currentScroll < st.deviceHeight) (hd : st.deviceHeight ≤ 16384)
    (hx1 : I16 x1) (hy1 : I16 y1) (hx2 : I16 x2) (hy2 : I16 y2)
    (hint : ∃ px py, min x1 x2 ≤ px ∧ px ≤ max x1 x2 ∧ min y1 y2 ≤ py ∧ py ≤ max y1 y2 ∧
      0 ≤ px ∧ px < st.width ∧ 0 ≤ py ∧ py < st.height) :
    (((st.orientation = Orientation.PORTRAIT ∨ st.orientation = Orientation.PORTRAIT_FLIP) ∧
        st.height = st.deviceHeight) →
      ((fill st color x1 y1 x2 y2).length = 1 ∨ (fill st color x1 y1 x2 y2).length = 2) ∧
      (∀ op ∈ fill st color x1 y1 x2 y2, ∃ a b c e, op = DevOp.quickFill color a b c e ∧
        0 ≤ a ∧ a ≤ c ∧ c < st.width ∧ 0 ≤ b ∧ b ≤ e ∧ e < st.deviceHeight) ∧
      (fill st color x1 y1 x2 y2).Pairwise
        (fun o1 o2 => ∀ px py, ¬ (o1.paints px py ∧ o2.paints px py)) ∧
      (∀ qx qy, painted (fill st color x1 y1 x2 y2) qx qy ↔
        ∃ py, (min x1 x2 ≤ qx ∧ qx ≤ max x1 x2 ∧ min y1 y2 ≤ py ∧ py ≤ max y1 y2 ∧
            0 ≤ qx ∧ qx < st.width ∧ 0 ≤ py ∧ py < st.height) ∧
          qy = (py + st.currentScroll) % st.deviceHeight) ∧
      ((fill st color x1 y1 x2 y2).length = 2 ↔
        ∃ py py', (min y1 y2 ≤ py ∧ py ≤ max y1 y2 ∧ 0 ≤ py ∧ py < st.height) ∧
          (min y1 y2 ≤ py' ∧ py' ≤ max y1 y2 ∧ 0 ≤ py' ∧ py' < st.height) ∧
          py + st.currentScroll < st.deviceHeight ∧
          st.deviceHeight ≤ py' + st.currentScroll)) ∧
    (((st.orientation = Orientation.LANDSCAPE ∨
          st.orientation = Orientation.LANDSCAPE_FLIP) ∧
        st.width = st.deviceHeight) →
      ((fill st color x1 y1 x2 y2).length = 1 ∨ (fill st color x1 y1 x2 y2).length = 2) ∧
      (∀ op ∈ fill st color x1 y1 x2 y2, ∃ a b c e, op = DevOp.quickFill color a b c e ∧
        0 ≤ b ∧ b ≤ e ∧ e < st.height ∧ 0 ≤ a ∧ a ≤ c ∧ c < st.deviceHeight) ∧
      (fill st color x1 y1 x2 y2).Pairwise
        (fun o1 o2 => ∀ px py, ¬ (o1.paints px py ∧ o2.paints px py)) ∧
      (∀ qx qy, painted (fill st color x1 y1 x2 y2) qx qy ↔
        ∃ px, (min x1 x2 ≤ px ∧ px ≤ max x1 x2 ∧ min y1 y2 ≤ qy ∧ qy ≤ max y1 y2 ∧
            0 ≤ px ∧ px < st.width ∧ 0 ≤ qy ∧ qy < st.height) ∧
          qx = (px + st.currentScroll) % st.deviceHeight) ∧
      ((fill st color x1 y1 x2 y2).length = 2 ↔
        ∃ px px', (min x1 x2 ≤ px ∧ px ≤ max x1 x2 ∧ 0 ≤ px ∧ px < st.width) ∧
          (min x1 x2 ≤ px' ∧ px' ≤ max x1 x2 ∧ 0 ≤ px' ∧ px' < st.width) ∧
          px + st.currentScroll < st.deviceHeight ∧
          st.deviceHeight ≤ px' + st.currentScroll)) := by
  unfold I16 at hx1 hy1 hx2 hy2
  obtain ⟨ipx, ipy, hint⟩ := hint
  refine ⟨?_, ?_⟩
  · rintro ⟨hor, hh⟩
    have hexp := fillOrdered_wrap_portrait st color (min x1 x2) (min y1 y2) (max x1 x2)
      (max y1 y2) hro hcs0 hcs1 hd hor hh (by omega) (by omega) (by omega) (by omega)
      (by omega) (by omega)
    rw [← fill_canon] at hexp
    have hr1 := Int.emod_nonneg (max (min y1 y2) 0 + st.currentScroll)
      (show st.deviceHeight ≠ 0 by omega)
    have hr2 := Int.emod_lt_of_pos (max (min y1 y2) 0 + st.currentScroll)
      (show 0 < st.deviceHeight by omega)
    have hr3 := Int.emod_nonneg (min (max y1 y2) (st.deviceHeight - 1) + st.currentScroll)
      (show st.deviceHeight ≠ 0 by omega)
    have hr4 := Int.emod_lt_of_pos (min (max y1 y2) (st.deviceHeight - 1) + st.currentScroll)
      (show 0 < st.deviceHeight by omega)
    obtain ⟨r1, r2, r3, r4, r5⟩ := split_spec _ color _ _ _ _ st.deviceHeight true hexp
      (show max (min x1 x2) 0 ≤ min (max x1 x2) (st.width - 1) by omega) hr1 hr2 hr3 hr4
    simp only [if_true] at r3 r5
    have hst := rows_straddle (max (min y1 y2) 0) (min (max y1 y2) (st.deviceHeight - 1))
      st.currentScroll st.deviceHeight (by omega) (by omega) (by omega) hcs0 hcs1
    refine ⟨r1, ?_, r4, ?_, ?_⟩
    · intro op hop
      obtain ⟨a, b, c, e, h1, h2⟩ := r3 op hop
      exact ⟨a, b, c, e, h1, by omega⟩
    · intro qx qy
      rw [r5 qx qy, rows_union _ _ _ _ qy (by omega) (by omega) (by omega) hcs0 hcs1]
      constructor
      · rintro ⟨hq, p, hp1, hp2, hp3⟩
        exact ⟨p, by omega, hp3⟩
      · rintro ⟨p, hp, hp3⟩
        exact ⟨by omega, p, by omega, by omega, hp3⟩
    · rw [r2, hst]
      constructor
      · intro h
        exact ⟨max (min y1 y2) 0, min (max y1 y2) (st.deviceHeight - 1), by omega, by omega,
          h.1, h.2⟩
      · rintro ⟨p, p', hp, hp', h1, h2⟩
        omega
  · rintro ⟨hor, hw⟩
    have hexp := fillOrdered_wrap_landscape st color (min x1 x2) (min y1 y2) (max x1 x2)
      (max y1 y2) hro hcs0 hcs1 hd hor hw (by omega) (by omega) (by omega) (by omega)
      (by omega) (by omega)
    rw [← fill_canon] at hexp
    have hr1 := Int.emod_nonneg (max (min x1 x2) 0 + st.currentScroll)
      (show st.deviceHeight ≠ 0 by omega)
    have hr2 := Int.emod_lt_of_pos (max (min x1 x2) 0 + st.currentScroll)
      (show 0 < st.deviceHeight by omega)
    have hr3 := Int.emod_nonneg (min (max x1 x2) (st.deviceHeight - 1) + st.currentScroll)
      (show st.deviceHeight ≠ 0 by omega)
    have hr4 := Int.emod_lt_of_pos (min (max x1 x2) (st.deviceHeight - 1) + st.currentScroll)
      (show 0 < st.deviceHeight by omega)
    obtain ⟨r1, r2, r3, r4, r5⟩ := split_spec _ color _ _ _ _ st.deviceHeight false hexp
      (show max (min y1 y2) 0 ≤ min (max y1 y2) (st.height - 1) by omega) hr1 hr2 hr3 hr4
    simp only [Bool.false_eq_true, if_false] at r3 r5
    have hst := rows_straddle (max (min x1 x2) 0) (min (max x1 x2) (st.deviceHeight - 1))
      st.currentScroll st.deviceHeight (by omega) (by omega) (by omega) hcs0 hcs1
    refine ⟨r1, ?_, r4, ?_, ?_⟩
    · intro op hop
      obtain ⟨a, b, c, e, h1, h2⟩ := r3 op hop
      exact ⟨a, b, c, e, h1, by omega⟩
    · intro qx qy
      rw [r5 qx qy, rows_union _ _ _ _ qx (by omega) (by omega) (by omega) hcs0 hcs1]
      constructor
      · rintro ⟨hq, p, hp1, hp2, hp3⟩
        exact ⟨p, by omega, hp3⟩
      · rintro ⟨p, hp, hp3⟩
        exact ⟨by omega, p, by omega, by omega, hp3⟩
    · rw [r2, hst]
      constructor
      · intro h
        exact ⟨max (min x1 x2) 0, min (max x1 x2) (st.deviceHeight - 1), by omega, by omega,
          h.1, h.2⟩
      · rintro ⟨p, p', hp, hp', h1, h2⟩
        omega

theorem fill_wrap_witness :
    ((fill scrolledCanvas 7 2 3 5 8).length = 1 ∨ (fill scrolledCanvas 7 2 3 5 8).length = 2) ∧
    ((fill wideCanvas 7 3 2 8 5).length = 1 ∨ (fill wideCanvas 7 3 2 8 5).length = 2) :=
  ⟨((fill_wrap scrolledCanvas 7 2 3 5 8 (by decide) (by decide) (by decide) (by decide)
      (by decide) (by decide) (by decide) (by decide) ⟨2, 3, by decide⟩).1
      ⟨Or.inl rfl, rfl⟩).1,
    ((fill_wrap wideCanvas 7 3 2 8 5 (by decide) (by decide) (by decide) (by decide)
      (by decide) (by decide) (by decide) (by decide) ⟨3, 2, by decide⟩).2
      ⟨Or.inl rfl, rfl⟩).1⟩

/-! ## drawLine -/

/-- C11: with `lineWidth = 1` and `currentScroll = 0`, for all `x1`, `x2`, `y`,
`drawLine x1 y x2 y` returns and paints exactly the pixels `(x, y)` with
`min x1 x2 ≤ x ≤ max x1 x2` that lie on the canvas; `drawLine 0 0 4 0` paints
exactly `(0,0), (1,0), (2,0), (3,0), (4,0)`. -/
theorem drawLine_horizontal (st : PixelsBase)
    (aa fat : Int → Int → Int → Int → Option (List DevOp)) (fuel : Nat) (x1 x2 y : Int)
    (hlw : st.lineWidth = 1) (hcs : st.currentScroll = 0) (hw : 0 < st.width)
    (hh : 0 < st.height) (hx1 : I16 x1) (hx2 : I16 x2) (hy : I16 y) :
    (∃ ops, drawLine st aa fat fuel x1 y x2 y = some ops ∧
      ∀ px py, painted ops px py ↔
        (min x1 x2 ≤ px ∧ px ≤ max x1 x2 ∧ py = y ∧
          0 ≤ px ∧ px < st.width ∧ 0 ≤ py ∧ py < st.height)) ∧
    (∃ ops, drawLine demoCanvas aa fat fuel 0 0 4 0 = some ops ∧
      ∀ px py, painted ops px py ↔
        (px, py) ∈ [((0 : Int), (0 : Int)), (1, 0), (2, 0), (3, 0), (4, 0)]) := by
  constructor
  · refine ⟨hLine st x1 y x2, ?_, ?_⟩
    · unfold drawLine
      rw [if_pos ⟨rfl, hlw⟩]
    · intro px py
      unfold hLine
      rw [fill_noScroll_eq st _ x1 y x2 y hcs hw hh hx1 hy hx2 hy]
      unfold I16 at hx1 hx2 hy
      split_ifs with hc
      · constructor
        · intro h; exact absurd h (painted_nil px py)
        · intro h; omega
      · rw [painted_single]
        omega
  · refine ⟨hLine demoCanvas 0 0 4, ?_, ?_⟩
    · unfold drawLine
      rw [if_pos ⟨rfl, rfl⟩]
    · intro px py
      have e : hLine demoCanvas 0 0 4 = [DevOp.quickFill 65535 0 0 4 0] := by decide
      rw [e, painted_single]
      simp only [List.mem_cons, Prod.mk.injEq, List.mem_singleton, List.not_mem_nil, or_false]
      omega

theorem drawLine_horizontal_witness :
    ∃ ops, drawLine demoCanvas (fun _ _ _ _ => none) (fun _ _ _ _ => none) 0 12 3 (-2) 3 =
        some ops ∧
      ∀ px py, painted ops px py ↔
        (min 12 (-2) ≤ px ∧ px ≤ max 12 (-2) ∧ py = 3 ∧
          0 ≤ px ∧ px < demoCanvas.width ∧ 0 ≤ py ∧ py < demoCanvas.height) :=
  (drawLine_horizontal demoCanvas (fun _ _ _ _ => none) (fun _ _ _ _ => none) 0 12 (-2) 3
    rfl (by decide) (by decide) (by decide) (by decide) (by decide) (by decide)).1

theorem cons_path (a b : Int × Int) (l : List (Int × Int)) (e : Int × Int) (n : Nat)
    (hlen : l.length = n + 1) (hhead : l.head? = some b) (hlast : l.getLast? = some e)
    (hch : l.Chain' Adjacent) (hab : Adjacent a b) :
    (a :: l).length = n + 1 + 1 ∧ (a :: l).head? = some a ∧ (a :: l).getLast? = some e ∧
      (a :: l).Chain' Adjacent := by
  cases l with
  | nil => simp at hlen
  | cons c t =>
    simp only [List.head?_cons, Option.some.injEq] at hhead
    subst hhead
    refine ⟨by simp [hlen], rfl, ?_, ?_⟩
    · rw [List.getLast?_cons_cons]; exact hlast
    · exact List.Chain'.cons hab hch

theorem bres_xmajor (dx dy sx sy x2 y2 : Int) (hsx : sx = 1 ∨ sx = -1)
    (hsy : sy = 1 ∨ sy = -1) (hdy : 1 ≤ dy) (hdd : dy ≤ dx) (hB : dx ≤ 10922)
    (hxa : I16 x2) (hxb : I16 (x2 - sx * dx)) (hya : I16 y2) (hyb : I16 (y2 - sy * dy))
    (n : Nat) : ∀ (x y err ry : Int) (fuel : Nat), n < fuel →
      x = x2 - sx * n → y = y2 - sy * ry → 0 ≤ ry → ry ≤ dy → (n : Int) ≤ dx →
      err = dx - dy - ry * dx + n * dy → 2 * err > -dy → 2 * err < 3 * dx →
      (dx = dy → err = 0) →
      ∃ l, bresenham dx dy sx sy x2 y2 fuel x y err = some l ∧ l.length = n + 1 ∧
        l.head? = some (x, y) ∧ l.getLast? = some (x2, y2) ∧ l.Chain' Adjacent := by
  unfold I16 at hxa hxb hya hyb
  induction n with
  | zero =>
    intro x y err ry fuel hf hx hy hr0 hr1 _ herr hL _ _
    have hry : ry = 0 := by
      by_contra hne
      have h1 : 1 ≤ ry := by omega
      have h2 : dx ≤ ry * dx := by nlinarith
      simp only [Nat.cast_zero, zero_mul, add_zero] at herr
      omega
    obtain ⟨f, rfl⟩ : ∃ f, fuel = f + 1 := ⟨fuel - 1, by omega⟩
    have hx' : x = x2 := by simpa using hx
    have hy' : y = y2 := by rw [hy, hry]; ring
    refine ⟨[(x, y)], ?_, rfl, rfl, by rw [hx', hy']; rfl, List.chain'_singleton _⟩
    unfold bresenham
    rw [if_pos ⟨hx', hy'⟩]
  | succ n ih =>
    intro x y err ry fuel hf hx hy hr0 hr1 hn herr hL hU hJ
    obtain ⟨f, rfl⟩ : ∃ f, fuel = f + 1 := ⟨fuel - 1, by omega⟩
    have hcast : ((n + 1 : Nat) : Int) = (n : Int) + 1 := by push_cast; ring
    rw [hcast] at hx hn herr
    have hn0 : (0 : Int) ≤ n := Int.natCast_nonneg n
    have hxne : ¬ (x = x2 ∧ y = y2) := by
      rintro ⟨h, _⟩
      rcases hsx with rfl | rfl <;> omega
    have hN0 : 0 ≤ (n : Int) * dy := by positivity
    have hN1 : ((n : Int) + 1) * dy = n * dy + dy := by ring
    have hR1 : (ry - 1) * dx = ry * dx - dx := by ring
    have hRz : ry = 0 → ry * dx = 0 := by intro h; rw [h]; ring
    have hsxn : sx * ((n : Int) + 1) = sx * n + sx := by ring
    have hsyr : sy * (ry - 1) = sy * ry - sy := by ring
    have hsxd : -dx ≤ sx * dx ∧ sx * dx ≤ dx := by rcases hsx with rfl | rfl <;> omega
    have hsxb : -(n : Int) ≤ sx * n ∧ sx * n ≤ n := by rcases hsx with rfl | rfl <;> omega
    have hsyd : -dy ≤ sy * dy ∧ sy * dy ≤ dy := by rcases hsy with rfl | rfl <;> omega
    have hsyb : -ry ≤ sy * ry ∧ sy * ry ≤ ry := by rcases hsy with rfl | rfl <;> omega
    have hsxs : sx = 1 ∧ sx * dx = dx ∧ sx * n = n ∨
        sx = -1 ∧ sx * dx = -dx ∧ sx * n = -n := by
      rcases hsx with rfl | rfl <;> omega
    have hsys : sy = 1 ∧ sy * dy = dy ∧ sy * ry = ry ∨
        sy = -1 ∧ sy * dy = -dy ∧ sy * ry = -ry := by
      rcases hsy with rfl | rfl <;> omega
    rw [hN1] at herr
    rw [hsxn] at hx
    have he2 : wrap16 (2 * err) = 2 * err := wrap16_id _ ⟨by omega, by omega⟩
    have hxs : wrap16 (x + sx) = x + sx := wrap16_id _ ⟨by omega, by omega⟩
    have he1 : wrap16 (err - dy) = err - dy := wrap16_id _ ⟨by omega, by omega⟩
    unfold bresenham
    rw [if_neg hxne]
    simp only [he2, if_pos hL, he1, hxs]
    by_cases hys : 2 * err < dx
    · have hry1 : 1 ≤ ry := by
        by_contra hne
        have h0 : ry = 0 := by omega
        have := hRz h0
        omega
      have he3 : wrap16 (err - dy + dx) = err - dy + dx := wrap16_id _ ⟨by omega, by omega⟩
      have hyss : wrap16 (y + sy) = y + sy := wrap16_id _ ⟨by omega, by omega⟩
      simp only [if_pos hys, he3, hyss]
      obtain ⟨l, hl, h1, h2, h3, h4⟩ := ih (x + sx) (y + sy) (err - dy + dx) (ry - 1) f
        (by omega) (by omega) (by rw [hsyr]; omega) (by omega) (by omega) (by omega)
        (by rw [hR1]; omega) (by omega) (by omega) (by intro h; have := hJ h; omega)
      refine ⟨(x, y) :: l, by rw [hl]; rfl, ?_⟩
      refine cons_path _ _ l _ n h1 h2 h3 h4 ?_
      unfold Adjacent
      simp only [abs_le]
      rcases hsx with rfl | rfl <;> rcases hsy with rfl | rfl <;> omega
    · simp only [if_neg hys]
      obtain ⟨l, hl, h1, h2, h3, h4⟩ := ih (x + sx) y (err - dy) ry f
        (by omega) (by omega) hy hr0 hr1 (by omega)
        (by omega) (by have := hJ; omega) (by omega) (by intro h; have := hJ h; omega)
      refine ⟨(x, y) :: l, by rw [hl]; rfl, ?_⟩
      refine cons_path _ _ l _ n h1 h2 h3 h4 ?_
      unfold Adjacent
      simp only [abs_le]
      rcases hsx with rfl | rfl <;> omega

theorem bres_ymajor (dx dy sx sy x2 y2 : Int) (hsx : sx = 1 ∨ sx = -1)
    (hsy : sy = 1 ∨ sy = -1) (hdx : 1 ≤ dx) (hdd : dx < dy) (hB : dy ≤ 10922)
    (hxa : I16 x2) (hxb : I16 (x2 - sx * dx)) (hya : I16 y2) (hyb : I16 (y2 - sy * dy))
    (n : Nat) : ∀ (x y err rx : Int) (fuel : Nat), n < fuel →
      x = x2 - sx * rx → y = y2 - sy * n → 0 ≤ rx → rx ≤ dx → (n : Int) ≤ dy →
      err = dx - dy - n * dx + rx * dy → 2 * err < dx → 2 * err > -(3 * dy) →
      ∃ l, bresenham dx dy sx sy x2 y2 fuel x y err = some l ∧ l.length = n + 1 ∧
        l.head? = some (x, y) ∧ l.getLast? = some (x2, y2) ∧ l.Chain' Adjacent := by
  unfold I16 at hxa hxb hya hyb
  induction n with
  | zero =>
    intro x y err rx fuel hf hx hy hr0 hr1 _ herr hL _
    have hrx : rx = 0 := by
      by_contra hne
      have h1 : 1 ≤ rx := by omega
      have h2 : dy ≤ rx * dy := by nlinarith
      simp only [Nat.cast_zero, zero_mul, sub_zero] at herr
      omega
    obtain ⟨f, rfl⟩ : ∃ f, fuel = f + 1 := ⟨fuel - 1, by omega⟩
    have hy' : y = y2 := by simpa using hy
    have hx' : x = x2 := by rw [hx, hrx]; ring
    refine ⟨[(x, y)], ?_, rfl, rfl, by rw [hx', hy']; rfl, List.chain'_singleton _⟩
    unfold bresenham
    rw [if_pos ⟨hx', hy'⟩]
  | succ n ih =>
    intro x y err rx fuel hf hx hy hr0 hr1 hn herr hL hU
    obtain ⟨f, rfl⟩ : ∃ f, fuel = f + 1 := ⟨fuel - 1, by omega⟩
    have hcast : ((n + 1 : Nat) : Int) = (n : Int) + 1 := by push_cast; ring
    rw [hcast] at hy hn herr
    have hn0 : (0 : Int) ≤ n := Int.natCast_nonneg n
    have hyne : ¬ (x = x2 ∧ y = y2) := by
      rintro ⟨_, h⟩
      rcases hsy with rfl | rfl <;> omega
    have hN0 : 0 ≤ (n : Int) * dx := by positivity
    have hN1 : ((n : Int) + 1) * dx = n * dx + dx := by ring
    have hR1 : (rx - 1) * dy = rx * dy - dy := by ring
    have hRz : rx = 0 → rx * dy = 0 := by intro h; rw [h]; ring
    have hsyn : sy * ((n : Int) + 1) = sy * n + sy := by ring
    have hsxr : sx * (rx - 1) = sx * rx - sx := by ring
    have hsxs : sx = 1 ∧ sx * dx = dx ∧ sx * rx = rx ∨
        sx = -1 ∧ sx * dx = -dx ∧ sx * rx = -rx := by
      rcases hsx with rfl | rfl <;> omega
    have hsys : sy = 1 ∧ sy * dy = dy ∧ sy * n = n ∨
        sy = -1 ∧ sy * dy = -dy ∧ sy * n = -n := by
      rcases hsy with rfl | rfl <;> omega
    rw [hN1] at herr
    rw [hsyn] at hy
    have he2 : wrap16 (2 * err) = 2 * err := wrap16_id _ ⟨by omega, by omega⟩
    have hyss : wrap16 (y + sy) = y + sy := wrap16_id _ ⟨by omega, by omega⟩
    unfold bresenham
    rw [if_neg hyne]
    simp only [he2, if_pos hL, hyss]
    by_cases hxs : 2 * err > -dy
    · have hrx1 : 1 ≤ rx := by
        by_contra hne
        have h0 : rx = 0 := by omega
        have := hRz h0
        omega
      have he1 : wrap16 (err - dy) = err - dy := wrap16_id _ ⟨by omega, by omega⟩
      have he3 : wrap16 (err - dy + dx) = err - dy + dx := wrap16_id _ ⟨by omega, by omega⟩
      have hxss : wrap16 (x + sx) = x + sx := wrap16_id _ ⟨by omega, by omega⟩
      simp only [if_pos hxs, he1, he3, hxss]
      obtain ⟨l, hl, h1, h2, h3, h4⟩ := ih (x + sx) (y + sy) (err - dy + dx) (rx - 1) f
        (by omega) (by rw [hsxr]; omega) (by omega) (by omega) (by omega) (by omega)
        (by rw [hR1]; omega) (by omega) (by omega)
      refine ⟨(x, y) :: l, by rw [hl]; rfl, ?_⟩
      refine cons_path _ _ l _ n h1 h2 h3 h4 ?_
      unfold Adjacent
      simp only [abs_le]
      rcases hsx with rfl | rfl <;> rcases hsy with rfl | rfl <;> omega
    · have he3 : wrap16 (err + dx) = err + dx := wrap16_id _ ⟨by omega, by omega⟩
      simp only [if_neg hxs, he3]
      obtain ⟨l, hl, h1, h2, h3, h4⟩ := ih x (y + sy) (err + dx) rx f
        (by omega) hx (by omega) hr0 hr1 (by omega)
        (by omega) (by omega) (by omega)
      refine ⟨(x, y) :: l, by rw [hl]; rfl, ?_⟩
      refine cons_path _ _ l _ n h1 h2 h3 h4 ?_
      unfold Adjacent
      simp only [abs_le]
      rcases hsy with rfl | rfl <;> omega

/-- The integer branch of `drawLine` between two points that differ in both
coordinates: with enough fuel the loop ends, and its `drawPixel` arguments form
a path from the first to the second endpoint. -/
theorem linePoints_path (fuel : Nat) (x1 y1 x2 y2 : Int) (hx : x1 ≠ x2) (hy : y1 ≠ y2)
    (hx1 : I16 x1) (hy1 : I16 y1) (hx2 : I16 x2) (hy2 : I16 y2)
    (hdx : |x2 - x1| ≤ 10922) (hdy : |y2 - y1| ≤ 10922)
    (hfuel : max |x2 - x1| |y2 - y1| < (fuel : Int)) :
    ∃ pts, linePoints fuel x1 y1 x2 y2 = some pts ∧
      pts.head? = some (x1, y1) ∧ pts.getLast? = some (x2, y2) ∧
      (pts.length : Int) = max |x2 - x1| |y2 - y1| + 1 ∧ pts.Chain' Adjacent := by
  unfold I16 at hx1 hy1 hx2 hy2
  rw [abs_le] at hdx hdy
  -- the sign-selected deltas
  obtain ⟨dx, sx, hdxe, hsx, hdx1, hsxd, habsx⟩ :
      ∃ dx sx : Int, (if x2 > x1 then wrap16 (x2 - x1) else wrap16 (x1 - x2)) = dx ∧
        (if x2 > x1 then (1 : Int) else -1) = sx ∧ 1 ≤ dx ∧ sx * dx = x2 - x1 ∧
        |x2 - x1| = dx := by
    by_cases h : x2 > x1
    · refine ⟨x2 - x1, 1, ?_, by rw [if_pos h], by omega, by ring, abs_of_pos (by omega)⟩
      rw [if_pos h]; exact wrap16_id _ ⟨by omega, by omega⟩
    · refine ⟨x1 - x2, -1, ?_, by rw [if_neg h], by omega, by ring, ?_⟩
      · rw [if_neg h]; exact wrap16_id _ ⟨by omega, by omega⟩
      · rw [abs_of_neg (by omega)]; ring
  obtain ⟨dy, sy, hdye, hsy, hdy1, hsyd, habsy⟩ :
      ∃ dy sy : Int, (if y2 > y1 then wrap16 (y2 - y1) else wrap16 (y1 - y2)) = dy ∧
        (if y2 > y1 then (1 : Int) else -1) = sy ∧ 1 ≤ dy ∧ sy * dy = y2 - y1 ∧
        |y2 - y1| = dy := by
    by_cases h : y2 > y1
    · refine ⟨y2 - y1, 1, ?_, by rw [if_pos h], by omega, by ring, abs_of_pos (by omega)⟩
      rw [if_pos h]; exact wrap16_id _ ⟨by omega, by omega⟩
    · refine ⟨y1 - y2, -1, ?_, by rw [if_neg h], by omega, by ring, ?_⟩
      · rw [if_neg h]; exact wrap16_id _ ⟨by omega, by omega⟩
      · rw [abs_of_neg (by omega)]; ring
  have hsx' : sx = 1 ∨ sx = -1 := by rw [← hsx]; split_ifs <;> simp
  have hsy' : sy = 1 ∨ sy = -1 := by rw [← hsy]; split_ifs <;> simp
  rw [habsx, habsy] at hfuel ⊢
  have hdxB : dx ≤ 10922 := by rw [← habsx, abs_le]; exact ⟨hdx.1, hdx.2⟩
  have hdyB : dy ≤ 10922 := by rw [← habsy, abs_le]; exact ⟨hdy.1, hdy.2⟩
  have herr : wrap16 (dx - dy) = dx - dy := wrap16_id _ ⟨by omega, by omega⟩
  have hxb : x2 - sx * dx = x1 := by rw [hsxd]; ring
  have hyb : y2 - sy * dy = y1 := by rw [hsyd]; ring
  unfold linePoints
  simp only [hdxe, hsx, hdye, hsy, herr]
  by_cases hmaj : dy ≤ dx
  · obtain ⟨l, hl, h1, h2, h3, h4⟩ := bres_xmajor dx dy sx sy x2 y2 hsx' hsy' hdy1 hmaj hdxB
      ⟨by omega, by omega⟩ (by rw [hxb]; exact ⟨by omega, by omega⟩) ⟨by omega, by omega⟩
      (by rw [hyb]; exact ⟨by omega, by omega⟩) dx.toNat x1 y1 (dx - dy) dy fuel
      (by omega) (by rw [Int.toNat_of_nonneg (by omega)]; omega) (by omega) (by omega)
      (by omega) (by omega) (by rw [Int.toNat_of_nonneg (by omega)]; ring) (by omega)
      (by omega) (by intro h; omega)
    refine ⟨l, hl, h2, h3, ?_, h4⟩
    rw [h1, max_eq_left hmaj]
    push_cast
    rw [Int.toNat_of_nonneg (by omega)]
  · obtain ⟨l, hl, h1, h2, h3, h4⟩ := bres_ymajor dx dy sx sy x2 y2 hsx' hsy' hdx1
      (by omega) hdyB
      ⟨by omega, by omega⟩ (by rw [hxb]; exact ⟨by omega, by omega⟩) ⟨by omega, by omega⟩
      (by rw [hyb]; exact ⟨by omega, by omega⟩) dy.toNat x1 y1 (dx - dy) dx fuel
      (by omega) (by omega) (by rw [Int.toNat_of_nonneg (by omega)]; omega) (by omega)
      (by omega) (by omega) (by rw [Int.toNat_of_nonneg (by omega)]; ring) (by omega)
      (by omega)
    refine ⟨l, hl, h2, h3, ?_, h4⟩
    rw [h1, max_eq_right (by omega)]
    push_cast
    rw [Int.toNat_of_nonneg (by omega)]

/-- C12: for `lineWidth = 1`, antialiasing off and endpoints with `x1 ≠ x2` and
`y1 ≠ y2` whose coordinate differences are at most 10922 (so that 16-bit
arithmetic does not overflow), the Bresenham loop of `drawLine` terminates
(any fuel above `max |x2-x1| |y2-y1|` suffices); its sequence of `drawPixel`
calls starts at `(x1, y1)`, ends at `(x2, y2)`, has exactly
`max |x2-x1| |y2-y1| + 1` calls, and consecutive calls differ by at most 1 in
each coordinate. -/
theorem drawLine_bresenham (st : PixelsBase)
    (aa fat : Int → Int → Int → Int → Option (List DevOp)) (fuel : Nat)
    (x1 y1 x2 y2 : Int) (hlw : st.lineWidth = 1) (haa : st.antialiasing = false)
    (hx : x1 ≠ x2) (hy : y1 ≠ y2)
    (hx1 : I16 x1) (hy1 : I16 y1) (hx2 : I16 x2) (hy2 : I16 y2)
    (hdx : |x2 - x1| ≤ 10922) (hdy : |y2 - y1| ≤ 10922)
    (hfuel : max |x2 - x1| |y2 - y1| < (fuel : Int)) :
    ∃ pts, linePoints fuel x1 y1 x2 y2 = some pts ∧
      drawLine st aa fat fuel x1 y1 x2 y2 =
        some ((pts.map (fun p => drawPixel st p.1 p.2)).flatten) ∧
      pts.head? = some (x1, y1) ∧ pts.getLast? = some (x2, y2) ∧
      (pts.length : Int) = max |x2 - x1| |y2 - y1| + 1 ∧ pts.Chain' Adjacent := by
  obtain ⟨pts, h1, h2, h3, h4, h5⟩ :=
    linePoints_path fuel x1 y1 x2 y2 hx hy hx1 hy1 hx2 hy2 hdx hdy hfuel
  refine ⟨pts, h1, ?_, h2, h3, h4, h5⟩
  unfold drawLine
  rw [if_neg (fun h => hy h.1), if_neg (fun h => hx h.1), if_pos hlw, haa, h1]
  rfl

theorem drawLine_bresenham_witness :
    ∃ pts, linePoints 10 0 0 5 (-2) = some pts ∧
      drawLine demoCanvas (fun _ _ _ _ => none) (fun _ _ _ _ => none) 10 0 0 5 (-2) =
        some ((pts.map (fun p => drawPixel demoCanvas p.1 p.2)).flatten) ∧
      pts.head? = some (0, 0) ∧ pts.getLast? = some (5, -2) ∧
      (pts.length : Int) = max |(5 : Int) - 0| |(-2 : Int) - 0| + 1 ∧ pts.Chain' Adjacent :=
  drawLine_bresenham demoCanvas (fun _ _ _ _ => none) (fun _ _ _ _ => none) 10 0 0 5 (-2)
    rfl rfl (by decide) (by decide) (by decide) (by decide) (by decide) (by decide)
    (by norm_num) (by norm_num) (by norm_num)

/-! ## fillCircle -/

theorem wrap16_range (v : Int) : I16 (wrap16 v) := by
  unfold I16 wrap16; omega

theorem circleRow_diverges (w : IntWidth) (yy : Int) (fuel : Nat) :
    ∀ xx, I16 xx → circleRow w 32767 yy fuel xx = none := by
  induction fuel with
  | zero => intro xx _; rfl
  | succ f ih =>
    intro xx hxx
    unfold circleRow
    rw [if_pos hxx.2, ih _ (wrap16_range _)]
    rfl

theorem fillCircleOffsets_diverges (w : IntWidth) (fuel : Nat) :
    fillCircleOffsets w fuel 32767 = none := by
  unfold fillCircleOffsets
  cases fuel with
  | zero => rfl
  | succ f =>
    unfold circleRows
    rw [if_pos (by decide), circleRow_diverges _ _ _ _ (wrap16_range _)]
    rfl

theorem sq_le_of_abs (a r : Int) (h1 : -r ≤ a) (h2 : a ≤ r) : 0 ≤ a * a ∧ a * a ≤ r * r := by
  constructor
  · nlinarith
  · nlinarith

/-- Where twice the square of the radius fits an `int`, the test of line 363
is the test on the exact values. -/
theorem disc_test (w : IntWidth) (xx yy r : Int) (hov : 2 * (r * r) ≤ w.intMax)
    (hx1 : -r ≤ xx) (hx2 : xx ≤ r) (hy1 : -r ≤ yy) (hy2 : yy ≤ r) :
    (wrapInt w (wrapInt w (xx * xx) + wrapInt w (yy * yy)) ≤ wrapInt w (r * r)) ↔
      xx * xx + yy * yy ≤ r * r := by
  obtain ⟨a1, a2⟩ := sq_le_of_abs xx r hx1 hx2
  obtain ⟨b1, b2⟩ := sq_le_of_abs yy r hy1 hy2
  generalize xx * xx = A at *
  generalize yy * yy = B at *
  generalize r * r = C at *
  clear hx1 hx2 hy1 hy2
  rw [wrapInt_small w A a1 (by omega), wrapInt_small w B b1 (by omega),
    wrapInt_small w C (by omega) (by omega), wrapInt_small w _ (by omega) (by omega)]

/-- One row of the scan: every offset of the row from `xx` on that passes the
test of line 363, each once. -/
theorem circleRow_spec (w : IntWidth) (r yy : Int) (hr : r ≤ 32766) (n : Nat) :
    ∀ (xx : Int) (fuel : Nat), -r ≤ xx → xx ≤ r + 1 → r + 1 - xx = n → n < fuel →
      ∃ l, circleRow w r yy fuel xx = some l ∧ l.Nodup ∧
        ∀ a b, (a, b) ∈ l ↔ (b = yy ∧ xx ≤ a ∧ a ≤ r ∧
          wrapInt w (wrapInt w (a * a) + wrapInt w (b * b)) ≤ wrapInt w (r * r)) := by
  induction n with
  | zero =>
    intro xx fuel _ _ hn hf
    obtain ⟨f, rfl⟩ : ∃ f, fuel = f + 1 := ⟨fuel - 1, by omega⟩
    refine ⟨[], ?_, List.nodup_nil, ?_⟩
    · unfold circleRow
      rw [if_neg (by omega)]
    · intro a b
      simp only [List.not_mem_nil, false_iff]
      omega
  | succ n ih =>
    intro xx fuel h1 h2 hn hf
    obtain ⟨f, rfl⟩ : ∃ f, fuel = f + 1 := ⟨fuel - 1, by omega⟩
    have hle : xx ≤ r := by omega
    have hw : wrap16 (xx + 1) = xx + 1 := wrap16_id _ ⟨by omega, by omega⟩
    obtain ⟨l, hl, hnd, hmem⟩ := ih (xx + 1) f (by omega) (by omega) (by push_cast at hn; omega)
      (by omega)
    unfold circleRow
    rw [if_pos hle, hw, hl]
    simp only [Option.map_some']
    by_cases hd : wrapInt w (wrapInt w (xx * xx) + wrapInt w (yy * yy)) ≤ wrapInt w (r * r)
    · rw [if_pos hd]
      refine ⟨_, rfl, ?_, ?_⟩
      · rw [List.nodup_cons]
        refine ⟨?_, hnd⟩
        intro hin
        have := (hmem xx yy).1 hin
        omega
      · intro a b
        rw [List.mem_cons, hmem a b, Prod.mk.injEq]
        constructor
        · rintro (⟨rfl, rfl⟩ | ⟨hb, ha1, ha2, ha3⟩)
          · exact ⟨rfl, le_refl _, hle, hd⟩
          · exact ⟨hb, by omega, ha2, ha3⟩
        · rintro ⟨hb, ha1, ha2, ha3⟩
          by_cases hax : a = xx
          · exact Or.inl ⟨hax, hb⟩
          · exact Or.inr ⟨hb, by omega, ha2, ha3⟩
    · rw [if_neg hd]
      refine ⟨_, rfl, hnd, ?_⟩
      intro a b
      rw [hmem a b]
      constructor
      · rintro ⟨hb, ha1, ha2, ha3⟩
        exact ⟨hb, by omega, ha2, ha3⟩
      · rintro ⟨hb, ha1, ha2, ha3⟩
        refine ⟨hb, ?_, ha2, ha3⟩
        by_contra hlt
        have hax : a = xx := by omega
        rw [hax, hb] at ha3
        exact hd ha3
/-- The rows of the scan from `yy` on: every offset of the square that passes
the test of line 363, each once. -/
theorem circleRows_spec (w : IntWidth) (r : Int) (hr0 : 0 ≤ r) (hr : r ≤ 32766)
    (rowFuel : Nat) (hrf : 2 * r + 1 < (rowFuel : Int)) (n : Nat) :
    ∀ (yy : Int) (fuel : Nat), -r ≤ yy → yy ≤ r + 1 → r + 1 - yy = n → n < fuel →
      ∃ l, circleRows w r rowFuel fuel yy = some l ∧ l.Nodup ∧
        ∀ a b, (a, b) ∈ l ↔
          (yy ≤ b ∧ b ≤ r ∧ -r ≤ a ∧ a ≤ r ∧
            wrapInt w (wrapInt w (a * a) + wrapInt w (b * b)) ≤ wrapInt w (r * r)) := by
  induction n with
  | zero =>
    intro yy fuel _ _ hn hf
    obtain ⟨f, rfl⟩ : ∃ f, fuel = f + 1 := ⟨fuel - 1, by omega⟩
    refine ⟨[], ?_, List.nodup_nil, ?_⟩
    · unfold circleRows
      rw [if_neg (by omega)]
    · intro a b
      simp only [List.not_mem_nil, false_iff]
      omega
  | succ n ih =>
    intro yy fuel h1 h2 hn hf
    obtain ⟨f, rfl⟩ : ∃ f, fuel = f + 1 := ⟨fuel - 1, by omega⟩
    have hle : yy ≤ r := by omega
    have hw : wrap16 (yy + 1) = yy + 1 := wrap16_id _ ⟨by omega, by omega⟩
    have hwr : wrap16 (-r) = -r := wrap16_id _ ⟨by omega, by omega⟩
    obtain ⟨row, hrow, hrnd, hrmem⟩ := circleRow_spec w r yy hr (2 * r + 1).toNat (-r)
      rowFuel (le_refl _) (by omega) (by rw [Int.toNat_of_nonneg (by omega)]; ring) (by omega)
    obtain ⟨l, hl, hnd, hmem⟩ := ih (yy + 1) f (by omega) (by omega)
      (by push_cast at hn; omega) (by omega)
    unfold circleRows
    rw [if_pos hle, hwr, hrow, hw, hl]
    refine ⟨row ++ l, rfl, ?_, ?_⟩
    · rw [List.nodup_append]
      refine ⟨hrnd, hnd, ?_⟩
      intro p hp1 hp2
      obtain ⟨a, b⟩ := p
      have e1 := (hrmem a b).1 hp1
      have e2 := (hmem a b).1 hp2
      omega
    · intro a b
      rw [List.mem_append, hrmem a b, hmem a b]
      constructor
      · rintro (⟨hb, ha1, ha2, ha3⟩ | ⟨hb1, hb2, ha1, ha2, ha3⟩)
        · exact ⟨by omega, by omega, ha1, ha2, ha3⟩
        · exact ⟨by omega, hb2, ha1, ha2, ha3⟩
      · rintro ⟨hb1, hb2, ha1, ha2, ha3⟩
        by_cases hby : b = yy
        · exact Or.inl ⟨hby, ha1, ha2, ha3⟩
        · exact Or.inr ⟨by omega, hb2, ha1, ha2, ha3⟩

/-- The offsets scanned by `fillCircle` for a radius below 32767: the scan ends,
and the offsets are those of the square that pass the test of line 363, each
once. -/
theorem fillCircleOffsets_spec (w : IntWidth) (fuel : Nat) (r : Int) (hr0 : 0 ≤ r)
    (hr : r ≤ 32766) (hfuel : 2 * r + 1 < (fuel : Int)) :
    ∃ l, fillCircleOffsets w fuel r = some l ∧ l.Nodup ∧
      ∀ a b, (a, b) ∈ l ↔ (-r ≤ b ∧ b ≤ r ∧ -r ≤ a ∧ a ≤ r ∧
        wrapInt w (wrapInt w (a * a) + wrapInt w (b * b)) ≤ wrapInt w (r * r)) := by
  have hwr : wrap16 (-r) = -r := wrap16_id _ ⟨by omega, by omega⟩
  obtain ⟨l, hl, hnd, hmem⟩ := circleRows_spec w r hr0 hr fuel hfuel (2 * r + 1).toNat (-r)
    fuel (le_refl _) (by omega) (by rw [Int.toNat_of_nonneg (by omega)]; ring) (by omega)
  refine ⟨l, ?_, hnd, hmem⟩
  unfold fillCircleOffsets
  rw [hwr, hl]

/-- C13 (as stated) fails, in two ways.  For `r = 32767` the loop counters,
being `int16_t`, never exceed `r`, so the scan of `fillCircle` does not end,
whatever the fuel and the width of `int`.  And on a board with a 16-bit `int`
the sum of squares of line 363 does not fit from `r = 128` on: for `r = 128`
the scan ends and calls `drawPixel` at the offset `(128, 128)`, which is in
`[-r, r] x [-r, r]` and outside the disc. -/
theorem fillCircle_overflow :
    (∀ w, ¬ ∃ fuel offs, fillCircleOffsets w fuel 32767 = some offs) ∧
    (∃ offs, fillCircleOffsets IntWidth.w16 258 128 = some offs ∧
      ((128 : Int), (128 : Int)) ∈ offs ∧ ¬ ((128 : Int) * 128 + 128 * 128 ≤ 128 * 128)) := by
  constructor
  · rintro w ⟨fuel, offs, h⟩
    rw [fillCircleOffsets_diverges w fuel] at h
    exact Option.noConfusion h
  · obtain ⟨l, hl, _, hmem⟩ := fillCircleOffsets_spec IntWidth.w16 258 128 (by decide)
      (by decide) (by decide)
    exact ⟨l, hl, (hmem 128 128).2 (by decide), by decide⟩

/-- C13 (amended): with antialiasing off, for every centre and every `r` with
`0 ≤ r ≤ 32766` and `2*r*r ≤ INT_MAX` (that is `r ≤ 127` on a 16-bit `int`, and
no further bound on a 32-bit one), `fillCircle cx cy r` terminates (any fuel
above `2*r + 1` suffices) and calls `drawPixel (cx+dx) (cy+dy)`, the sums taken
as `int16_t`, once for each offset `(dx, dy)` of its scan; the offsets scanned
are exactly those with `dx, dy` in `[-r, r]` and `dx*dx + dy*dy ≤ r*r`, each
exactly once, and no other offset. -/
theorem fillCircle_membership (st : PixelsBase)
    (aaCircle : Int → Int → Int → Bool → Option (List DevOp)) (fuel : Nat) (cx cy r : Int)
    (haa : st.antialiasing = false) (hr0 : 0 ≤ r) (hr : r ≤ 32766)
    (hint : 2 * (r * r) ≤ st.intWidth.intMax)
    (hfuel : 2 * r + 1 < (fuel : Int)) :
    ∃ offs, fillCircleOffsets st.intWidth fuel r = some offs ∧
      fillCircle st aaCircle fuel cx cy r =
        some ((offs.map
          (fun o => drawPixel st (wrap16 (cx + o.1)) (wrap16 (cy + o.2)))).flatten) ∧
      offs.Nodup ∧
      (∀ dx dy, -r ≤ dx → dx ≤ r → -r ≤ dy → dy ≤ r →
        ((dx, dy) ∈ offs ↔ dx * dx + dy * dy ≤ r * r)) ∧
      (∀ dx dy, (dx, dy) ∈ offs → -r ≤ dx ∧ dx ≤ r ∧ -r ≤ dy ∧ dy ≤ r) := by
  obtain ⟨l, hoff, hnd, hmem⟩ := fillCircleOffsets_spec st.intWidth fuel r hr0 hr hfuel
  refine ⟨l, hoff, ?_, hnd, ?_, ?_⟩
  · unfold fillCircle
    rw [haa, hoff]
    rfl
  · intro dx dy h1 h2 h3 h4
    rw [hmem dx dy, disc_test st.intWidth dx dy r hint h1 h2 h3 h4]
    constructor
    · intro h; exact h.2.2.2.2
    · intro h; exact ⟨h3, h4, h1, h2, h⟩
  · intro dx dy h
    obtain ⟨h1, h2, h3, h4, _⟩ := (hmem dx dy).1 h
    exact ⟨h3, h4, h1, h2⟩

theorem fillCircle_membership_witness :
    ∃ offs, fillCircleOffsets demoCanvas.intWidth 6 2 = some offs ∧
      fillCircle demoCanvas (fun _ _ _ _ => none) 6 5 5 2 =
        some ((offs.map
          (fun o => drawPixel demoCanvas (wrap16 (5 + o.1)) (wrap16 (5 + o.2)))).flatten) ∧
      offs.Nodup ∧
      (∀ dx dy, -2 ≤ dx → dx ≤ 2 → -2 ≤ dy → dy ≤ 2 →
        ((dx, dy) ∈ offs ↔ dx * dx + dy * dy ≤ 2 * 2)) ∧
      (∀ dx dy, (dx, dy) ∈ offs → -2 ≤ dx ∧ dx ≤ 2 ∧ -2 ≤ dy ∧ dy ≤ 2) :=
  fillCircle_membership demoCanvas (fun _ _ _ _ => none) 6 5 5 2 rfl (by decide) (by decide)
    (by decide) (by decide)

/-! ## drawBitmap -/

/-- One row of `drawBitmap` while the index stays within `int16_t` and within
the buffer: the writes carry the next `n` buffer entries. -/
theorem bitmapRow_ok (data : List Int) (n : Nat) :
    ∀ p : Nat, p + n ≤ 32768 → p + n ≤ data.length →
      bitmapRow data n (wrap16 p) =
        some (((data.drop p).take n).map
          (fun px => DevOp.deviceWriteData (highByte px) (lowByte px)),
          wrap16 ((p + n : Nat) : Int)) := by
  induction n with
  | zero =>
    intro p _ _
    simp [bitmapRow]
  | succ n ih =>
    intro p h1 h2
    have hw : wrap16 (p : Int) = p := wrap16_id _ ⟨by omega, by omega⟩
    have hlt : p < data.length := by omega
    unfold bitmapRow
    rw [hw, if_pos ⟨by omega, by omega⟩]
    have hn : ((p : Int) + 1) = ((p + 1 : Nat) : Int) := by push_cast; ring
    rw [hn, ih (p + 1) (by omega) (by omega)]
    simp only [Option.map_some', Int.toNat_ofNat, setCurrentPixel16, List.singleton_append]
    rw [List.drop_eq_getElem_cons hlt, List.take_succ_cons, List.map_cons,
      List.getD_eq_getElem _ _ hlt, show p + 1 + n = p + (n + 1) by omega]

/-- All rows of `drawBitmap` while the index stays within `int16_t` and within
the buffer: the writes carry the next `width * m` buffer entries. -/
theorem bitmapRows_ok (data : List Int) (width : Nat) (m : Nat) :
    ∀ p : Nat, p + width * m ≤ 32768 → p + width * m ≤ data.length →
      bitmapRows data width m (wrap16 p) =
        some (((data.drop p).take (width * m)).map
          (fun px => DevOp.deviceWriteData (highByte px) (lowByte px))) := by
  induction m with
  | zero =>
    intro p _ _
    simp [bitmapRows]
  | succ m ih =>
    intro p h1 h2
    have hmul : width * (m + 1) = width + width * m := by ring
    rw [hmul] at h1 h2 ⊢
    unfold bitmapRows
    rw [bitmapRow_ok data width p (by omega) (by omega)]
    simp only [Option.some_bind]
    rw [ih (p + width) (by omega) (by omega)]
    simp only [Option.map_some', List.take_add, List.map_append, List.drop_drop]

/-- A row that starts at index 32767 with more than one pixel to go reads
outside the buffer: the index wraps to -32768. -/
theorem bitmapRow_overflow (data : List Int) (n : Nat) (hd : 32768 ≤ data.length) :
    bitmapRow data (n + 2) 32767 = none := by
  unfold bitmapRow
  rw [if_pos ⟨by decide, by omega⟩]
  have hw : wrap16 (32767 + 1) = -32768 := by decide
  rw [hw]
  unfold bitmapRow
  rw [if_neg (by omega)]
  rfl

/-- Two rows of which the second one fails. -/
theorem bitmapRows_two_none (data : List Int) (width : Nat) (ops : List DevOp) (p : Int)
    (h1 : bitmapRow data width 0 = some (ops, p)) (h2 : bitmapRow data width p = none) :
    bitmapRows data width 2 0 = none := by
  show bitmapRows data width (1 + 1) 0 = none
  unfold bitmapRows
  rw [h1]
  simp only [Option.some_bind]
  show Option.map _ (bitmapRows data width (0 + 1) p) = none
  unfold bitmapRows
  rw [h2]
  rfl

/-- C14 (as stated) fails: for a bitmap of 32767 by 2 pixels the `int16_t` index
wraps to -32768 after the pixel 32767, and the next read lies outside the
buffer. -/
theorem drawBitmap_indexOverflow :
    (0 : Int) ≤ 32767 ∧ (0 : Int) ≤ 2 ∧ bigBitmap.length = 32767 * 2 ∧
    drawBitmap 0 0 32767 2 bigBitmap = none := by
  have hlen : bigBitmap.length = 65534 := List.length_replicate _ _
  refine ⟨by decide, by decide, by rw [hlen], ?_⟩
  have hrow := bitmapRow_ok bigBitmap 32767 0 (by omega) (by rw [hlen]; omega)
  have hw0 : wrap16 ((0 : Nat) : Int) = 0 := by decide
  have hw1 : wrap16 ((0 + 32767 : Nat) : Int) = 32767 := by decide
  rw [hw0, hw1] at hrow
  have hrow2 : bitmapRow bigBitmap 32767 32767 = none :=
    bitmapRow_overflow bigBitmap 32765 (by rw [hlen]; omega)
  have hrows := bitmapRows_two_none bigBitmap 32767 _ _ hrow hrow2
  have hd : drawBitmap 0 0 32767 2 bigBitmap =
      (bitmapRows bigBitmap 32767 2 0).map
        (fun ops => (DevOp.setRegion 0 0 (0 + 32767) (0 + 2) :: ops, 0)) := rfl
  rw [hd, hrows]
  rfl

/-- C14 (amended): for all non-negative `w` and `h` with `w * h ≤ 32768` (so that
the `int16_t` buffer index does not overflow) and every buffer of `w * h`
pixels, `drawBitmap x y w h data` sets exactly one addressing window, then
issues exactly `w * h` pixel writes, the `k`-th carrying `data[k]`, and
returns 0. -/
theorem drawBitmap_streams (x y w h : Int) (data : List Int) (hw : 0 ≤ w) (hh : 0 ≤ h)
    (hsize : w * h ≤ 32768) (hlen : (data.length : Int) = w * h) :
    drawBitmap x y w h data =
      some (DevOp.setRegion x y (x + w) (y + h) ::
        data.map (fun px => DevOp.deviceWriteData (highByte px) (lowByte px)), 0) := by
  obtain ⟨wn, rfl⟩ := Int.eq_ofNat_of_zero_le hw
  obtain ⟨hn, rfl⟩ := Int.eq_ofNat_of_zero_le hh
  have hlen' : data.length = wn * hn := by exact_mod_cast hlen
  have hsize' : wn * hn ≤ 32768 := by exact_mod_cast hsize
  unfold drawBitmap
  have hrows := bitmapRows_ok data wn hn 0 (by omega) (by omega)
  have hw0 : wrap16 ((0 : Nat) : Int) = 0 := by decide
  rw [hw0] at hrows
  simp only [Int.toNat_ofNat]
  rw [hrows, List.drop_zero, ← hlen', List.take_length]
  rfl

theorem drawBitmap_streams_witness :
    drawBitmap 3 4 2 2 [10, 20, 30, 40] =
      some (DevOp.setRegion 3 4 (3 + 2) (4 + 2) ::
        [10, 20, 30, 40].map (fun px => DevOp.deviceWriteData (highByte px) (lowByte px)), 0) :=
  drawBitmap_streams 3 4 2 2 [10, 20, 30, 40] (by decide) (by decide) (by decide) (by decide)

/-! ## scroll -/

/-- The `while` loop that lifts a negative scroll offset ends, at a non-negative
offset with the same residue modulo `deviceHeight`. -/
theorem whileNeg_spec (d : Int) (hd0 : 0 < d) (hd1 : d ≤ 32767) (fuel : Nat) :
    ∀ cs : Int, -32768 ≤ cs → cs ≤ 32767 → -cs < (fuel : Int) → 0 < fuel →
      ∃ r, whileNeg d fuel cs = some r ∧ 0 ≤ r ∧ r ≤ 32767 ∧ r % d = cs % d := by
  induction fuel with
  | zero => intro cs _ _ _ h; omega
  | succ f ih =>
    intro cs h1 h2 h3 _
    unfold whileNeg
    by_cases hneg : cs < 0
    · rw [if_pos hneg, wrap16_id _ ⟨by omega, by omega⟩]
      obtain ⟨r, hr, hr0, hr1, hr2⟩ := ih (cs + d) (by omega) (by omega)
        (by push_cast at h3; omega) (by omega)
      exact ⟨r, hr, hr0, hr1, by rw [hr2, Int.add_emod_self]⟩
    · rw [if_neg hneg]
      exact ⟨cs, rfl, by omega, h2, rfl⟩

/-- The scroll offset and its mirror after one atomic scroll, in arithmetic
form: `s` is the orientation sign. -/
theorem scrollDirect_spec (fuel : Nat) (st : PixelsBase) (dy mdy : Int) (clean : Bool)
    (hcs0 : 0 ≤ st.currentScroll) (hcs1 : st.currentScroll < st.deviceHeight)
    (hd : st.deviceHeight ≤ 32767) (hdy : -32767 ≤ dy) (hdy' : dy ≤ 32767)
    (hsum : I16 (st.currentScroll +
      (if st.orientation.code > Orientation.LANDSCAPE.code then -dy else dy)))
    (hfuel : 32768 < fuel) :
    ∃ st' ops, scrollDirect fuel st dy mdy clean = some (st', ops) ∧
      st'.currentScroll = (st.currentScroll +
        (if st.orientation.code > Orientation.LANDSCAPE.code then -dy else dy)) %
          st.deviceHeight ∧
      st'.deviceHeight = st.deviceHeight ∧ st'.deviceWidth = st.deviceWidth ∧
      st'.orientation = st.orientation ∧
      st'.scrollEnabled = st.scrollEnabled ∧ st'.scrollSupported = st.scrollSupported ∧
      st'.foreground = st.foreground ∧ st'.relativeOrigin = st.relativeOrigin := by
  unfold I16 at hsum
  have hdneg : (if st.orientation.code > Orientation.LANDSCAPE.code then wrap16 (-dy) else dy) =
      (if st.orientation.code > Orientation.LANDSCAPE.code then -dy else dy) := by
    split_ifs
    · exact wrap16_id _ ⟨by omega, by omega⟩
    · rfl
  generalize hs : (if st.orientation.code > Orientation.LANDSCAPE.code then -dy else dy) = sdy
    at hsum hdneg
  have hw : wrap16 (st.currentScroll + sdy) = st.currentScroll + sdy :=
    wrap16_id _ ⟨hsum.1, hsum.2⟩
  obtain ⟨r, hloop, hrn, hrm, hre⟩ := whileNeg_spec st.deviceHeight (by omega) hd fuel
    (st.currentScroll + sdy) hsum.1 hsum.2 (by omega) (by omega)
  have hr0 := Int.emod_nonneg (st.currentScroll + sdy) (show st.deviceHeight ≠ 0 by omega)
  have hr1 := Int.emod_lt_of_pos (st.currentScroll + sdy) (show 0 < st.deviceHeight by omega)
  have hm : wrap16 (r.tmod st.deviceHeight) = (st.currentScroll + sdy) % st.deviceHeight := by
    rw [Int.tmod_eq_emod hrn (by omega), hre]
    exact wrap16_id _ ⟨by omega, by omega⟩
  unfold scrollDirect
  simp only [decide_eq_true_eq, hdneg, hw, hloop, Option.map_some', hm]
  cases clean
  · simp only [Bool.false_eq_true, if_false]
    exact ⟨_, _, rfl, rfl, rfl, rfl, rfl, rfl, rfl, rfl, rfl⟩
  · simp only [if_true]
    refine ⟨_, _, rfl, rfl, ?_, ?_, ?_, ?_, ?_, rfl, rfl⟩ <;> split_ifs <;> rfl

theorem orientSign_mul (o : Orientation) (dy : Int) :
    (if o.code > Orientation.LANDSCAPE.code then -dy else dy) = orientSign o * dy := by
  cases o <;> simp [Orientation.code, orientSign]

theorem ScrollFrame.refl (st : PixelsBase) : ScrollFrame st st :=
  ⟨rfl, rfl, rfl, rfl, rfl, rfl, rfl⟩

theorem ScrollFrame.trans {a b c : PixelsBase} (h1 : ScrollFrame a b) (h2 : ScrollFrame b c) :
    ScrollFrame a c := by
  obtain ⟨a1, a2, a3, a4, a5, a6, a7⟩ := h1
  obtain ⟨b1, b2, b3, b4, b5, b6, b7⟩ := h2
  exact ⟨b1.trans a1, b2.trans a2, b3.trans a3, b4.trans a4, b5.trans a5, b6.trans a6,
    b7.trans a7⟩

theorem ScrollFrame.canScroll {a b : PixelsBase} (h : ScrollFrame a b) :
    canScroll b = canScroll a := by
  unfold Pixels.canScroll
  rw [h.2.2.2.1, h.2.2.2.2.1]

/-- One atomic scroll: the new offset is `(old + s*dy) mod deviceHeight`. -/
theorem scrollDirect_offset (fuel : Nat) (st : PixelsBase) (dy mdy : Int) (clean : Bool)
    (hcs0 : 0 ≤ st.currentScroll) (hcs1 : st.currentScroll < st.deviceHeight)
    (hd : st.deviceHeight ≤ 32767) (hdy : -32767 ≤ dy) (hdy' : dy ≤ 32767)
    (hsum : I16 (st.currentScroll + orientSign st.orientation * dy))
    (hfuel : 32768 < fuel) :
    ∃ st' ops, scrollDirect fuel st dy mdy clean = some (st', ops) ∧
      st'.currentScroll =
        (st.currentScroll + orientSign st.orientation * dy) % st.deviceHeight ∧
      ScrollFrame st st' := by
  rw [← orientSign_mul] at hsum
  obtain ⟨st', ops, h, h1, h2⟩ :=
    scrollDirect_spec fuel st dy mdy clean hcs0 hcs1 hd hdy hdy' hsum hfuel
  rw [orientSign_mul] at h1
  exact ⟨st', ops, h, h1, h2⟩

/-- A unit scroll (`step` is 1 or -1). -/
theorem scrollUnit_offset (fuel : Nat) (st : PixelsBase) (step : Int) (clean : Bool)
    (hcan : canScroll st = true)
    (hcs0 : 0 ≤ st.currentScroll) (hcs1 : st.currentScroll < st.deviceHeight)
    (hd : st.deviceHeight ≤ 32767) (hstep : step = 1 ∨ step = -1) (hfuel : 32768 < fuel) :
    ∃ st' ops, scrollUnit fuel st step clean = some (st', ops) ∧
      st'.currentScroll =
        (st.currentScroll + orientSign st.orientation * step) % st.deviceHeight ∧
      ScrollFrame st st' := by
  unfold scrollUnit
  rw [hcan]
  simp only [Bool.true_eq_false, if_false]
  have hs : -1 ≤ orientSign st.orientation * step ∧ orientSign st.orientation * step ≤ 1 := by
    rcases hstep with rfl | rfl <;> cases st.orientation <;> simp [orientSign]
  exact scrollDirect_offset fuel st step _ clean hcs0 hcs1 hd
    (by rcases hstep with rfl | rfl <;> omega) (by rcases hstep with rfl | rfl <;> omega)
    ⟨by omega, by omega⟩ hfuel

theorem emod_step (a b c d : Int) : ((a + b) % d + c) % d = (a + (b + c)) % d := by
  rw [Int.emod_add_emod, add_assoc]

/-- A `for` loop of unit scrolls moves the offset by one signed step per
iteration. -/
theorem scrollLoop_offset (fuel : Nat) (step : Int) (clean : Bool)
    (pre post : Int → List DevOp) (hstep : step = 1 ∨ step = -1) (hfuel : 32768 < fuel)
    (idx : List Int) :
    ∀ (st0 st : PixelsBase) (k : Int), canScroll st0 = true → ScrollFrame st0 st →
      st0.deviceHeight ≤ 32767 → 0 < st0.deviceHeight →
      st.currentScroll =
        (st0.currentScroll + orientSign st0.orientation * step * k) % st0.deviceHeight →
      ∃ st' ops, scrollLoop (fun s => scrollUnit fuel s step clean) pre post idx st =
          some (st', ops) ∧
        st'.currentScroll =
          (st0.currentScroll + orientSign st0.orientation * step * (k + idx.length)) %
            st0.deviceHeight ∧
        ScrollFrame st0 st' := by
  induction idx with
  | nil =>
    intro st0 st k _ hfr _ _ hcs
    refine ⟨st, [], rfl, ?_, hfr⟩
    rw [hcs]
    simp
  | cons i rest ih =>
    intro st0 st k hcan hfr hd hd0 hcs
    have hr0 := Int.emod_nonneg (st0.currentScroll + orientSign st0.orientation * step * k)
      (show st0.deviceHeight ≠ 0 by omega)
    have hr1 := Int.emod_lt_of_pos (st0.currentScroll + orientSign st0.orientation * step * k)
      hd0
    obtain ⟨st1, ops1, h1, hcs1, hfr1⟩ := scrollUnit_offset fuel st step clean
      (by rw [hfr.canScroll]; exact hcan) (by rw [hcs]; exact hr0)
      (by rw [hcs, hfr.1]; exact hr1) (by rw [hfr.1]; exact hd) hstep hfuel
    have hfr01 := hfr.trans hfr1
    obtain ⟨st2, ops2, h2, hcs2, hfr2⟩ := ih st0 st1 (k + 1) hcan hfr01 hd hd0
      (by rw [hcs1, hcs, hfr.1, hfr.2.2.1, emod_step]; congr 2; ring)
    refine ⟨st2, pre i ++ ops1 ++ post i ++ ops2, ?_, ?_, hfr2⟩
    · unfold scrollLoop
      simp only [h1, Option.some_bind, h2, Option.map_some']
    · rw [hcs2, List.length_cons]
      congr 2
      push_cast
      ring

theorem counter_length (start : Int) (n : Nat) : (counter start n).length = n := by
  unfold counter
  rw [List.length_map, List.length_range]

/-- Any scroll, smooth or not, moves the offset to `(old + s*dy) mod
deviceHeight`, as long as the 16-bit arithmetic does not overflow. -/
theorem scroll_offset_any (fuel : Nat) (st : PixelsBase) (dy x1 x2 : Int)
    (smooth clean : Bool) (hcan : canScroll st = true)
    (hcs0 : 0 ≤ st.currentScroll) (hcs1 : st.currentScroll < st.deviceHeight)
    (hd : st.deviceHeight ≤ 32767) (hdy : -32767 ≤ dy) (hdy' : dy ≤ 32767)
    (hsum : I16 (st.currentScroll + orientSign st.orientation * dy))
    (hfuel : 32768 < fuel) :
    ∃ st' ops, scroll fuel st dy x1 x2 smooth clean = some (st', ops) ∧
      st'.currentScroll =
        (st.currentScroll + orientSign st.orientation * dy) % st.deviceHeight ∧
      ScrollFrame st st' := by
  unfold scroll
  rw [hcan]
  simp only [Bool.true_eq_false, if_false]
  have hneg : wrap16 (-dy) = -dy := wrap16_id _ ⟨by omega, by omega⟩
  rw [hneg]
  by_cases hsm : (if dy > 0 then dy else -dy) > 1 ∧ smooth = true
  · rw [if_pos hsm]
    obtain ⟨hm, _⟩ := hsm
    generalize hmdy : (if dy > 0 then dy else -dy) = mdy at hm ⊢
    have hmdy0 : 2 ≤ mdy := by omega
    have htd : mdy.tdiv 2 = mdy / 2 := Int.tdiv_eq_ediv (by omega) (by omega)
    rw [htd]
    generalize he : (if mdy / 2 < 5 then mdy / 2 else 5) = e
    have he0 : 1 ≤ e := by rw [← he]; split_ifs <;> omega
    have he1 : 2 * e ≤ mdy := by rw [← he]; split_ifs <;> omega
    generalize hst : (if dy < 0 then (-1 : Int) else 1) = step
    have hstep : step = 1 ∨ step = -1 := by rw [← hst]; split_ifs <;> simp
    have hsd : step * mdy = dy := by
      rw [← hst, ← hmdy]; split_ifs <;> omega
    have hinit : st.currentScroll =
        (st.currentScroll + orientSign st.orientation * step * 0) % st.deviceHeight := by
      rw [mul_zero, add_zero, Int.emod_eq_of_lt hcs0 hcs1]
    obtain ⟨s1, o1, h1, c1, f1⟩ := scrollLoop_offset fuel step clean
      (fun i => [DevOp.delay ((if clean = true then 8 else 15) + ((e - i) * (e - i) * 3).tdiv 2)])
      (fun _ => []) hstep hfuel (counter 0 e.toNat) st st 0 hcan (ScrollFrame.refl st) hd
      (by omega) hinit
    obtain ⟨s2, o2, h2, c2, f2⟩ := scrollLoop_offset fuel step clean
      (fun _ => []) (fun _ => [DevOp.delay ((if clean = true then 8 else 15) + 3)])
      hstep hfuel (counter 0 (mdy - e * 2).toNat) st s1 _ hcan f1 hd (by omega) c1
    obtain ⟨s3, o3, h3, c3, f3⟩ := scrollLoop_offset fuel step clean
      (fun _ => []) (fun i => [DevOp.delay ((if clean = true then 8 else 15) + (i * i * 3).tdiv 2)])
      hstep hfuel (counter 1 e.toNat) st s2 _ hcan f2 hd (by omega) c2
    refine ⟨s3, o1 ++ o2 ++ o3, ?_, ?_, f3⟩
    · simp only [h1, Option.some_bind, h2, h3, Option.map_some']
    · rw [c3, counter_length, counter_length, counter_length]
      congr 1
      rw [Int.toNat_of_nonneg (by omega), Int.toNat_of_nonneg (by omega), ← hsd]
      ring
  · rw [if_neg hsm]
    exact scrollDirect_offset fuel st dy _ clean hcs0 hcs1 hd hdy hdy' hsum hfuel

/-- C15 (as stated) fails: on a portrait-flip canvas of 320 rows at offset 0, the
non-smooth `scroll(-32768)` negates `dy` in 16 bits, which leaves -32768, and
ends at offset 192, whereas `(0 + (-1) * (-32768)) mod 320 = 128`. -/
theorem scroll_negation_overflow :
    canScroll flipCanvas = true ∧ 0 ≤ flipCanvas.currentScroll ∧
    flipCanvas.currentScroll < flipCanvas.deviceHeight ∧
    (scroll 40000 flipCanvas (-32768) 0 240 false false).map (fun r => r.1.currentScroll) =
      some 192 ∧
    (flipCanvas.currentScroll + orientSign flipCanvas.orientation * (-32768)) %
      flipCanvas.deviceHeight = 128 := by
  decide

/-- C15 (amended): if scrolling is enabled, `0 ≤ currentScroll < deviceHeight`,
`-32767 ≤ dy` and `old + s*dy` fits an `int16_t` (no 16-bit overflow), then a
non-smooth `scroll(dy, x1, x2, flags)` returns with the new `currentScroll`
equal to `(old + s*dy) mod deviceHeight`, where `s = -1` for `PORTRAIT_FLIP` and
`LANDSCAPE_FLIP` and `s = +1` for `PORTRAIT` and `LANDSCAPE`; so
`0 ≤ currentScroll < deviceHeight` is preserved, also with the clean flag. -/
theorem scroll_offset (fuel : Nat) (st : PixelsBase) (dy x1 x2 : Int)
    (smooth clean : Bool) (hcan : canScroll st = true)
    (hcs0 : 0 ≤ st.currentScroll) (hcs1 : st.currentScroll < st.deviceHeight)
    (hd : st.deviceHeight ≤ 32767) (_hns : smooth = false ∨ (-1 ≤ dy ∧ dy ≤ 1))
    (hdy : -32767 ≤ dy) (hdy' : dy ≤ 32767)
    (hsum : I16 (st.currentScroll + orientSign st.orientation * dy))
    (hfuel : 32768 < fuel) :
    ∃ st' ops, scroll fuel st dy x1 x2 smooth clean = some (st', ops) ∧
      st'.currentScroll =
        (st.currentScroll + orientSign st.orientation * dy) % st.deviceHeight ∧
      0 ≤ st'.currentScroll ∧ st'.currentScroll < st'.deviceHeight ∧
      st'.deviceHeight = st.deviceHeight := by
  obtain ⟨st', ops, h, hc, hf⟩ :=
    scroll_offset_any fuel st dy x1 x2 smooth clean hcan hcs0 hcs1 hd hdy hdy' hsum hfuel
  refine ⟨st', ops, h, hc, ?_, ?_, hf.1⟩
  · rw [hc]; exact Int.emod_nonneg _ (by omega)
  · rw [hc, hf.1]; exact Int.emod_lt_of_pos _ (by omega)

theorem scroll_offset_witness :
    ∃ st' ops, scroll 40000 flipCanvas 7 0 240 false true = some (st', ops) ∧
      st'.currentScroll =
        (flipCanvas.currentScroll + orientSign flipCanvas.orientation * 7) %
          flipCanvas.deviceHeight ∧
      0 ≤ st'.currentScroll ∧ st'.currentScroll < st'.deviceHeight ∧
      st'.deviceHeight = flipCanvas.deviceHeight :=
  scroll_offset 40000 flipCanvas 7 0 240 false true (by decide) (by decide) (by decide)
    (by decide) (Or.inl rfl) (by decide) (by decide) (by decide) (by decide)

/-- C16 (as stated) fails: on the 320-row canvas at offset 0, `scroll(-32768)`
followed by `scroll(-(-32768))`, whose argument is again -32768 as an
`int16_t`, ends at offset 64, not 0. -/
theorem scroll_roundTrip_overflow :
    flipCanvas.currentScroll = 0 ∧ 0 < flipCanvas.deviceHeight ∧
    (scroll 40000 flipCanvas (-32768) 0 240 false false).bind
      (fun r => (scroll 40000 r.1 (wrap16 (-(-32768))) 0 240 false false).map
        (fun r2 => r2.1.currentScroll)) = some 64 := by
  decide

/-- C16 (amended): for every orientation, every `deviceHeight > 0`, every
starting `currentScroll` in `[0, deviceHeight)` and every `dy` with
`|dy| + deviceHeight ≤ 32768` (no 16-bit overflow), with scrolling enabled and
whatever the flags of the two calls, `scroll(dy)` followed by `scroll(-dy)`
returns and restores `currentScroll` to its starting value. -/
theorem scroll_roundTrip (fuel : Nat) (st : PixelsBase) (dy x1 x2 x1' x2' : Int)
    (smooth clean smooth' clean' : Bool) (hcan : canScroll st = true)
    (hcs0 : 0 ≤ st.currentScroll) (hcs1 : st.currentScroll < st.deviceHeight)
    (hd : st.deviceHeight ≤ 32767) (hdy : |dy| + st.deviceHeight ≤ 32768)
    (hfuel : 32768 < fuel) :
    ∃ st1 ops1 st2 ops2, scroll fuel st dy x1 x2 smooth clean = some (st1, ops1) ∧
      scroll fuel st1 (wrap16 (-dy)) x1' x2' smooth' clean' = some (st2, ops2) ∧
      st2.currentScroll = st.currentScroll := by
  have habs := abs_le.mp (le_refl |dy|)
  have habs0 := abs_nonneg dy
  generalize |dy| = a at hdy habs habs0
  have hs : orientSign st.orientation * dy = dy ∨ orientSign st.orientation * dy = -dy := by
    cases st.orientation <;> simp [orientSign]
  have hs' : orientSign st.orientation * -dy = -(orientSign st.orientation * dy) := by ring
  obtain ⟨st1, ops1, h1, c1, f1⟩ := scroll_offset_any fuel st dy x1 x2 smooth clean hcan
    hcs0 hcs1 (by omega) (by omega) (by omega) ⟨by omega, by omega⟩ hfuel
  have hr0 := Int.emod_nonneg (st.currentScroll + orientSign st.orientation * dy)
    (show st.deviceHeight ≠ 0 by omega)
  have hr1 := Int.emod_lt_of_pos (st.currentScroll + orientSign st.orientation * dy)
    (show 0 < st.deviceHeight by omega)
  have hw : wrap16 (-dy) = -dy := wrap16_id _ ⟨by omega, by omega⟩
  rw [hw]
  obtain ⟨st2, ops2, h2, c2, _⟩ := scroll_offset_any fuel st1 (-dy) x1' x2' smooth' clean'
    (by rw [f1.canScroll]; exact hcan) (by rw [c1]; exact hr0)
    (by rw [c1, f1.1]; exact hr1) (by rw [f1.1]; omega) (by omega) (by omega)
    (by rw [c1, f1.2.2.1, hs']; exact ⟨by omega, by omega⟩) hfuel
  refine ⟨st1, ops1, st2, ops2, h1, h2, ?_⟩
  rw [c2, c1, f1.1, f1.2.2.1, emod_step, hs', add_neg_cancel, add_zero,
    Int.emod_eq_of_lt hcs0 hcs1]

theorem scroll_roundTrip_witness :
    ∃ st1 ops1 st2 ops2, scroll 40000 flipCanvas 5 0 240 true false = some (st1, ops1) ∧
      scroll 40000 st1 (wrap16 (-5)) 0 240 false true = some (st2, ops2) ∧
      st2.currentScroll = flipCanvas.currentScroll :=
  scroll_roundTrip 40000 flipCanvas 5 0 240 0 240 true false false true (by decide)
    (by decide) (by decide) (by decide) (by decide) (by decide)

/-! ## Fonts and text -/

theorem setFont_ok (k : FontConsts) (st : PixelsBase) (font : Font)
    (h : pgm font 0 = 90 ∧ pgm font 1 = 70 ∧
      ((pgm font 2 : Int) = k.ANTIALIASED_FONT ∨ (pgm font 2 : Int) = k.BITMASK_FONT)) :
    setFont k st font = ({ st with currentFont := some font }, 0) := by
  obtain ⟨h0, h1, h2⟩ := h
  simp only [setFont]
  rw [if_neg (by rw [h0, h1]; simp), if_neg (by rintro ⟨a, b⟩; rcases h2 with c | c
                                                · exact a c
                                                · exact b c)]

theorem setFont_bad (k : FontConsts) (st : PixelsBase) (font : Font)
    (h : ¬ (pgm font 0 = 90 ∧ pgm font 1 = 70 ∧
      ((pgm font 2 : Int) = k.ANTIALIASED_FONT ∨ (pgm font 2 : Int) = k.BITMASK_FONT))) :
    setFont k st font = ({ st with currentFont := none }, -1) := by
  simp only [setFont]
  by_cases h1 : ((pgm font 0 : Nat) : Int) ≠ 90 ∨ ((pgm font 1 : Nat) : Int) ≠ 70
  · rw [if_pos h1]
  · rw [if_neg h1]
    have h1' : pgm font 0 = 90 ∧ pgm font 1 = 70 := by
      constructor
      · by_contra hc; exact h1 (Or.inl (by exact_mod_cast hc))
      · by_contra hc; exact h1 (Or.inr (by exact_mod_cast hc))
    have h2 : ((pgm font 2 : Nat) : Int) ≠ k.ANTIALIASED_FONT ∧
        ((pgm font 2 : Nat) : Int) ≠ k.BITMASK_FONT := by
      constructor
      · intro hc; exact h ⟨h1'.1, h1'.2, Or.inl hc⟩
      · intro hc; exact h ⟨h1'.1, h1'.2, Or.inr hc⟩
    rw [if_pos h2]

/-- C17: for every font blob, `setFont` returns 0 and makes the blob the active
font if and only if its byte 0 is `'Z'`, byte 1 is `'F'` and byte 2 is
`ANTIALIASED_FONT` or `BITMASK_FONT`; in every other case it returns -1 and the
active font becomes none, whatever font was active before. -/
theorem setFont_spec (k : FontConsts) (st : PixelsBase) (font : Font) :
    ((setFont k st font).2 = 0 ∧ (setFont k st font).1 = { st with currentFont := some font } ↔
      (pgm font 0 = 90 ∧ pgm font 1 = 70 ∧
        ((pgm font 2 : Int) = k.ANTIALIASED_FONT ∨ (pgm font 2 : Int) = k.BITMASK_FONT))) ∧
    (¬ (pgm font 0 = 90 ∧ pgm font 1 = 70 ∧
        ((pgm font 2 : Int) = k.ANTIALIASED_FONT ∨ (pgm font 2 : Int) = k.BITMASK_FONT)) →
      (setFont k st font).2 = -1 ∧ (setFont k st font).1 = { st with currentFont := none }) := by
  refine ⟨⟨fun h => ?_, fun h => ?_⟩, fun h => ?_⟩
  · by_contra hn
    rw [setFont_bad k st font hn] at h
    have h0 : (-1 : Int) = 0 := h.1
    exact absurd h0 (by decide)
  · rw [setFont_ok k st font h]
    exact ⟨rfl, rfl⟩
  · rw [setFont_bad k st font h]
    exact ⟨rfl, rfl⟩

theorem setFont_spec_witness :
    (setFont sampleConsts { demoCanvas with currentFont := some tinyFont } badFont).2 = -1 ∧
    (setFont sampleConsts { demoCanvas with currentFont := some tinyFont } badFont).1 =
      { ({ demoCanvas with currentFont := some tinyFont } : PixelsBase) with
        currentFont := none } :=
  (setFont_spec sampleConsts { demoCanvas with currentFont := some tinyFont } badFont).2
    (by decide)

/-- C18: after a `setFont` call that reported failure, for every text, position
and kerning table, `printString` returns at once with no device operation and
the canvas state (foreground colour included) unchanged, `getTextWidth`
returns 0, and `getTextLineHeight` and `getTextBaseline` return 0. -/
theorem noFont_text (k : FontConsts) (st : PixelsBase) (font : Font) (fuel : Nat)
    (xx yy : Int) (text : List Int) (clean : Bool) (kerning : Option (Int → Int))
    (hfail : (setFont k st font).2 ≠ 0) :
    printString k fuel (setFont k st font).1 xx yy text clean kerning =
      some ((setFont k st font).1, [], xx) ∧
    getTextWidth k fuel (setFont k st font).1 text kerning = some 0 ∧
    getTextLineHeight k (setFont k st font).1 = 0 ∧
    getTextBaseline k (setFont k st font).1 = 0 := by
  have hnone : (setFont k st font).1.currentFont = none := by
    by_cases hok : pgm font 0 = 90 ∧ pgm font 1 = 70 ∧
        ((pgm font 2 : Int) = k.ANTIALIASED_FONT ∨ (pgm font 2 : Int) = k.BITMASK_FONT)
    · rw [setFont_ok k st font hok] at hfail
      exact absurd rfl hfail
    · rw [setFont_bad k st font hok]
  generalize (setFont k st font).1 = st' at hnone
  unfold printString getTextWidth getTextLineHeight getTextBaseline
  rw [hnone]
  exact ⟨rfl, rfl, rfl, rfl⟩

theorem noFont_text_witness :
    printString sampleConsts 10
        (setFont sampleConsts { demoCanvas with currentFont := some tinyFont } badFont).1
        3 4 [65, 66] false none =
      some ((setFont sampleConsts { demoCanvas with currentFont := some tinyFont } badFont).1,
        [], 3) ∧
    getTextWidth sampleConsts 10
        (setFont sampleConsts { demoCanvas with currentFont := some tinyFont } badFont).1
        [65, 66] none = some 0 ∧
    getTextLineHeight sampleConsts
        (setFont sampleConsts { demoCanvas with currentFont := some tinyFont } badFont).1 = 0 ∧
    getTextBaseline sampleConsts
        (setFont sampleConsts { demoCanvas with currentFont := some tinyFont } badFont).1 = 0 :=
  noFont_text sampleConsts { demoCanvas with currentFont := some tinyFont } badFont 10 3 4
    [65, 66] false none (by decide)

/-- C19 fails on the code: with two records for `A`, `printString` stops at the
first one (advance 5) while `getTextWidth` scans on and keeps the last one
(advance 9). -/
theorem getTextWidth_lastMatch :
    (setFont sampleConsts demoCanvas dupFont).2 = 0 ∧
    (printString sampleConsts 10 (setFont sampleConsts demoCanvas dupFont).1 0 0 [65] false
      none).map (fun r => r.2.2 - 0) = some 5 ∧
    getTextWidth sampleConsts 10 (setFont sampleConsts demoCanvas dupFont).1 [65] none =
      some 9 := by
  decide

theorem wrap16_add (a b : Int) : wrap16 (wrap16 a + b) = wrap16 (a + b) := by
  unfold wrap16; omega

/-- The glyph scan of `printString` finds the first record with the code-point
of the character: it rasterises that record when its length is at least 8 and
otherwise, or when there is none before the sentinel, reports the character as
not found without drawing. -/
theorem printScan_first (k : FontConsts) (fuel : Nat) (font : Font) (fontType gh : Int)
    (clean : Bool) (fg : RGB) (x1 yy : Int) (st : PixelsBase) (c : Int) (N : Nat)
    (hs : recordChar font (recPtr k font N) = 0)
    (hfirst : ∀ j, j < N → recordChar font (recPtr k font j) ≠ 0) (r : Nat) :
    ∀ (m n : Nat), m + r = N → r < n →
      printScan k fuel font fontType gh clean fg x1 yy st c n (recPtr k font m) =
        match firstRecord k font c r m with
        | some j =>
          if recordLength font (recPtr k font j) < 8 then some (st, [], false, 0)
          else (drawGlyph k fuel font fontType gh clean fg x1 yy st (recPtr k font j)).map
            (fun q => (q.1, q.2, true, recordWidth font (recPtr k font j)))
        | none => some (st, [], false, 0) := by
  induction r with
  | zero =>
    intro m n hm hn
    obtain ⟨n', rfl⟩ : ∃ n', n = n' + 1 := ⟨n - 1, by omega⟩
    have hmN : m = N := by omega
    subst hmN
    unfold printScan firstRecord
    rw [if_pos hs]
  | succ r ih =>
    intro m n hm hn
    obtain ⟨n', rfl⟩ : ∃ n', n = n' + 1 := ⟨n - 1, by omega⟩
    have hne := hfirst m (by omega)
    unfold printScan firstRecord
    rw [if_neg hne]
    by_cases hc : recordChar font (recPtr k font m) = c
    · rw [if_pos hc, if_pos hc]
    · rw [if_neg hc, if_neg hc]
      have := ih (m + 1) n' (by omega) (by omega)
      rw [recPtr] at this
      exact this

theorem neg_lt_tmod (a b : Int) (h : 0 < b) : -b < a.tmod b := by
  obtain ⟨n, rfl⟩ := Int.eq_ofNat_of_zero_le h.le
  cases a with
  | ofNat m =>
    have := Int.tmod_nonneg (n : Int) (Int.ofNat_nonneg m)
    change 0 ≤ (Int.ofNat m).tmod n at this
    omega
  | negSucc m =>
    have hn : 0 < n := by omega
    have := Nat.mod_lt m.succ hn
    show -(n : Int) < -((m.succ % n : Nat) : Int)
    omega

theorem wrap16_tmod_lt (c ext : Int) (h0 : 0 < ext) (h1 : ext ≤ 32767) :
    wrap16 (c.tmod ext) < ext := by
  have h2 := neg_lt_tmod c ext h0
  have h3 := Int.tmod_lt_of_pos c h0
  rw [wrap16_id _ ⟨by omega, by omega⟩]
  exact h3

/-- A run loop over a positive extent ends: each iteration shortens the run. -/
theorem drawRun_some (ext : Int) (seg : Int → Int → Int → List DevOp) (slack : Int)
    (bump : Bool) (hext : 0 < ext) :
    ∀ (fuel : Nat) (a cross len ctr : Int), a < ext → len ≤ 32767 → len.toNat < fuel →
      ∃ r, drawRun ext seg slack bump fuel a cross len ctr = some r := by
  intro fuel
  induction fuel with
  | zero => intro a cross len ctr _ _ h; omega
  | succ fuel ih =>
    intro a cross len ctr ha hl hf
    unfold drawRun
    by_cases hc : a + len > ext
    · rw [if_pos hc]
      have hw : wrap16 (len - (ext - a)) = len - (ext - a) :=
        wrap16_id _ ⟨by omega, by omega⟩
      obtain ⟨r, hr⟩ := ih 0 (wrap16 (cross + 1)) (wrap16 (len - (ext - a)))
        (if bump then wrap16 (ctr + (ext - a)) else ctr) hext (by rw [hw]; omega)
        (by rw [hw]; omega)
      rw [hr]
      exact ⟨_, rfl⟩
    · rw [if_neg hc]
      exact ⟨_, rfl⟩

theorem wrap16_tmod_neg (c ext : Int) (h0 : ext < 0) (h1 : -32768 < ext) :
    ext < wrap16 (c.tmod ext) ∧ wrap16 (c.tmod ext) < -ext := by
  have e : c.tmod ext = c.tmod (-ext) := by
    conv_lhs => rw [show ext = -(-ext) by ring]
    exact Int.tmod_neg c (-ext)
  have h2 := neg_lt_tmod c (-ext) (by omega)
  have h3 := Int.tmod_lt_of_pos c (show 0 < -ext by omega)
  rw [e, wrap16_id _ ⟨by omega, by omega⟩]
  constructor <;> omega

/-- A run loop over a negative extent ends as well: each iteration lengthens
the run, until the `int16_t` length wraps to a value below the extent. -/
theorem drawRun_neg (ext : Int) (seg : Int → Int → Int → List DevOp) (slack : Int)
    (bump : Bool) (h0 : ext < 0) (h1 : -512 ≤ ext) :
    ∀ (fuel : Nat) (a cross len ctr : Int), ext < a → a < -ext → -32768 ≤ len →
      len ≤ 32767 → (if a + len > ext then (32769 - len).toNat else 0) < fuel →
      ∃ r, drawRun ext seg slack bump fuel a cross len ctr = some r := by
  intro fuel
  induction fuel with
  | zero => intro a cross len ctr _ _ _ _ h; omega
  | succ fuel ih =>
    intro a cross len ctr ha1 ha2 hl0 hl1 hf
    unfold drawRun
    by_cases hc : a + len > ext
    · rw [if_pos hc]
      rw [if_pos hc] at hf
      have hL : I16 (wrap16 (len - (ext - a))) ∧
          (wrap16 (len - (ext - a)) = len - (ext - a) ∨
            wrap16 (len - (ext - a)) = len - (ext - a) - 65536) := by
        unfold I16 wrap16
        omega
      generalize wrap16 (len - (ext - a)) = L at hL
      obtain ⟨⟨hL0, hL1⟩, hL2⟩ := hL
      obtain ⟨r, hr⟩ := ih 0 (wrap16 (cross + 1)) L
        (if bump then wrap16 (ctr + (ext - a)) else ctr) h0 (by omega) hL0 hL1
        (by split_ifs <;> omega)
      rw [hr]
      exact ⟨_, rfl⟩
    · rw [if_neg hc]
      exact ⟨_, rfl⟩

/-- A run loop entered at the remainder of the cursor ends for every nonzero
extent. -/
theorem drawRun_total (ext : Int) (seg : Int → Int → Int → List DevOp) (slack : Int)
    (bump : Bool) (hne : ext ≠ 0) (h1 : -512 ≤ ext) (h2 : ext ≤ 32767) (fuel : Nat)
    (ctr cross len c2 : Int) (hl0 : 0 ≤ len) (hl1 : len ≤ 127) (hf : 32770 ≤ fuel) :
    ∃ r, drawRun ext seg slack bump fuel (wrap16 (ctr.tmod ext)) cross len c2 = some r := by
  rcases lt_or_gt_of_ne hne with hneg | hpos
  · obtain ⟨a1, a2⟩ := wrap16_tmod_neg ctr ext hneg (by omega)
    exact drawRun_neg ext seg slack bump hneg h1 fuel _ cross len c2 a1 a2 (by omega)
      (by omega) (by split_ifs <;> omega)
  · exact drawRun_some ext seg slack bump hpos fuel _ cross len c2
      (wrap16_tmod_lt ctr ext hpos h2) (by omega) (by omega)

theorem aaByte_ret (fuel : Nat) (vraster clean : Bool) (fg : RGB)
    (ext x1 yy marginLeft marginTop : Int) (st : PixelsBase) (b : Nat) (ctr : Int)
    (hf : 32770 ≤ fuel) (hne : ext ≠ 0) (h1 : -512 ≤ ext) (h2 : ext ≤ 32767) :
    ∃ r, aaByte fuel vraster clean fg ext x1 yy marginLeft marginTop st b ctr = some r := by
  unfold aaByte
  rw [if_neg hne]
  by_cases hb : (0xc0 &&& b) > 0
  · simp only [if_pos hb]
    by_cases hc : (0x80 &&& b) > 0
    · simp only [if_pos hc]
      have hl : (0x3f &&& b) ≤ 0x3f := Nat.and_le_left
      obtain ⟨r, hr⟩ := drawRun_total ext
        (glyphSeg (setColor st (if clean then st.background else fg)) vraster x1 yy marginLeft
          marginTop) (-1) false hne h1 h2 fuel ctr (wrap16 (ctr.tdiv ext))
        ((0x3f &&& b : Nat) : Int) (wrap16 (ctr + ((0x3f &&& b : Nat) : Int)))
        (by omega) (by omega) hf
      rw [hr]
      exact ⟨_, rfl⟩
    · simp only [if_neg hc]
      exact ⟨_, rfl⟩
  · simp only [if_neg hb]
    exact ⟨_, rfl⟩

theorem bmByte_ret (fuel : Nat) (vraster : Bool) (ext x1 yy marginLeft marginTop : Int)
    (st : PixelsBase) (b : Nat) (ctr : Int) (hf : 32770 ≤ fuel)
    (hne : (0x80 &&& b) > 0 → ext ≠ 0) (h1 : -512 ≤ ext) (h2 : ext ≤ 32767) :
    ∃ r, bmByte fuel vraster ext x1 yy marginLeft marginTop st b ctr = some r := by
  unfold bmByte
  by_cases hc : (0x80 &&& b) > 0
  · simp only [if_pos hc]
    rw [if_neg (hne hc)]
    have hl : (0x7f &&& b) ≤ 0x7f := Nat.and_le_left
    obtain ⟨r, hr⟩ := drawRun_total ext (glyphSeg st vraster x1 yy marginLeft marginTop) 0 true
      (hne hc) h1 h2 fuel ctr (wrap16 (ctr.tdiv ext)) ((0x7f &&& b : Nat) : Int) ctr
      (by omega) (by omega) hf
    rw [hr]
    exact ⟨_, rfl⟩
  · simp only [if_neg hc]
    exact ⟨_, rfl⟩

theorem rawByte_ret (effW x1 yy marginLeft marginTop : Int) (st : PixelsBase) (b : Nat)
    (i : Int) (h0 : effW ≠ 0) :
    ∃ r, rawByte effW x1 yy marginLeft marginTop st b i = some r := by
  unfold rawByte
  rw [if_neg h0]
  exact ⟨_, rfl⟩

theorem glyphLoop_ret
    (step : PixelsBase → Nat → Int → Option (PixelsBase × List DevOp × Int)) :
    ∀ (bytes : List Nat), (∀ st b ctr, b ∈ bytes → ∃ r, step st b ctr = some r) →
      ∀ (st : PixelsBase) (ctr : Int), ∃ r, glyphLoop step bytes st ctr = some r := by
  intro bytes
  induction bytes with
  | nil => intro _ st ctr; exact ⟨_, rfl⟩
  | cons b rest ih =>
    intro hstep st ctr
    obtain ⟨r, hr⟩ := hstep st b ctr (List.mem_cons_self _ _)
    obtain ⟨r2, hr2⟩ := ih (fun s b' c hb' => hstep s b' c (List.mem_cons_of_mem _ hb'))
      r.1 r.2.2
    unfold glyphLoop
    rw [hr, Option.some_bind, hr2]
    exact ⟨_, rfl⟩

/-- The effective width of a record lies in `-254 .. 255`. -/
theorem effWidth_range (font : Font) (ptr : Int) :
    -512 ≤ effWidth font ptr ∧ effWidth font ptr ≤ 32767 := by
  have h1 : (0xff &&& pgm font (ptr + 4)) ≤ 0xff := Nat.and_le_left
  have h2 : (0x7f &&& pgm font (ptr + 5)) ≤ 0x7f := Nat.and_le_left
  have h3 : (0x7f &&& pgm font (ptr + 7)) ≤ 0x7f := Nat.and_le_left
  unfold effWidth recordWidth
  rw [wrap16_id _ ⟨by omega, by omega⟩]
  constructor <;> omega

/-- The effective height of a record, for a glyph height of one byte, lies in
`-382 .. 255`. -/
theorem effHeight_range (font : Font) (gh ptr : Int) (h0 : 0 ≤ gh) (h255 : gh ≤ 255) :
    -512 ≤ effHeight font gh ptr ∧ effHeight font gh ptr ≤ 32767 := by
  have h2 : (0xff &&& pgm font (ptr + 6)) ≤ 0xff := Nat.and_le_left
  have h3 : (0x7f &&& pgm font (ptr + 7)) ≤ 0x7f := Nat.and_le_left
  unfold effHeight
  rw [wrap16_id _ ⟨by omega, by omega⟩]
  constructor <;> omega

/-- The rasterisation of a record that does not divide by zero ends with a
result, given 32770 units of fuel for the run loops. -/
theorem drawGlyph_ret (k : FontConsts) (fuel : Nat) (font : Font) (fontType gh : Int)
    (clean : Bool) (fg : RGB) (x1 yy : Int) (st : PixelsBase) (ptr : Int) (hf : 32770 ≤ fuel)
    (h0 : 0 ≤ gh) (h255 : gh ≤ 255) (hsafe : ¬ dividesByZero k font fontType gh ptr) :
    ∃ r, drawGlyph k fuel font fontType gh clean fg x1 yy st ptr = some r := by
  have hext : ∀ v : Bool, -512 ≤ (if v then effHeight font gh ptr else effWidth font ptr) ∧
      (if v then effHeight font gh ptr else effWidth font ptr) ≤ 32767 := by
    intro v
    cases v
    · exact effWidth_range font ptr
    · exact effHeight_range font gh ptr h0 h255
  unfold dividesByZero at hsafe
  unfold drawGlyph
  dsimp only
  by_cases h1 : fontType = k.ANTIALIASED_FONT
  · rw [if_pos h1]
    rw [if_pos h1] at hsafe
    apply glyphLoop_ret
    intro s b c hb
    refine aaByte_ret fuel _ clean fg _ x1 yy _ _ s b c hf ?_ (hext _).1 (hext _).2
    intro hz
    apply hsafe
    refine ⟨?_, List.ne_nil_of_mem hb⟩
    simpa using hz
  · rw [if_neg h1]
    rw [if_neg h1] at hsafe
    by_cases h2 : fontType = k.BITMASK_FONT
    · rw [if_pos h2]
      rw [if_pos h2] at hsafe
      by_cases h3 : (pgm font (ptr + 7) &&& 0x80) > 0
      · rw [if_pos (by simpa using h3)]
        rw [if_pos h3] at hsafe
        apply glyphLoop_ret
        intro s b c hb
        refine bmByte_ret fuel _ _ x1 yy _ _ s b c hf ?_ (hext _).1 (hext _).2
        intro hb2 hz
        apply hsafe
        refine ⟨?_, b, hb, hb2⟩
        simpa using hz
      · rw [if_neg (by simpa using h3)]
        rw [if_neg h3] at hsafe
        apply glyphLoop_ret
        intro s b c hb
        refine rawByte_ret _ x1 yy _ _ s b c ?_
        intro hz
        exact hsafe ⟨hz, List.ne_nil_of_mem hb⟩
    · rw [if_neg h2]
      exact ⟨_, rfl⟩

theorem firstRecord_lt (k : FontConsts) (font : Font) (c : Int) (r : Nat) :
    ∀ (m j : Nat), firstRecord k font c r m = some j → j < m + r := by
  induction r with
  | zero => intro m j h; simp [firstRecord] at h
  | succ r ih =>
    intro m j h
    unfold firstRecord at h
    by_cases hc : recordChar font (recPtr k font m) = c
    · rw [if_pos hc] at h
      have hj : m = j := Option.some.inj h
      omega
    · rw [if_neg hc] at h
      have := ih (m + 1) j h
      omega

theorem printScan_ret (k : FontConsts) (fuel : Nat) (font : Font) (fontType gh : Int)
    (clean : Bool) (fg : RGB) (x1 yy : Int) (st : PixelsBase) (c : Int) (N : Nat)
    (hs : recordChar font (recPtr k font N) = 0)
    (hfirst : ∀ j, j < N → recordChar font (recPtr k font j) ≠ 0)
    (hgh : 0 ≤ gh ∧ gh ≤ 255)
    (hsafe : ∀ j, firstRecord k font c N 0 = some j →
      8 ≤ recordLength font (recPtr k font j) →
      ¬ dividesByZero k font fontType gh (recPtr k font j))
    (hfuel : N < fuel ∧ 32770 ≤ fuel) :
    ∃ st1 ops, printScan k fuel font fontType gh clean fg x1 yy st c fuel
        (wrap16 k.HEADER_LENGTH) =
        some (st1, ops, (glyphAdvance k font N c).isSome, (glyphAdvance k font N c).getD 0) ∧
      (glyphAdvance k font N c = none → st1 = st ∧ ops = []) := by
  have h := printScan_first k fuel font fontType gh clean fg x1 yy st c N hs hfirst N 0 fuel
    (by omega) hfuel.1
  have h0 : recPtr k font 0 = wrap16 k.HEADER_LENGTH := rfl
  rw [h0] at h
  rw [h]
  unfold glyphAdvance
  cases hfr : firstRecord k font c N 0 with
  | none => exact ⟨st, [], rfl, fun _ => ⟨rfl, rfl⟩⟩
  | some j =>
    dsimp only
    by_cases hl : recordLength font (recPtr k font j) < 8
    · rw [if_pos hl, if_neg (by omega)]
      exact ⟨st, [], rfl, fun _ => ⟨rfl, rfl⟩⟩
    · rw [if_neg hl, if_pos (by omega)]
      obtain ⟨q, hq⟩ := drawGlyph_ret k fuel font fontType gh clean fg x1 yy st
        (recPtr k font j) hfuel.2 hgh.1 hgh.2 (hsafe j hfr (by omega))
      rw [hq]
      exact ⟨q.1, q.2, rfl, fun hn => by simp at hn⟩

theorem kernAt_pos (t : Int → Int) (n i : Nat) (h : 1 ≤ n) :
    kernAt (some t) n i = t ((min i (n - 1) : Nat) : Int) := by
  unfold kernAt
  exact if_pos h

theorem penStep_false (width kern x1 : Int) : penStep false width kern x1 = x1 := rfl

theorem penStep_lo (width kern x1 : Int) (h : kern ≤ -100) :
    penStep true width kern x1 = wrap16 (x1 + width) := by
  unfold penStep
  rw [if_pos rfl, if_neg (show ¬ kern > -100 by omega)]

theorem penStep_hi (width kern x1 : Int) (h : kern > -100) :
    penStep true width kern x1 = wrap16 (x1 + width + kern) := by
  unfold penStep
  rw [if_pos rfl, if_pos h, wrap16_add]

/-- The kerning update at the character of index `i`: the table pointer stays
at `min(i, n-1)`, and the pen of a found character advances by its width plus
the kerning `k_i`. -/
theorem kernStep_spec (kerning : Option (Int → Int)) (n i : Nat) (kernPtr kern : Int)
    (hk : ∀ t, kerning = some t → (∀ j : Nat, j < n → t (j : Int) > -100) ∧ t (n : Int) ≤ -100)
    (hi : i < 32767)
    (hinv : (kerning = none ∨ n = 0 → kernPtr = 0 ∧ kern ≤ -100) ∧
      (kerning ≠ none → 1 ≤ n → kernPtr = ((min i (n - 1) : Nat) : Int))) :
    ((kerning = none ∨ n = 0 →
        (kernStep kerning kernPtr kern).1 = 0 ∧ (kernStep kerning kernPtr kern).2 ≤ -100) ∧
      (kerning ≠ none → 1 ≤ n →
        (kernStep kerning kernPtr kern).1 = ((min (i + 1) (n - 1) : Nat) : Int))) ∧
    ∀ (found : Bool) (width x1 : Int),
      penStep found width (kernStep kerning kernPtr kern).2 x1 =
        if found then wrap16 (x1 + width + kernAt kerning n i) else x1 := by
  cases kerning with
  | none =>
    have h0 := hinv.1 (Or.inl rfl)
    have hst : kernStep none kernPtr kern = (kernPtr, kern) := rfl
    rw [hst]
    refine ⟨⟨fun _ => h0, fun h1 => absurd rfl h1⟩, fun found width x1 => ?_⟩
    cases found
    · rfl
    · rw [if_pos rfl, penStep_lo _ _ _ h0.2]
      have hz : kernAt none n i = 0 := rfl
      rw [hz, add_zero]
  | some t =>
    obtain ⟨hpos, hsent⟩ := hk t rfl
    by_cases hn : n = 0
    · subst hn
      have h0 := hinv.1 (Or.inr rfl)
      have hst : kernStep (some t) kernPtr kern = (kernPtr, kern) := by
        unfold kernStep
        dsimp only
        rw [h0.1, if_neg (by simpa using hsent)]
      rw [hst]
      refine ⟨⟨fun _ => h0, fun _ h1 => by omega⟩, fun found width x1 => ?_⟩
      cases found
      · rfl
      · rw [if_pos rfl, penStep_lo _ _ _ h0.2]
        have hz : kernAt (some t) 0 i = 0 := rfl
        rw [hz, add_zero]
    · have hp := hinv.2 (by simp) (by omega)
      have hlt : (min i (n - 1) : Nat) < n := by omega
      have htp := hpos _ hlt
      have hst : kernStep (some t) kernPtr kern =
          (((min (i + 1) (n - 1) : Nat) : Int), t ((min i (n - 1) : Nat) : Int)) := by
        unfold kernStep
        dsimp only
        rw [hp, if_pos htp]
        by_cases hin : i < n - 1
        · have e1 : (min i (n - 1) : Nat) = i := by omega
          have e2 : (min (i + 1) (n - 1) : Nat) = i + 1 := by omega
          have h2 := hpos (i + 1) (by omega)
          rw [e1, e2]
          have e3 : ((i + 1 : Nat) : Int) = (i : Int) + 1 := by push_cast; rfl
          rw [e3] at h2 ⊢
          rw [if_pos h2, wrap16_id _ ⟨by omega, by omega⟩]
        · have e1 : (min i (n - 1) : Nat) = n - 1 := by omega
          have e2 : (min (i + 1) (n - 1) : Nat) = n - 1 := by omega
          have e3 : ((n - 1 : Nat) : Int) + 1 = (n : Int) := by omega
          rw [e1, e2, e3, if_neg (by omega)]
      rw [hst]
      refine ⟨⟨fun h => ?_, fun _ _ => rfl⟩, fun found width x1 => ?_⟩
      · rcases h with h | h
        · cases h
        · exact absurd h hn
      · cases found
        · rfl
        · rw [if_pos rfl, penStep_hi _ _ _ htp, kernAt_pos t n i (by omega)]

/-- The character loop of `printString` returns, with the pen advanced (in
`int16_t` arithmetic) by the advances and kernings of the matched characters. -/
theorem printLoop_ret (k : FontConsts) (fuel : Nat) (font : Font) (fontType gh : Int)
    (clean : Bool) (fg : RGB) (yy : Int) (kerning : Option (Int → Int)) (N n : Nat)
    (hs : recordChar font (recPtr k font N) = 0)
    (hfirst : ∀ j, j < N → recordChar font (recPtr k font j) ≠ 0)
    (hgh : 0 ≤ gh ∧ gh ≤ 255)
    (hk : ∀ t, kerning = some t → (∀ j : Nat, j < n → t (j : Int) > -100) ∧ t (n : Int) ≤ -100)
    (hfuel : N < fuel ∧ 32770 ≤ fuel) :
    ∀ (text : List Int) (i : Nat) (st : PixelsBase) (kernPtr kern x1 : Int),
      (∀ c ∈ text, ∀ j, firstRecord k font c N 0 = some j →
        8 ≤ recordLength font (recPtr k font j) →
        ¬ dividesByZero k font fontType gh (recPtr k font j)) →
      i + text.length ≤ 32767 →
      ((kerning = none ∨ n = 0 → kernPtr = 0 ∧ kern ≤ -100) ∧
        (kerning ≠ none → 1 ≤ n → kernPtr = ((min i (n - 1) : Nat) : Int))) →
      I16 x1 →
      ∃ st1 ops, printLoop k fuel font fontType gh clean fg yy kerning text st kernPtr kern x1 =
        some (st1, ops, wrap16 (x1 + penAdvance k font N kerning n text i)) := by
  intro text
  induction text with
  | nil =>
    intro i st kernPtr kern x1 _ _ _ hx
    refine ⟨st, [], ?_⟩
    unfold printLoop penAdvance
    rw [add_zero, wrap16_id x1 hx]
  | cons c rest ih =>
    intro i st kernPtr kern x1 hsafe hlen hinv hx
    rw [List.length_cons] at hlen
    obtain ⟨st1, ops, hscan, _⟩ := printScan_ret k fuel font fontType gh clean fg x1 yy st c N
      hs hfirst hgh (hsafe c (List.mem_cons_self _ _)) hfuel
    obtain ⟨hinv2, hpen⟩ := kernStep_spec kerning n i kernPtr kern hk (by omega) hinv
    have hx2 : I16 (penStep (glyphAdvance k font N c).isSome ((glyphAdvance k font N c).getD 0)
        (kernStep kerning kernPtr kern).2 x1) := by
      rw [hpen]
      split_ifs
      · exact wrap16_range _
      · exact hx
    obtain ⟨st2, ops2, hrest⟩ := ih (i + 1) st1 (kernStep kerning kernPtr kern).1
      (kernStep kerning kernPtr kern).2 _
      (fun c' hc' => hsafe c' (List.mem_cons_of_mem _ hc')) (by omega) hinv2 hx2
    refine ⟨st2, ops ++ ops2, ?_⟩
    unfold printLoop
    rw [hscan, Option.some_bind]
    dsimp only
    rw [hrest, Option.map_some']
    dsimp only
    have hfin : wrap16 (penStep (glyphAdvance k font N c).isSome
          ((glyphAdvance k font N c).getD 0) (kernStep kerning kernPtr kern).2 x1 +
          penAdvance k font N kerning n rest (i + 1)) =
        wrap16 (x1 + penAdvance k font N kerning n (c :: rest) i) := by
      rw [hpen]
      conv_rhs => unfold penAdvance
      cases hg : glyphAdvance k font N c with
      | none =>
        dsimp only [Option.isSome, Option.getD]
        rw [if_neg (by decide), zero_add]
      | some adv =>
        dsimp only [Option.isSome, Option.getD]
        rw [if_pos rfl, wrap16_add, add_assoc x1, add_assoc x1]
    rw [hfin]

/-- C20 as stated fails, in two ways.  At the `int16_t` bound: from `xx = 32767`
the pen of `printString` on the one matched character `A` of advance 1 ends at
-32768, not at `xx + 1`.  And on a record that makes the rasteriser divide by
zero: in the accepted font `zeroFont` the matched record of `A` has effective
width 0 and one payload byte, and `printString` has no result, whatever the
fuel. -/
theorem printString_pen_fails :
    ((setFont sampleConsts demoCanvas tinyFont).2 = 0 ∧
      (printString sampleConsts 10 (setFont sampleConsts demoCanvas tinyFont).1 32767 0 [65]
        false none).map (fun r => r.2.2) = some (-32768) ∧
      32767 + penAdvance sampleConsts tinyFont 1 none 0 [65] 0 = 32768) ∧
    ((setFont sampleConsts demoCanvas zeroFont).2 = 0 ∧
      recordChar zeroFont (recPtr sampleConsts zeroFont 1) = 0 ∧
      glyphAdvance sampleConsts zeroFont 1 65 = some 0 ∧
      effWidth zeroFont (recPtr sampleConsts zeroFont 0) = 0 ∧
      ∀ fuel, printString sampleConsts fuel (setFont sampleConsts demoCanvas zeroFont).1 3 0 [65]
        false none = none) := by
  refine ⟨by decide, by decide, by decide, by decide, by decide, ?_⟩
  intro fuel
  cases fuel with
  | zero => rfl
  | succ n => rfl

/-- C20 (amended): for an accepted font whose record table ends at a sentinel
(record `N`, code-points compared as the 8-bit `char` the code computes) and in
which no record matched by a character of the text makes the rasteriser divide
by zero, a text of at most 32767 characters and a kerning table with `n`
entries before its first sentinel entry, `printString` returns with the pen at
`xx + sum over matched i of (adv_i + k_i)` whenever that sum fits in
`int16_t`; and the scan of an unmatched character leaves the state unchanged,
draws nothing and reports no advance. -/
theorem printString_pen (k : FontConsts) (fuel : Nat) (st : PixelsBase) (font : Font)
    (xx yy : Int) (text : List Int) (clean : Bool) (kerning : Option (Int → Int)) (N n : Nat)
    (hfont : st.currentFont = some font)
    (hkind : (pgm font 2 : Int) = k.ANTIALIASED_FONT ∨ (pgm font 2 : Int) = k.BITMASK_FONT)
    (hs : recordChar font (recPtr k font N) = 0)
    (hfirst : ∀ j, j < N → recordChar font (recPtr k font j) ≠ 0)
    (hsafe : ∀ c ∈ text, ∀ j, firstRecord k font c N 0 = some j →
      8 ≤ recordLength font (recPtr k font j) →
      ¬ dividesByZero k font (pgm font 2) (pgm font 3) (recPtr k font j))
    (hk : ∀ t, kerning = some t → (∀ j : Nat, j < n → t (j : Int) > -100) ∧ t (n : Int) ≤ -100)
    (hlen : text.length ≤ 32767)
    (hxx : I16 xx)
    (hfit : I16 (xx + penAdvance k font N kerning n text 0))
    (hfuel : N < fuel ∧ 32770 ≤ fuel) :
    (∃ st1 ops, printString k fuel st xx yy text clean kerning =
      some (st1, ops, xx + penAdvance k font N kerning n text 0)) ∧
    (∀ (c : Int) (s : PixelsBase) (x1 : Int), glyphAdvance k font N c = none →
      printScan k fuel font (pgm font 2) (pgm font 3) clean st.foreground x1 yy s c fuel
        (wrap16 k.HEADER_LENGTH) = some (s, [], false, 0)) := by
  have hgh : (0 : Int) ≤ (pgm font 3 : Int) ∧ ((pgm font 3 : Nat) : Int) ≤ 255 := by
    have : pgm font 3 < 256 := Nat.mod_lt _ (by decide)
    omega
  constructor
  · obtain ⟨st1, ops, h⟩ := printLoop_ret k fuel font (pgm font 2) (pgm font 3) clean
      st.foreground yy kerning N n hs hfirst hgh hk hfuel text 0 st 0 (-100) xx hsafe (by omega)
      ⟨fun _ => ⟨rfl, by decide⟩, fun _ _ => by simp⟩ hxx
    refine ⟨setColor st1 st.foreground, ops, ?_⟩
    unfold printString
    rw [hfont]
    dsimp only
    rw [if_neg (by rintro ⟨a, b⟩; rcases hkind with c | c
                   · exact a c
                   · exact b c), h, Option.map_some', wrap16_id _ hfit]
  · intro c s x1 hc
    obtain ⟨st1, ops, hscan, hnone⟩ := printScan_ret k fuel font (pgm font 2) (pgm font 3) clean
      st.foreground x1 yy s c N hs hfirst hgh
      (by
        intro j hj hl
        exfalso
        unfold glyphAdvance at hc
        rw [hj] at hc
        simp only [if_pos hl] at hc
        exact Option.noConfusion hc) hfuel
    rw [hscan, hc, (hnone hc).1, (hnone hc).2]
    rfl

theorem printString_pen_witness :
    3 + penAdvance sampleConsts tinyFont 1 (some sampleKerning) 2 [65, 66, 65] 0 = 4 ∧
    ((∃ st1 ops, printString sampleConsts 32770 { demoCanvas with currentFont := some tinyFont }
        3 0 [65, 66, 65] false (some sampleKerning) =
      some (st1, ops,
        3 + penAdvance sampleConsts tinyFont 1 (some sampleKerning) 2 [65, 66, 65] 0)) ∧
    (∀ (c : Int) (s : PixelsBase) (x1 : Int), glyphAdvance sampleConsts tinyFont 1 c = none →
      printScan sampleConsts 32770 tinyFont (pgm tinyFont 2) (pgm tinyFont 3) false
        ({ demoCanvas with currentFont := some tinyFont } : PixelsBase).foreground x1 0 s c 32770
        (wrap16 sampleConsts.HEADER_LENGTH) = some (s, [], false, 0))) :=
  ⟨by decide,
    printString_pen sampleConsts 32770 { demoCanvas with currentFont := some tinyFont } tinyFont
      3 0 [65, 66, 65] false (some sampleKerning) 1 2 rfl (Or.inl (by decide)) (by decide)
      (by intro j hj; interval_cases j; decide)
      (by
        intro c _ j hj _
        have hj0 : j = 0 := by
          have := firstRecord_lt sampleConsts tinyFont c 1 0 j hj
          omega
        subst hj0
        decide)
      (by
        intro t ht
        cases ht
        refine ⟨?_, by decide⟩
        intro j hj
        interval_cases j <;> decide)
      (by decide) (by decide) (by decide) (by decide)⟩

/-! ## Corrupt records -/

/-- The glyph scan of `getTextWidth` stops at the first record with the
code-point of the character when that record declares a length below 8, and
leaves `found` and `width` as they were. -/
theorem widthScan_short (k : FontConsts) (font : Font) (c : Int) (N j : Nat)
    (found : Bool) (width : Int)
    (hfirst : ∀ i, i < N → recordChar font (recPtr k font i) ≠ 0)
    (hl : recordLength font (recPtr k font j) < 8) (r : Nat) :
    ∀ (m n : Nat), m + r = N → r < n → firstRecord k font c r m = some j →
      widthScan font c n (recPtr k font m) found width = some (found, width) := by
  induction r with
  | zero => intro m n _ _ h; simp [firstRecord] at h
  | succ r ih =>
    intro m n hm hn hfr
    obtain ⟨n', rfl⟩ : ∃ n', n = n' + 1 := ⟨n - 1, by omega⟩
    have hne := hfirst m (by omega)
    unfold firstRecord at hfr
    unfold widthScan
    rw [if_neg hne]
    by_cases hc : recordChar font (recPtr k font m) = c
    · rw [if_pos hc] at hfr
      have hj : m = j := Option.some.inj hfr
      subst hj
      rw [if_pos hc, if_pos hl]
    · rw [if_neg hc] at hfr
      rw [if_neg hc]
      have := ih (m + 1) n' (by omega) (by omega) hfr
      rw [recPtr] at this
      exact this

/-- C21 as stated fails on a short record of another character: the scans for
`A` pass the record for `B` of declared length 4 and match the record after
it, so both functions advance by 5. -/
theorem shortRecord_skipped :
    recordChar skipFont (recPtr sampleConsts skipFont 0) ≠ 0 ∧
    recordLength skipFont (recPtr sampleConsts skipFont 0) = 4 ∧
    (setFont sampleConsts demoCanvas skipFont).2 = 0 ∧
    (printString sampleConsts 10 (setFont sampleConsts demoCanvas skipFont).1 0 0 [65] false
      none).map (fun r => r.2.2) = some 5 ∧
    getTextWidth sampleConsts 10 (setFont sampleConsts demoCanvas skipFont).1 [65] none =
      some 5 := by
  decide

/-- C21 (amended): in the glyph scan of `printString` and of `getTextWidth`,
when the first record before the sentinel whose code-point equals the
character declares a length below 8, the scan for that character stops at that
record: nothing is drawn, the state is unchanged, the character is not found
and the pen does not move. -/
theorem shortRecord_stops (k : FontConsts) (fuel : Nat) (font : Font) (fontType gh : Int)
    (clean : Bool) (fg : RGB) (x1 yy : Int) (st : PixelsBase) (c : Int) (N j : Nat)
    (hs : recordChar font (recPtr k font N) = 0)
    (hfirst : ∀ i, i < N → recordChar font (recPtr k font i) ≠ 0)
    (hfr : firstRecord k font c N 0 = some j)
    (hl : recordLength font (recPtr k font j) < 8)
    (hfuel : N < fuel) :
    printScan k fuel font fontType gh clean fg x1 yy st c fuel (wrap16 k.HEADER_LENGTH) =
      some (st, [], false, 0) ∧
    widthScan font c fuel (wrap16 k.HEADER_LENGTH) false 0 = some (false, 0) ∧
    ∀ kern : Int, penStep false 0 kern x1 = x1 := by
  have h0 : recPtr k font 0 = wrap16 k.HEADER_LENGTH := rfl
  refine ⟨?_, ?_, fun _ => rfl⟩
  · have h := printScan_first k fuel font fontType gh clean fg x1 yy st c N hs hfirst N 0 fuel
      (by omega) hfuel
    rw [h0, hfr] at h
    dsimp only at h
    rw [if_pos hl] at h
    exact h
  · have h := widthScan_short k font c N j false 0 hfirst hl N 0 fuel (by omega) hfuel hfr
    rw [h0] at h
    exact h

theorem shortRecord_stops_witness :
    printScan sampleConsts 10 skipFont 2 10 false ⟨255, 255, 255⟩ 3 4 demoCanvas 66 10
        (wrap16 sampleConsts.HEADER_LENGTH) = some (demoCanvas, [], false, 0) ∧
    widthScan skipFont 66 10 (wrap16 sampleConsts.HEADER_LENGTH) false 0 = some (false, 0) ∧
    ∀ kern : Int, penStep false 0 kern 3 = 3 :=
  shortRecord_stops sampleConsts 10 skipFont 2 10 false ⟨255, 255, 255⟩ 3 4 demoCanvas 66 2 0
    (by decide) (by intro i hi; interval_cases i <;> decide) (by decide) (by decide) (by decide)

/-! ## drawPixel in clip mode -/

/-- On a canvas with `currentScroll = 0`, a rectangle that lies on the canvas is
drawn as four rectangle writes: the top edge without its right corner, the
right edge without its bottom corner, the bottom edge without its left corner
and the left edge without its top corner. -/
theorem drawRectangle_eq (st : PixelsBase) (x y width height : Int)
    (hcs : st.currentScroll = 0) (hW : st.width ≤ 32767) (hH : st.height ≤ 32767)
    (hw : 2 ≤ width) (hh : 2 ≤ height) (hx : 0 ≤ x) (hy : 0 ≤ y)
    (hxw : x + width ≤ st.width) (hyh : y + height ≤ st.height) :
    drawRectangle st x y width height =
      [DevOp.quickFill (st.foreground.convertTo565 : Int) x y (x + width - 2) y,
        DevOp.quickFill (st.foreground.convertTo565 : Int) (x + width - 1) y (x + width - 1)
          (y + height - 2),
        DevOp.quickFill (st.foreground.convertTo565 : Int) (x + 1) (y + height - 1)
          (x + width - 1) (y + height - 1),
        DevOp.quickFill (st.foreground.convertTo565 : Int) x (y + 1) x (y + height - 1)] := by
  have e1 : wrap16 (x + width - 2) = x + width - 2 := wrap16_id _ ⟨by omega, by omega⟩
  have e2 : wrap16 (x + width - 1) = x + width - 1 := wrap16_id _ ⟨by omega, by omega⟩
  have e3 : wrap16 (y + height - 2) = y + height - 2 := wrap16_id _ ⟨by omega, by omega⟩
  have e4 : wrap16 (y + height - 1) = y + height - 1 := wrap16_id _ ⟨by omega, by omega⟩
  have e5 : wrap16 (x + 1) = x + 1 := wrap16_id _ ⟨by omega, by omega⟩
  have e6 : wrap16 (y + 1) = y + 1 := wrap16_id _ ⟨by omega, by omega⟩
  have hf : ∀ a b c d : Int, 0 ≤ a → a ≤ c → c < st.width → 0 ≤ b → b ≤ d → d < st.height →
      fill st (st.foreground.convertTo565 : Int) a b c d =
        [DevOp.quickFill (st.foreground.convertTo565 : Int) a b c d] := by
    intro a b c d ha hac hc hb hbd hd
    rw [fill_noScroll_eq st _ a b c d hcs (by omega) (by omega) ⟨by omega, by omega⟩
      ⟨by omega, by omega⟩ ⟨by omega, by omega⟩ ⟨by omega, by omega⟩,
      if_neg (by omega)]
    exact quickFill_congr _ _ _ _ _ _ _ _ _ (by omega) (by omega) (by omega) (by omega)
  unfold drawRectangle hLine vLine
  rw [e1, e2, e3, e4, e5, e6,
    hf x y (x + width - 2) y hx (by omega) (by omega) hy (by omega) (by omega),
    hf (x + width - 1) y (x + width - 1) (y + height - 2) (by omega) (by omega) (by omega) hy
      (by omega) (by omega),
    hf (x + 1) (y + height - 1) (x + width - 1) (y + height - 1) (by omega) (by omega)
      (by omega) (by omega) (by omega) (by omega),
    hf x (y + 1) x (y + height - 1) hx (by omega) (by omega) (by omega) (by omega) (by omega)]
  rfl

/-- C23: for every `x, y` and every `width ≥ 2`, `height ≥ 2` with the rectangle
fully on the canvas and `currentScroll = 0`, `drawRectangle x y width height`
paints exactly the border pixels of `[x, x+width-1] x [y, y+height-1]`, by four
edge writes no two of which cover a common pixel. -/
theorem drawRectangle_border (st : PixelsBase) (x y width height : Int)
    (hcs : st.currentScroll = 0) (hW : st.width ≤ 32767) (hH : st.height ≤ 32767)
    (hw : 2 ≤ width) (hh : 2 ≤ height) (hx : 0 ≤ x) (hy : 0 ≤ y)
    (hxw : x + width ≤ st.width) (hyh : y + height ≤ st.height) :
    (∀ px py, painted (drawRectangle st x y width height) px py ↔
      (x ≤ px ∧ px ≤ x + width - 1 ∧ y ≤ py ∧ py ≤ y + height - 1 ∧
        (px = x ∨ px = x + width - 1 ∨ py = y ∨ py = y + height - 1))) ∧
    (drawRectangle st x y width height).length = 4 ∧
    (drawRectangle st x y width height).Pairwise
      (fun a b => ∀ px py, ¬ (a.paints px py ∧ b.paints px py)) := by
  rw [drawRectangle_eq st x y width height hcs hW hH hw hh hx hy hxw hyh]
  refine ⟨fun px py => ?_, rfl, ?_⟩
  · simp only [painted, List.mem_cons, List.mem_singleton, exists_eq_or_imp, exists_eq_left,
      DevOp.paints, List.not_mem_nil, false_and, exists_false, or_false]
    omega
  · simp only [List.pairwise_cons, List.mem_cons, List.mem_singleton, forall_eq_or_imp,
      forall_eq, DevOp.paints, List.not_mem_nil, false_implies, implies_true, and_true,
      List.Pairwise.nil]
    refine ⟨⟨?_, ?_, ?_⟩, ⟨?_, ?_⟩, ?_⟩ <;> intro px py <;> omega

theorem drawRectangle_border_witness :
    (painted (drawRectangle demoCanvas 2 3 4 5) 5 7 ↔
      ((2 : Int) ≤ 5 ∧ (5 : Int) ≤ 2 + 4 - 1 ∧ (3 : Int) ≤ 7 ∧ (7 : Int) ≤ 3 + 5 - 1 ∧
        ((5 : Int) = 2 ∨ (5 : Int) = 2 + 4 - 1 ∨ (7 : Int) = 3 ∨ (7 : Int) = 3 + 5 - 1))) ∧
    (drawRectangle demoCanvas 2 3 4 5).length = 4 :=
  ⟨(drawRectangle_border demoCanvas 2 3 4 5 (by decide) (by decide) (by decide) (by decide)
      (by decide) (by decide) (by decide) (by decide) (by decide)).1 5 7,
    (drawRectangle_border demoCanvas 2 3 4 5 (by decide) (by decide) (by decide) (by decide)
      (by decide) (by decide) (by decide) (by decide) (by decide)).2.1⟩

/-! ## Antialiased line -/

/-- C24 fails on the code: for the line from `(0,0)` to `(4,2)` the columns 1, 2
and 3 lie strictly between the end points, but `putColor` is called for the
columns 0 and 4 (the end points), 1 and 2 only; the loop
`for (x = xpxl1 + 1; x < xpxl2 - 1; x++)` stops before the column `x2 - 1 = 3`. -/
theorem drawLineAntialiased_lastColumn :
    (drawLineAntialiased 0 0 4 2).map (fun l => l.map (fun c => c.x)) =
      some [0, 0, 4, 4, 1, 1, 2, 2] := by
  decide

/-! ## Smooth scroll -/

theorem quiet_ite {c : Prop} [Decidable c] {a b : List DevOp} (ha : Quiet a) (hb : Quiet b) :
    Quiet (if c then a else b) := by
  split_ifs
  · exact ha
  · exact hb

theorem quiet_nil : Quiet [] := ⟨rfl, rfl⟩

theorem quiet_one (c a b d e : Int) : Quiet [DevOp.quickFill c a b d e] := ⟨rfl, rfl⟩

theorem quiet_two (c a b d e c' a' b' d' e' : Int) :
    Quiet [DevOp.quickFill c a b d e, DevOp.quickFill c' a' b' d' e'] := ⟨rfl, rfl⟩

/-- The device operations of `fill` are rectangle writes only. -/
theorem fillOrdered_quiet (st : PixelsBase) (color x1 y1 x2 y2 : Int) :
    Quiet (fillOrdered st color x1 y1 x2 y2) := by
  unfold fillOrdered
  cases st.orientation <;> dsimp only <;>
    repeat (first
      | exact quiet_nil
      | exact quiet_one _ _ _ _ _
      | exact quiet_two _ _ _ _ _ _ _ _ _ _
      | apply quiet_ite)

theorem fill_quiet (st : PixelsBase) (color x1 y1 x2 y2 : Int) :
    Quiet (fill st color x1 y1 x2 y2) := fillOrdered_quiet st color _ _ _ _

theorem cleanBand_quiet (st : PixelsBase) (dy mdy : Int) : Quiet (cleanBand st dy mdy) := by
  unfold cleanBand fillRectangle
  cases st.orientation <;> dsimp only <;> apply quiet_ite <;> exact fill_quiet _ _ _ _ _ _

theorem cmd_quiet {ops : List DevOp} (h : Quiet ops) :
    (DevOp.scrollCmd :: ops).count DevOp.scrollCmd = 1 ∧ delays (DevOp.scrollCmd :: ops) = [] := by
  refine ⟨by rw [List.count_cons_self, h.1], ?_⟩
  have h2 := h.2
  unfold delays at h2 ⊢
  rw [List.filterMap_cons]
  exact h2

/-- What an atomic scroll that returns leaves behind: the mirror offset is
recomputed from the new offset, and the device operations hold one `scrollCmd`
and no `delay`. -/
theorem scrollDirect_trace (fuel : Nat) (st : PixelsBase) (dy mdy : Int) (clean : Bool)
    (st' : PixelsBase) (ops : List DevOp)
    (h : scrollDirect fuel st dy mdy clean = some (st', ops)) :
    st'.flipScroll =
      wrap16 ((wrapInt st'.intWidth (st'.deviceHeight - st'.currentScroll)).tmod
        st'.deviceHeight) ∧
    ops.count DevOp.scrollCmd = 1 ∧ delays ops = [] ∧ canScroll st' = canScroll st := by
  unfold scrollDirect at h
  dsimp only at h
  cases hw : whileNeg st.deviceHeight fuel (wrap16 (st.currentScroll +
      if decide (st.orientation.code > Orientation.LANDSCAPE.code) = true then wrap16 (-dy)
      else dy)) with
  | none => rw [hw] at h; simp at h
  | some cs2 =>
    rw [hw, Option.map_some'] at h
    cases clean
    · simp only [Bool.false_eq_true, if_false, Option.some.injEq, Prod.mk.injEq] at h
      obtain ⟨h1, h2⟩ := h
      subst h1 h2
      exact ⟨rfl, rfl, rfl, rfl⟩
    · simp only [if_true, Option.some.injEq, Prod.mk.injEq] at h
      obtain ⟨h1, h2⟩ := h
      subst h1 h2
      refine ⟨?_, ?_, ?_, ?_⟩
      · dsimp only
        split_ifs <;> rfl
      · exact (cmd_quiet (cleanBand_quiet _ _ _)).1
      · exact (cmd_quiet (cleanBand_quiet _ _ _)).2
      · unfold canScroll
        dsimp only
        split_ifs <;> rfl

theorem scrollUnit_scroll (fuel : Nat) (s : PixelsBase) (step x1 x2 : Int) (clean : Bool) :
    scrollUnit fuel s step clean = scroll fuel s step x1 x2 false clean := by
  unfold scrollUnit scroll
  by_cases hc : canScroll s = false
  · rw [if_pos hc, if_pos hc]
  · rw [if_neg hc, if_neg hc]
    exact (if_neg (fun h => Bool.false_ne_true h.2)).symm

theorem scrollUnit_trace (fuel : Nat) (step : Int) (clean : Bool) (s s' : PixelsBase)
    (o : List DevOp) (hcan : canScroll s = true)
    (h : scrollUnit fuel s step clean = some (s', o)) :
    Mirrored s' ∧ o.count DevOp.scrollCmd = 1 ∧ delays o = [] ∧ canScroll s' = true := by
  unfold scrollUnit at h
  rw [if_neg (by rw [hcan]; simp)] at h
  obtain ⟨h1, h2, h3, h4⟩ := scrollDirect_trace fuel s step _ clean s' o h
  exact ⟨h1, h2, h3, by rw [h4, hcan]⟩

theorem unitScrolls_add (unit : PixelsBase → Option (PixelsBase × List DevOp)) (a b : Nat) :
    ∀ (st mid : PixelsBase), unitScrolls unit a st = some mid →
      unitScrolls unit (a + b) st = unitScrolls unit b mid := by
  induction a with
  | zero =>
    intro st mid h
    have hm : st = mid := Option.some.inj h
    rw [Nat.zero_add, hm]
  | succ a ih =>
    intro st mid h
    rw [show a + 1 + b = (a + b) + 1 by omega]
    have e1 : unitScrolls unit (a + b + 1) st =
        (unit st).bind (fun r => unitScrolls unit (a + b) r.1) := rfl
    have e2 : unitScrolls unit (a + 1) st =
        (unit st).bind (fun r => unitScrolls unit a r.1) := rfl
    rw [e1]
    rw [e2] at h
    cases hu : unit st with
    | none => rw [hu] at h; simp at h
    | some r =>
      rw [hu] at h
      rw [Option.some_bind] at h ⊢
      exact ih r.1 mid h

/-- A loop of unit scrolls that returns has made one unit scroll per index; its
delays are those of the loop body. -/
theorem scrollLoop_trace (unit : PixelsBase → Option (PixelsBase × List DevOp))
    (pre post : Int → List DevOp)
    (hunit : ∀ s s' o, canScroll s = true → unit s = some (s', o) →
      Mirrored s' ∧ o.count DevOp.scrollCmd = 1 ∧ delays o = [] ∧ canScroll s' = true)
    (hpre : ∀ i, (pre i).count DevOp.scrollCmd = 0)
    (hpost : ∀ i, (post i).count DevOp.scrollCmd = 0) (idx : List Int) :
    ∀ (st st' : PixelsBase) (ops : List DevOp), canScroll st = true →
      scrollLoop unit pre post idx st = some (st', ops) →
      ops.count DevOp.scrollCmd = idx.length ∧
      delays ops = (idx.map (fun i => delays (pre i) ++ delays (post i))).flatten ∧
      unitScrolls unit idx.length st = some st' ∧
      (idx ≠ [] → Mirrored st') ∧ canScroll st' = true := by
  induction idx with
  | nil =>
    intro st st' ops hcan h
    unfold scrollLoop at h
    simp only [Option.some.injEq, Prod.mk.injEq] at h
    obtain ⟨h1, h2⟩ := h
    subst h1 h2
    exact ⟨rfl, rfl, rfl, fun hn => absurd rfl hn, hcan⟩
  | cons i rest ih =>
    intro st st' ops hcan h
    unfold scrollLoop at h
    cases hu : unit st with
    | none => rw [hu] at h; simp at h
    | some r =>
      rw [hu, Option.some_bind] at h
      cases hl : scrollLoop unit pre post rest r.1 with
      | none => rw [hl] at h; simp at h
      | some r2 =>
        rw [hl, Option.map_some'] at h
        simp only [Option.some.injEq, Prod.mk.injEq] at h
        obtain ⟨h1, h2⟩ := h
        subst h1 h2
        obtain ⟨u1, u2, u3, u4⟩ := hunit st r.1 r.2 hcan hu
        obtain ⟨l1, l2, l3, l4, l5⟩ := ih r.1 r2.1 r2.2 u4 hl
        refine ⟨?_, ?_, ?_, ?_, l5⟩
        · rw [List.count_append, List.count_append, List.count_append, hpre, u2, hpost, l1,
            List.length_cons]
          omega
        · unfold delays at u3 l2 ⊢
          rw [List.filterMap_append, List.filterMap_append, List.filterMap_append, u3, l2,
            List.map_cons, List.flatten_cons, List.append_nil, List.append_assoc]
        · rw [List.length_cons]
          unfold unitScrolls
          rw [hu, Option.some_bind]
          exact l3
        · intro _
          by_cases hr : rest = []
          · subst hr
            unfold scrollLoop at hl
            simp only [Option.some.injEq] at hl
            rw [← hl]
            exact u1
          · exact l4 hr

theorem flatten_singletons (l : List Int) (f : Int → Int) :
    (l.map (fun i => [f i] ++ ([] : List Int))).flatten = l.map f := by
  induction l with
  | nil => rfl
  | cons a rest ih => rw [List.map_cons, List.flatten_cons, ih]; rfl

theorem flatten_singletons_post (l : List Int) (f : Int → Int) :
    (l.map (fun i => ([] : List Int) ++ [f i])).flatten = l.map f := by
  induction l with
  | nil => rfl
  | cons a rest ih => rw [List.map_cons, List.flatten_cons, ih]; rfl

/-- C25 as stated fails when the 16-bit sum overflows: on a canvas of 32767 rows
at offset 32766, the smooth `scroll(2)` ends at offset 1 (mirror 32766) and the
non-smooth `scroll(2)` at offset 32766 (mirror 1). -/
theorem scroll_smooth_overflow :
    canScroll maxCanvas = true ∧
    (scroll 10 maxCanvas 2 0 10 true false).map (fun r => (r.1.currentScroll, r.1.flipScroll)) =
      some (1, 32766) ∧
    (scroll 10 maxCanvas 2 0 10 false false).map (fun r => (r.1.currentScroll, r.1.flipScroll)) =
      some (32766, 1) := by
  decide

/-- C25 (amended): with scrolling enabled, `0 ≤ currentScroll < deviceHeight`,
`|dy| > 1`, `dy ≥ -32767` and `old + s*dy` within the `int16_t` range, a scroll
with the smooth flag returns after exactly `|dy|` unit scrolls of `sign(dy)`,
each the call `scroll(±1, x1, x2, clean flag only)`, with `min(|dy|/2, 5)`
easing delays before the first and after the last of them and a constant delay
after each one in between; the resulting `currentScroll` and `flipScroll` equal
those of the single non-smooth `scroll(dy)` from the same state. -/
theorem scroll_smooth (fuel : Nat) (st : PixelsBase) (dy x1 x2 : Int) (clean : Bool)
    (hcan : canScroll st = true)
    (hcs0 : 0 ≤ st.currentScroll) (hcs1 : st.currentScroll < st.deviceHeight)
    (hd : st.deviceHeight ≤ 32767) (hdy2 : 1 < |dy|) (hdy : -32767 ≤ dy) (hdy' : dy ≤ 32767)
    (hsum : I16 (st.currentScroll + orientSign st.orientation * dy))
    (hfuel : 32768 < fuel) :
    ∃ stS opsS stD opsD,
      scroll fuel st dy x1 x2 true clean = some (stS, opsS) ∧
      scroll fuel st dy x1 x2 false clean = some (stD, opsD) ∧
      stS.currentScroll = stD.currentScroll ∧ stS.flipScroll = stD.flipScroll ∧
      unitScrolls (fun s => scroll fuel s (if dy < 0 then -1 else 1) x1 x2 false clean)
        |dy|.toNat st = some stS ∧
      opsS.count DevOp.scrollCmd = |dy|.toNat ∧
      delays opsS =
        (counter 0 (min (|dy| / 2) 5).toNat).map (fun i =>
          (if clean = true then 8 else 15) +
            ((min (|dy| / 2) 5 - i) * (min (|dy| / 2) 5 - i) * 3).tdiv 2) ++
        (counter 0 (|dy| - min (|dy| / 2) 5 * 2).toNat).map (fun _ =>
          (if clean = true then 8 else 15) + 3) ++
        (counter 1 (min (|dy| / 2) 5).toNat).map (fun i =>
          (if clean = true then 8 else 15) + (i * i * 3).tdiv 2) := by
  obtain ⟨stS, opsS, hS, cS, fS⟩ := scroll_offset_any fuel st dy x1 x2 true clean hcan hcs0
    hcs1 hd hdy hdy' hsum hfuel
  obtain ⟨stD, opsD, hD, cD, fD⟩ := scroll_offset_any fuel st dy x1 x2 false clean hcan hcs0
    hcs1 hd hdy hdy' hsum hfuel
  have hmD : Mirrored stD := by
    have h := hD
    unfold scroll at h
    rw [if_neg (by rw [hcan]; simp)] at h
    dsimp only at h
    rw [if_neg (fun h => Bool.false_ne_true h.2)] at h
    exact (scrollDirect_trace fuel st dy _ clean stD opsD h).1
  -- the smooth call, as three loops of unit scrolls
  have hm : (if dy > 0 then dy else wrap16 (-dy)) = |dy| := by
    rw [wrap16_id _ ⟨by omega, by omega⟩]
    split_ifs with hp
    · exact (abs_of_pos hp).symm
    · exact (abs_of_nonpos (by omega)).symm
  have hS2 := hS
  unfold scroll at hS2
  rw [if_neg (by rw [hcan]; simp)] at hS2
  dsimp only at hS2
  rw [hm, if_pos ⟨hdy2, rfl⟩] at hS2
  have habs0 := abs_nonneg dy
  generalize |dy| = m at hS2 hdy2 habs0 ⊢
  have htd : m.tdiv 2 = m / 2 := Int.tdiv_eq_ediv (by omega) (by omega)
  have he : (if m / 2 < 5 then m / 2 else 5) = min (m / 2) 5 := by split_ifs <;> omega
  rw [htd, he] at hS2
  have he0 : 1 ≤ min (m / 2) 5 := by omega
  have he1 : 2 * min (m / 2) 5 ≤ m := by omega
  generalize min (m / 2) 5 = e at hS2 he0 he1 ⊢
  have hU := fun s s' o => scrollUnit_trace fuel (if dy < 0 then -1 else 1) clean s s' o
  cases h1 : scrollLoop (fun s => scrollUnit fuel s (if dy < 0 then -1 else 1) clean)
      (fun i => [DevOp.delay ((if clean = true then 8 else 15) + ((e - i) * (e - i) * 3).tdiv 2)])
      (fun _ => []) (counter 0 e.toNat) st with
  | none => rw [h1] at hS2; simp at hS2
  | some r1 =>
    rw [h1, Option.some_bind] at hS2
    cases h2 : scrollLoop (fun s => scrollUnit fuel s (if dy < 0 then -1 else 1) clean)
        (fun _ => []) (fun _ => [DevOp.delay ((if clean = true then 8 else 15) + 3)])
        (counter 0 (m - e * 2).toNat) r1.1 with
    | none => rw [h2] at hS2; simp at hS2
    | some r2 =>
      rw [h2, Option.some_bind] at hS2
      cases h3 : scrollLoop (fun s => scrollUnit fuel s (if dy < 0 then -1 else 1) clean)
          (fun _ => []) (fun i => [DevOp.delay ((if clean = true then 8 else 15) +
            (i * i * 3).tdiv 2)]) (counter 1 e.toNat) r2.1 with
      | none => rw [h3] at hS2; simp at hS2
      | some r3 =>
        rw [h3, Option.map_some'] at hS2
        simp only [Option.some.injEq, Prod.mk.injEq] at hS2
        obtain ⟨hs1, hs2⟩ := hS2
        obtain ⟨a1, a2, a3, _, a5⟩ := scrollLoop_trace
          (fun s => scrollUnit fuel s (if dy < 0 then -1 else 1) clean)
          (fun i => [DevOp.delay ((if clean = true then 8 else 15) +
            ((e - i) * (e - i) * 3).tdiv 2)])
          (fun _ => []) hU (fun _ => rfl) (fun _ => rfl) _ st r1.1 r1.2 hcan h1
        obtain ⟨b1, b2, b3, _, b5⟩ := scrollLoop_trace
          (fun s => scrollUnit fuel s (if dy < 0 then -1 else 1) clean)
          (fun _ => []) (fun _ => [DevOp.delay ((if clean = true then 8 else 15) + 3)])
          hU (fun _ => rfl) (fun _ => rfl) _ r1.1 r2.1 r2.2 a5 h2
        obtain ⟨c1, c2, c3, c4, _⟩ := scrollLoop_trace
          (fun s => scrollUnit fuel s (if dy < 0 then -1 else 1) clean)
          (fun _ => []) (fun i => [DevOp.delay ((if clean = true then 8 else 15) +
            (i * i * 3).tdiv 2)])
          hU (fun _ => rfl) (fun _ => rfl) _ r2.1 r3.1 r3.2 b5 h3
        rw [counter_length] at a1 a3 b1 b3 c1 c3
        have hlen : e.toNat + (m - e * 2).toNat + e.toNat = m.toNat := by omega
        have hne : counter 1 e.toNat ≠ [] := by
          intro hc
          have := counter_length 1 e.toNat
          rw [hc] at this
          simp at this
          omega
        have hmS : Mirrored stS := by rw [← hs1]; exact c4 hne
        refine ⟨stS, opsS, stD, opsD, hS, hD, by rw [cS, cD], ?_, ?_, ?_, ?_⟩
        · unfold Mirrored at hmS hmD
          have hr0 := Int.emod_nonneg (st.currentScroll + orientSign st.orientation * dy)
            (show st.deviceHeight ≠ 0 by omega)
          have hr1 := Int.emod_lt_of_pos (st.currentScroll + orientSign st.orientation * dy)
            (show 0 < st.deviceHeight by omega)
          have hX : ∀ w, wrapInt w (st.deviceHeight -
              (st.currentScroll + orientSign st.orientation * dy) % st.deviceHeight) =
              st.deviceHeight -
                (st.currentScroll + orientSign st.orientation * dy) % st.deviceHeight :=
            fun w => wrapInt_id w _ ⟨by omega, by omega⟩
          rw [hmS, hmD, cS, cD, fS.1, fD.1, hX, hX]
        · have hfun : (fun s => scroll fuel s (if dy < 0 then -1 else 1) x1 x2 false clean) =
              (fun s => scrollUnit fuel s (if dy < 0 then -1 else 1) clean) :=
            funext (fun s => (scrollUnit_scroll fuel s _ x1 x2 clean).symm)
          rw [hfun, ← hlen, unitScrolls_add _ _ _ st r2.1
            (by rw [unitScrolls_add _ _ _ st r1.1 a3]; exact b3), ← hs1]
          exact c3
        · rw [← hs2, List.count_append, List.count_append, a1, b1, c1]
          exact hlen
        · rw [← hs2]
          unfold delays at a2 b2 c2 ⊢
          rw [List.filterMap_append, List.filterMap_append, a2, b2, c2]
          have d1 : ∀ x : Int, List.filterMap (fun op => match op with
              | DevOp.delay ms => some ms
              | _ => none) [DevOp.delay x] = [x] := fun _ => rfl
          simp only [d1, List.filterMap_nil]
          rw [flatten_singletons, flatten_singletons_post, flatten_singletons_post]

theorem scroll_smooth_witness :
    ∃ stS opsS stD opsD,
      scroll 40000 flipCanvas 5 0 240 true true = some (stS, opsS) ∧
      scroll 40000 flipCanvas 5 0 240 false true = some (stD, opsD) ∧
      stS.currentScroll = stD.currentScroll ∧ stS.flipScroll = stD.flipScroll ∧
      unitScrolls (fun s => scroll 40000 s (if (5 : Int) < 0 then -1 else 1) 0 240 false true)
        |(5 : Int)|.toNat flipCanvas = some stS ∧
      opsS.count DevOp.scrollCmd = |(5 : Int)|.toNat ∧
      delays opsS =
        (counter 0 (min (|(5 : Int)| / 2) 5).toNat).map (fun i =>
          (if true = true then 8 else 15) +
            ((min (|(5 : Int)| / 2) 5 - i) * (min (|(5 : Int)| / 2) 5 - i) * 3).tdiv 2) ++
        (counter 0 (|(5 : Int)| - min (|(5 : Int)| / 2) 5 * 2).toNat).map (fun _ =>
          (if true = true then 8 else 15) + 3) ++
        (counter 1 (min (|(5 : Int)| / 2) 5).toNat).map (fun i =>
          (if true = true then 8 else 15) + (i * i * 3).tdiv 2) :=
  scroll_smooth 40000 flipCanvas 5 0 240 true (by decide) (by decide) (by decide) (by decide)
    (by decide) (by decide) (by decide) (by decide) (by decide)

/-! ## Scroll with the clean flag -/

theorem painted_cmd (ops : List DevOp) (px py : Int) :
    painted (DevOp.scrollCmd :: ops) px py ↔ painted ops px py := by
  simp [painted, DevOp.paints]

/-- An atomic scroll with the clean flag in the orientation `PORTRAIT`: the
offset moves to `(old + dy) mod deviceHeight`, and the band is filled on a state
in wrap mode at the new offset, with the background colour as foreground. -/
theorem scrollDirect_clean_portrait (fuel : Nat) (st : PixelsBase) (dy mdy : Int)
    (hor : st.orientation = Orientation.PORTRAIT)
    (hcs0 : 0 ≤ st.currentScroll) (hcs1 : st.currentScroll < st.deviceHeight)
    (hd : st.deviceHeight ≤ 32767) (hsum : I16 (st.currentScroll + dy))
    (hfuel : 32768 < fuel) :
    ∃ st' s3, scrollDirect fuel st dy mdy true =
        some (st', DevOp.scrollCmd :: cleanBand s3 dy mdy) ∧
      s3.currentScroll = (st.currentScroll + dy) % st.deviceHeight ∧
      s3.relativeOrigin = false ∧ s3.orientation = Orientation.PORTRAIT ∧
      s3.width = st.width ∧ s3.height = st.height ∧ s3.deviceWidth = st.deviceWidth ∧
      s3.deviceHeight = st.deviceHeight ∧ s3.foreground = st.background ∧
      st'.currentScroll = (st.currentScroll + dy) % st.deviceHeight ∧
      st'.foreground = st.foreground ∧ st'.relativeOrigin = st.relativeOrigin ∧
      st'.scrollCleanMode = false := by
  unfold I16 at hsum
  have hflip : decide (st.orientation.code > Orientation.LANDSCAPE.code) = false := by
    rw [hor]; rfl
  have hw : wrap16 (st.currentScroll + dy) = st.currentScroll + dy :=
    wrap16_id _ ⟨hsum.1, hsum.2⟩
  obtain ⟨r, hloop, hrn, hrm, hre⟩ := whileNeg_spec st.deviceHeight (by omega) hd fuel
    (st.currentScroll + dy) hsum.1 hsum.2 (by omega) (by omega)
  have hr0 := Int.emod_nonneg (st.currentScroll + dy) (show st.deviceHeight ≠ 0 by omega)
  have hr1 := Int.emod_lt_of_pos (st.currentScroll + dy) (show 0 < st.deviceHeight by omega)
  have hm : wrap16 (r.tmod st.deviceHeight) = (st.currentScroll + dy) % st.deviceHeight := by
    rw [Int.tmod_eq_emod hrn (by omega), hre]
    exact wrap16_id _ ⟨by omega, by omega⟩
  unfold scrollDirect
  simp only [hflip, Bool.false_eq_true, if_false, hw, hloop, Option.map_some', hm, if_true]
  exact ⟨_, _, rfl, rfl, rfl, hor, rfl, rfl, rfl, rfl, rfl, rfl, rfl, rfl, rfl⟩

/-- The rows `a..b` filled over the whole width on a portrait canvas in wrap
mode: the device rows written are their images under
`p ↦ (p + currentScroll) mod deviceHeight`, in the given colour. -/
theorem band_rows (s : PixelsBase) (color a b : Int)
    (hro : s.relativeOrigin = false) (hor : s.orientation = Orientation.PORTRAIT)
    (hw : s.width = s.deviceWidth) (hh : s.height = s.deviceHeight)
    (hdw0 : 0 < s.deviceWidth) (hdw : s.deviceWidth ≤ 32767) (hd : s.deviceHeight ≤ 16384)
    (hcs0 : 0 ≤ s.currentScroll) (hcs1 : s.currentScroll < s.deviceHeight)
    (ha : 0 ≤ a) (hab : a ≤ b) (hb : b < s.deviceHeight) :
    (∀ qx qy, painted (fill s color 0 a (s.deviceWidth - 1) b) qx qy ↔
      (0 ≤ qx ∧ qx < s.deviceWidth ∧
        ∃ p, a ≤ p ∧ p ≤ b ∧ qy = (p + s.currentScroll) % s.deviceHeight)) ∧
    (∀ op ∈ fill s color 0 a (s.deviceWidth - 1) b,
      ∃ x y z w, op = DevOp.quickFill color x y z w) := by
  by_cases hz : s.currentScroll = 0
  · have heq := fill_noScroll_eq s color 0 a (s.deviceWidth - 1) b hz (by omega) (by omega)
      ⟨by omega, by omega⟩ ⟨by omega, by omega⟩ ⟨by omega, by omega⟩ ⟨by omega, by omega⟩
    rw [if_neg (by omega)] at heq
    rw [heq]
    refine ⟨fun qx qy => ?_, fun op hop => ?_⟩
    · rw [painted_single, hz]
      constructor
      · intro h
        exact ⟨by omega, by omega, qy, by omega, by omega, by
          rw [add_zero, Int.emod_eq_of_lt (by omega) (by omega)]⟩
      · rintro ⟨h1, h2, p, hp1, hp2, hp3⟩
        rw [add_zero, Int.emod_eq_of_lt (by omega) (by omega)] at hp3
        omega
    · simp only [List.mem_singleton] at hop
      exact ⟨_, _, _, _, hop⟩
  · have hcs : 0 < s.currentScroll := by omega
    have hexp := fillOrdered_wrap_portrait s color (min 0 (s.deviceWidth - 1)) (min a b)
      (max 0 (s.deviceWidth - 1)) (max a b) hro hcs hcs1 hd (Or.inl hor) hh (by omega)
      (by omega) (by omega) (by omega) (by omega) (by omega)
    rw [← fill_canon] at hexp
    have hr1 := Int.emod_nonneg (max (min a b) 0 + s.currentScroll)
      (show s.deviceHeight ≠ 0 by omega)
    have hr2 := Int.emod_lt_of_pos (max (min a b) 0 + s.currentScroll)
      (show 0 < s.deviceHeight by omega)
    have hr3 := Int.emod_nonneg (min (max a b) (s.deviceHeight - 1) + s.currentScroll)
      (show s.deviceHeight ≠ 0 by omega)
    have hr4 := Int.emod_lt_of_pos (min (max a b) (s.deviceHeight - 1) + s.currentScroll)
      (show 0 < s.deviceHeight by omega)
    obtain ⟨_, _, r3, _, r5⟩ := split_spec _ color _ _ _ _ s.deviceHeight true hexp
      (show max (min 0 (s.deviceWidth - 1)) 0 ≤
        min (max 0 (s.deviceWidth - 1)) (s.width - 1) by omega) hr1 hr2 hr3 hr4
    simp only [if_true] at r3 r5
    refine ⟨fun qx qy => ?_, fun op hop => ?_⟩
    · rw [r5 qx qy, rows_union _ _ _ _ qy (by omega) (by omega) (by omega) hcs hcs1]
      constructor
      · rintro ⟨hq, p, hp1, hp2, hp3⟩
        exact ⟨by omega, by omega, p, by omega, by omega, hp3⟩
      · rintro ⟨h1, h2, p, hp1, hp2, hp3⟩
        exact ⟨by omega, p, by omega, by omega, hp3⟩
    · obtain ⟨x, y, z, w, h1, _⟩ := r3 op hop
      exact ⟨x, y, z, w, h1⟩

/-- C26 as stated fails on a tall canvas: on a portrait canvas of 20000 rows at
offset 19000, `scroll(1)` with the clean flag fills the logical row 19999 at
offset 19001; the sum 39000 does not fit the `int16_t` corner, the rectangle
written is at device row -6536, and the device row `(19000 + 0) mod 20000` is
not painted. -/
theorem scroll_clean_overflow :
    canScroll tallClip = true ∧ tallClip.orientation = Orientation.PORTRAIT ∧
    (1 : Int) ≤ tallClip.deviceHeight ∧
    (scroll 10 tallClip 1 0 10 false true).map (fun r => r.2) =
      some [DevOp.scrollCmd, DevOp.quickFill 0 0 (-6536) 9 (-6536)] ∧
    (scroll 10 tallClip 1 0 10 false true).map
      (fun r => decide (painted r.2 0 ((tallClip.currentScroll + 0) % tallClip.deviceHeight))) =
      some false := by
  decide

theorem band_shift (old dy d k : Int) :
    (d - dy + k + (old + dy) % d) % d = (old + k) % d := by
  rw [Int.add_emod_emod]
  have e : d - dy + k + (old + dy) = old + k + d := by ring
  rw [e, Int.add_emod_self]

/-- C26 (amended): in `PORTRAIT` orientation with `width = deviceWidth`,
`height = deviceHeight ≤ 16384` (so that a row plus the offset fits an
`int16_t`), scrolling enabled and `0 ≤ old < deviceHeight`, a non-smooth
`scroll(dy)` with the clean flag and `1 ≤ |dy| ≤ deviceHeight` returns with
`currentScroll = new = (old + dy) mod deviceHeight`; the device pixels written
are exactly all `deviceWidth` columns of the device rows
`(old + k) mod deviceHeight`, `0 ≤ k < dy`, when `dy > 0`, and of the rows
`(new + k) mod deviceHeight`, `0 ≤ k < |dy|`, when `dy < 0`, all in the
background colour; the foreground colour and `relativeOrigin` are as before the
call and `scrollCleanMode` is false. -/
theorem scroll_clean_portrait (fuel : Nat) (st : PixelsBase) (dy x1 x2 : Int)
    (hcan : canScroll st = true) (hor : st.orientation = Orientation.PORTRAIT)
    (hw : st.width = st.deviceWidth) (hh : st.height = st.deviceHeight)
    (hdw0 : 0 < st.deviceWidth) (hdw : st.deviceWidth ≤ 32767)
    (hd : st.deviceHeight ≤ 16384)
    (hcs0 : 0 ≤ st.currentScroll) (hcs1 : st.currentScroll < st.deviceHeight)
    (hdy1 : 1 ≤ |dy|) (hdy2 : |dy| ≤ st.deviceHeight) (hfuel : 32768 < fuel) :
    ∃ st' ops, scroll fuel st dy x1 x2 false true = some (st', ops) ∧
      st'.currentScroll = (st.currentScroll + dy) % st.deviceHeight ∧
      (∀ px py, painted ops px py ↔
        (0 ≤ px ∧ px < st.deviceWidth ∧
          ∃ k, 0 ≤ k ∧ k < |dy| ∧
            py = ((if dy > 0 then st.currentScroll
              else (st.currentScroll + dy) % st.deviceHeight) + k) % st.deviceHeight)) ∧
      (∀ op ∈ ops, op = DevOp.scrollCmd ∨
        ∃ a b c e, op = DevOp.quickFill (st.background.convertTo565 : Int) a b c e) ∧
      st'.foreground = st.foreground ∧ st'.relativeOrigin = st.relativeOrigin ∧
      st'.scrollCleanMode = false := by
  have habs := abs_le.mp hdy2
  have hm : (if dy > 0 then dy else wrap16 (-dy)) = |dy| := by
    rw [wrap16_id _ ⟨by omega, by omega⟩]
    split_ifs with hp
    · exact (abs_of_pos hp).symm
    · exact (abs_of_nonpos (by omega)).symm
  have hcases : (0 < dy ∧ |dy| = dy) ∨ (dy < 0 ∧ |dy| = -dy) := by
    rcases lt_trichotomy dy 0 with h | h | h
    · exact Or.inr ⟨h, abs_of_neg h⟩
    · subst h; simp at hdy1
    · exact Or.inl ⟨h, abs_of_pos h⟩
  generalize |dy| = m at hdy1 hdy2 habs hm hcases ⊢
  obtain ⟨st', s3, hsd, g1, g2, g3, g4, g5, g6, g7, g8, f1, f2, f3, f4⟩ :=
    scrollDirect_clean_portrait fuel st dy m hor hcs0 hcs1 (by omega) ⟨by omega, by omega⟩
      hfuel
  have hnew0 := Int.emod_nonneg (st.currentScroll + dy) (show st.deviceHeight ≠ 0 by omega)
  have hnew1 := Int.emod_lt_of_pos (st.currentScroll + dy)
    (show 0 < st.deviceHeight by omega)
  refine ⟨st', DevOp.scrollCmd :: cleanBand s3 dy m, ?_, f1, ?_, ?_, f2, f3, f4⟩
  · unfold scroll
    rw [if_neg (by rw [hcan]; simp)]
    dsimp only
    rw [if_neg (fun h => Bool.false_ne_true h.2), hm]
    exact hsd
  · intro px py
    rw [painted_cmd]
    unfold cleanBand fillRectangle
    rw [g3]
    dsimp only
    rcases hcases with ⟨hpos, hmd⟩ | ⟨hneg, hmd⟩
    · rw [if_neg (by omega), if_pos hpos, g6, g7,
        wrap16_id (st.deviceHeight - m) ⟨by omega, by omega⟩,
        wrap16_id (0 + st.deviceWidth - 1) ⟨by omega, by omega⟩,
        wrap16_id (st.deviceHeight - m + m - 1) ⟨by omega, by omega⟩,
        show (0 : Int) + st.deviceWidth - 1 = s3.deviceWidth - 1 by rw [g6]; ring,
        (band_rows s3 _ (st.deviceHeight - m) (st.deviceHeight - m + m - 1) g2 g3
          (by rw [g4, g6, hw]) (by rw [g5, g7, hh]) (by rw [g6]; exact hdw0)
          (by rw [g6]; exact hdw) (by rw [g7]; exact hd) (by rw [g1]; exact hnew0)
          (by rw [g1, g7]; exact hnew1) (by omega) (by omega) (by rw [g7]; omega)).1 px py,
        g1, g6, g7]
      constructor
      · rintro ⟨h1, h2, p, hp1, hp2, hp3⟩
        refine ⟨h1, h2, p - (st.deviceHeight - m), by omega, by omega, ?_⟩
        rw [hp3, ← band_shift st.currentScroll dy st.deviceHeight (p - (st.deviceHeight - m)),
          hmd]
        congr 2
        ring
      · rintro ⟨h1, h2, k, hk1, hk2, hk3⟩
        refine ⟨h1, h2, st.deviceHeight - m + k, by omega, by omega, ?_⟩
        rw [hk3, ← band_shift st.currentScroll dy st.deviceHeight k, hmd]
    · rw [if_pos hneg, if_neg (by omega), g6,
        wrap16_id (0 + st.deviceWidth - 1) ⟨by omega, by omega⟩,
        wrap16_id (0 + m - 1) ⟨by omega, by omega⟩,
        show (0 : Int) + st.deviceWidth - 1 = s3.deviceWidth - 1 by rw [g6]; ring,
        (band_rows s3 _ 0 (0 + m - 1) g2 g3
          (by rw [g4, g6, hw]) (by rw [g5, g7, hh]) (by rw [g6]; exact hdw0)
          (by rw [g6]; exact hdw) (by rw [g7]; exact hd) (by rw [g1]; exact hnew0)
          (by rw [g1, g7]; exact hnew1) (by omega) (by omega) (by rw [g7]; omega)).1 px py,
        g1, g6, g7]
      constructor
      · rintro ⟨h1, h2, p, hp1, hp2, hp3⟩
        exact ⟨h1, h2, p, by omega, by omega, by rw [hp3, add_comm]⟩
      · rintro ⟨h1, h2, k, hk1, hk2, hk3⟩
        exact ⟨h1, h2, k, by omega, by omega, by rw [hk3, add_comm]⟩
  · intro op hop
    rcases List.mem_cons.mp hop with h | h
    · exact Or.inl h
    · right
      unfold cleanBand fillRectangle at h
      rw [g3] at h
      dsimp only at h
      rw [g8] at h
      rcases hcases with ⟨hpos, hmd⟩ | ⟨hneg, hmd⟩
      · rw [if_neg (by omega), g6, g7,
          wrap16_id (st.deviceHeight - m) ⟨by omega, by omega⟩,
          wrap16_id (0 + st.deviceWidth - 1) ⟨by omega, by omega⟩,
          wrap16_id (st.deviceHeight - m + m - 1) ⟨by omega, by omega⟩,
          show (0 : Int) + st.deviceWidth - 1 = s3.deviceWidth - 1 by rw [g6]; ring] at h
        exact (band_rows s3 _ (st.deviceHeight - m) (st.deviceHeight - m + m - 1) g2 g3
          (by rw [g4, g6, hw]) (by rw [g5, g7, hh]) (by rw [g6]; exact hdw0)
          (by rw [g6]; exact hdw) (by rw [g7]; exact hd) (by rw [g1]; exact hnew0)
          (by rw [g1, g7]; exact hnew1) (by omega) (by omega) (by rw [g7]; omega)).2 op h
      · rw [if_pos hneg, g6,
          wrap16_id (0 + st.deviceWidth - 1) ⟨by omega, by omega⟩,
          wrap16_id (0 + m - 1) ⟨by omega, by omega⟩,
          show (0 : Int) + st.deviceWidth - 1 = s3.deviceWidth - 1 by rw [g6]; ring] at h
        exact (band_rows s3 _ 0 (0 + m - 1) g2 g3
          (by rw [g4, g6, hw]) (by rw [g5, g7, hh]) (by rw [g6]; exact hdw0)
          (by rw [g6]; exact hdw) (by rw [g7]; exact hd) (by rw [g1]; exact hnew0)
          (by rw [g1, g7]; exact hnew1) (by omega) (by omega) (by rw [g7]; omega)).2 op h

theorem scroll_clean_portrait_witness :
    ∃ st' ops, scroll 40000 demoCanvas (-3) 0 10 false true = some (st', ops) ∧
      st'.currentScroll = (demoCanvas.currentScroll + (-3)) % demoCanvas.deviceHeight ∧
      (∀ px py, painted ops px py ↔
        (0 ≤ px ∧ px < demoCanvas.deviceWidth ∧
          ∃ k, 0 ≤ k ∧ k < |(-3 : Int)| ∧
            py = ((if (-3 : Int) > 0 then demoCanvas.currentScroll
              else (demoCanvas.currentScroll + (-3)) % demoCanvas.deviceHeight) + k) %
                demoCanvas.deviceHeight)) ∧
      (∀ op ∈ ops, op = DevOp.scrollCmd ∨
        ∃ a b c e, op = DevOp.quickFill (demoCanvas.background.convertTo565 : Int) a b c e) ∧
      st'.foreground = demoCanvas.foreground ∧
      st'.relativeOrigin = demoCanvas.relativeOrigin ∧
      st'.scrollCleanMode = false :=
  scroll_clean_portrait 40000 demoCanvas (-3) 0 10 (by decide) (by decide) (by decide)
    (by decide) (by decide) (by decide) (by decide) (by decide) (by decide) (by decide)
    (by decide) (by decide)

/-! ## Antialiased glyphs: coverage bytes -/

theorem low6 (b : Nat) (hb : b ≤ 0x3f) : (0xc0 &&& b) = 0 ∧ (0xff &&& (b * 4)) % 256 = 4 * b := by
  interval_cases b <;> exact ⟨rfl, rfl⟩

theorem cell_coords (ctr ext : Int) (h0 : 0 ≤ ctr) (h1 : ctr ≤ 32767) (he : 0 < ext) :
    wrap16 (ctr.tmod ext) = ctr % ext ∧ wrap16 (ctr.tdiv ext) = ctr / ext := by
  have hm0 := Int.emod_nonneg ctr (show ext ≠ 0 by omega)
  have hm1 := Int.emod_lt_of_pos ctr he
  have hd0 : 0 ≤ ctr / ext := Int.ediv_nonneg h0 (by omega)
  have hd1 : ctr / ext ≤ ctr := Int.ediv_le_self _ h0
  rw [Int.tmod_eq_emod h0 (by omega), Int.tdiv_eq_ediv h0 (by omega)]
  have hle : ctr % ext ≤ ctr := by
    have := Int.emod_add_ediv ctr ext
    have hp : 0 ≤ ext * (ctr / ext) := Int.mul_nonneg (by omega) hd0
    omega
  exact ⟨wrap16_id _ ⟨by omega, by omega⟩, wrap16_id _ ⟨by omega, by omega⟩⟩

theorem painted_append (a b : List DevOp) (px py : Int) :
    painted (a ++ b) px py ↔ painted a px py ∨ painted b px py := by
  simp [painted, List.mem_append, or_and_right, exists_or]

/-- Quotient and remainder of the index of the cell `t` of the line `cross`. -/
theorem divmod_cell (cross ext t : Int) (h0 : 0 ≤ t) (h1 : t < ext) :
    (cross * ext + t) / ext = cross ∧ (cross * ext + t) % ext = t := by
  have he : ext ≠ 0 := by omega
  constructor
  · rw [add_comm, Int.add_mul_ediv_right _ _ he, Int.ediv_eq_zero_of_lt h0 h1, zero_add]
  · rw [add_comm, Int.add_mul_emod_self, Int.emod_eq_of_lt h0 h1]

/-- The lines of a glyph: a run that ends inside the glyph leaves its last line
inside the glyph. -/
theorem line_inside (cross ext oth n : Int) (he : 0 < ext) (hn : 1 ≤ n)
    (h : cross * ext + n ≤ ext * oth) : cross < oth := by
  by_contra hc
  have h1 : oth ≤ cross := by omega
  have h2 : ext * oth ≤ cross * ext := by
    rw [mul_comm cross ext]
    exact Int.mul_le_mul_of_nonneg_left h1 (by omega)
  omega

/-- The run loop of an antialiased glyph paints the `len` cells that follow the
cell `a` of the line `cross`, passing to the next line at the end of a line. -/
theorem drawRun_painted (ext oth : Int) (seg : Int → Int → Int → List DevOp)
    (cx cy : Int → Int → Int) (he : 0 < ext) (ho : oth ≤ 32767)
    (hseg : ∀ cross a b, 0 ≤ cross → cross < oth → 0 ≤ a → a ≤ b → b < ext →
      ∀ px py, painted (seg cross a b) px py ↔
        ∃ t, a ≤ t ∧ t ≤ b ∧ px = cx cross t ∧ py = cy cross t) :
    ∀ (fuel : Nat) (a cross len ctr : Int), 0 ≤ a → a < ext → 0 ≤ cross → 1 ≤ len →
      len ≤ 32767 → cross * ext + a + len ≤ ext * oth → len.toNat < fuel →
      ∃ r, drawRun ext seg (-1) false fuel a cross len ctr = some r ∧
        ∀ px py, painted r.1 px py ↔
          ∃ k, cross * ext + a ≤ k ∧ k < cross * ext + a + len ∧
            px = cx (k / ext) (k % ext) ∧ py = cy (k / ext) (k % ext) := by
  intro fuel
  induction fuel with
  | zero => intro a cross len ctr _ _ _ _ _ _ h; omega
  | succ fuel ih =>
    intro a cross len ctr ha0 ha1 hc0 hl1 hl2 hin hf
    have hcross : cross < oth := line_inside cross ext oth (a + len) he (by omega)
      (by rw [← add_assoc]; exact hin)
    unfold drawRun
    by_cases hc : a + len > ext
    · rw [if_pos hc]
      have hw : wrap16 (len - (ext - a)) = len - (ext - a) :=
        wrap16_id _ ⟨by omega, by omega⟩
      have hnext : (cross + 1) * ext + 0 + (len - (ext - a)) ≤ ext * oth := by
        have : (cross + 1) * ext = cross * ext + ext := by ring
        omega
      have hcross2 : cross + 1 < oth := line_inside (cross + 1) ext oth (len - (ext - a)) he
        (by omega) (by omega)
      have hw2 : wrap16 (cross + 1) = cross + 1 := wrap16_id _ ⟨by omega, by omega⟩
      rw [hw, hw2]
      obtain ⟨r, hr, hp⟩ := ih 0 (cross + 1) (len - (ext - a)) ctr (by omega) he (by omega)
        (by omega) (by omega) hnext (by omega)
      simp only [Bool.false_eq_true, if_false] at hr ⊢
      rw [hr]
      refine ⟨_, rfl, fun px py => ?_⟩
      dsimp only
      rw [painted_append, hp px py,
        hseg cross a (ext + -1) hc0 hcross ha0 (by omega) (by omega) px py]
      have hprod : (cross + 1) * ext = cross * ext + ext := by ring
      constructor
      · rintro (⟨t, ht1, ht2, hx, hy⟩ | ⟨k, hk1, hk2, hx, hy⟩)
        · obtain ⟨d1, d2⟩ := divmod_cell cross ext t (by omega) (by omega)
          exact ⟨cross * ext + t, by omega, by omega, by rw [d1, d2]; exact hx,
            by rw [d1, d2]; exact hy⟩
        · exact ⟨k, by omega, by omega, hx, hy⟩
      · rintro ⟨k, hk1, hk2, hx, hy⟩
        by_cases hk : k < cross * ext + ext
        · left
          obtain ⟨d1, d2⟩ := divmod_cell cross ext (k - cross * ext) (by omega) (by omega)
          rw [show cross * ext + (k - cross * ext) = k by ring] at d1 d2
          rw [d1, d2] at hx hy
          exact ⟨k - cross * ext, by omega, by omega, hx, hy⟩
        · right
          exact ⟨k, by omega, by omega, hx, hy⟩
    · rw [if_neg hc]
      refine ⟨_, rfl, fun px py => ?_⟩
      dsimp only
      rw [hseg cross a (a + len + -1) hc0 hcross ha0 (by omega) (by omega) px py]
      constructor
      · rintro ⟨t, ht1, ht2, hx, hy⟩
        obtain ⟨d1, d2⟩ := divmod_cell cross ext t (by omega) (by omega)
        exact ⟨cross * ext + t, by omega, by omega, by rw [d1, d2]; exact hx,
          by rw [d1, d2]; exact hy⟩
      · rintro ⟨k, hk1, hk2, hx, hy⟩
        obtain ⟨d1, d2⟩ := divmod_cell cross ext (k - cross * ext) (by omega) (by omega)
        rw [show cross * ext + (k - cross * ext) = k by ring] at d1 d2
        rw [d1, d2] at hx hy
        exact ⟨k - cross * ext, by omega, by omega, hx, hy⟩

theorem topBit (b : Nat) (h : (0x80 &&& b) > 0) : (0xc0 &&& b) > 0 := by
  by_contra hc
  have h0 : 0xc0 &&& b = 0 := by omega
  have e : (0x80 &&& 0xc0 : Nat) = 0x80 := by decide
  have h1 : 0x80 &&& (0xc0 &&& b) = 0x80 &&& b := by rw [← Nat.and_assoc, e]
  rw [h0, Nat.and_zero] at h1
  omega

/-- One line of a run of a glyph that lies on the canvas, with
`currentScroll = 0`: the cells `a..b` of the line `cross`. -/
theorem glyphSeg_painted (st : PixelsBase) (vraster : Bool)
    (ext oth x1 yy marginLeft marginTop : Int)
    (hcs : st.currentScroll = 0) (hW : st.width ≤ 32767) (hH : st.height ≤ 32767)
    (hx0 : 0 ≤ x1 + marginLeft)
    (hx1 : x1 + marginLeft + (if vraster then oth else ext) ≤ st.width)
    (hy0 : 0 ≤ yy + marginTop)
    (hy1 : yy + marginTop + (if vraster then ext else oth) ≤ st.height)
    (cross a b : Int) (hc0 : 0 ≤ cross) (hc1 : cross < oth) (ha : 0 ≤ a) (hab : a ≤ b)
    (hb : b < ext) (px py : Int) :
    painted (glyphSeg st vraster x1 yy marginLeft marginTop cross a b) px py ↔
      ∃ t, a ≤ t ∧ t ≤ b ∧ px = x1 + marginLeft + (if vraster then cross else t) ∧
        py = yy + marginTop + (if vraster then t else cross) := by
  unfold glyphSeg
  cases vraster
  · simp only [Bool.false_eq_true, if_false] at hx1 hy1 ⊢
    unfold hLine
    rw [wrap16_id (x1 + marginLeft + a) ⟨by omega, by omega⟩,
      wrap16_id (yy + marginTop + cross) ⟨by omega, by omega⟩,
      wrap16_id (x1 + marginLeft + b) ⟨by omega, by omega⟩,
      fill_noScroll_eq st _ _ _ _ _ hcs (by omega) (by omega) ⟨by omega, by omega⟩
        ⟨by omega, by omega⟩ ⟨by omega, by omega⟩ ⟨by omega, by omega⟩,
      if_neg (by omega), painted_single]
    constructor
    · intro h
      exact ⟨px - (x1 + marginLeft), by omega, by omega, by omega, by omega⟩
    · rintro ⟨t, h1, h2, h3, h4⟩
      omega
  · simp only [if_true] at hx1 hy1 ⊢
    unfold vLine
    rw [wrap16_id (x1 + marginLeft + cross) ⟨by omega, by omega⟩,
      wrap16_id (yy + marginTop + a) ⟨by omega, by omega⟩,
      wrap16_id (yy + marginTop + b) ⟨by omega, by omega⟩,
      fill_noScroll_eq st _ _ _ _ _ hcs (by omega) (by omega) ⟨by omega, by omega⟩
        ⟨by omega, by omega⟩ ⟨by omega, by omega⟩ ⟨by omega, by omega⟩,
      if_neg (by omega), painted_single]
    constructor
    · intro h
      exact ⟨py - (yy + marginTop), by omega, by omega, by omega, by omega⟩
    · rintro ⟨t, h1, h2, h3, h4⟩
      omega

/-- C28 as stated fails at the end of the `int16_t` range: on a glyph of 200 by
170 cells at the origin of a canvas of 240 by 320 pixels, the run byte `0xFF`
(length 63) read at the cursor 32760 leaves the cursor at -32713, not at
`32760 + 63`. -/
theorem runByte_cursor_overflow :
    flipCanvas.currentScroll = 0 ∧ (200 : Int) ≤ flipCanvas.width ∧
    (170 : Int) ≤ flipCanvas.height ∧ (32760 : Int) + 63 ≤ 200 * 170 ∧
    (aaByte 100 false false ⟨255, 255, 255⟩ 200 0 0 0 0 flipCanvas 0xff 32760).map
      (fun r => r.2.2) = some (-32713) := by
  decide

/-- C28 (amended): when `printString` decodes an antialiased glyph of positive
effective width and height that lies on the canvas, with `currentScroll = 0`,
every run byte with the top bit set and length `len = b & 0x3F ≥ 1`, read at a
cursor `ctr ≥ 0` with `ctr + len` within the glyph and within the `int16_t`
range, paints exactly the `len` glyph cells `ctr, ..., ctr+len-1` and advances
the cursor to `ctr+len`; the cell `k` lies at column `k mod effWidth` and row
`k div effWidth` for a row-major glyph, at row `k mod effHeight` and column
`k div effHeight` for a column-major one (`ext` is the extent along the raster
axis, `oth` the other one). -/
theorem runByte_cells (fuel : Nat) (vraster clean : Bool) (fg : RGB)
    (ext oth x1 yy marginLeft marginTop : Int) (st : PixelsBase) (b : Nat) (ctr : Int)
    (hb : (0x80 &&& b) > 0) (hlen : 1 ≤ (0x3f &&& b)) (he : 0 < ext)
    (hcs : st.currentScroll = 0) (hW : st.width ≤ 32767) (hH : st.height ≤ 32767)
    (hx0 : 0 ≤ x1 + marginLeft)
    (hx1 : x1 + marginLeft + (if vraster then oth else ext) ≤ st.width)
    (hy0 : 0 ≤ yy + marginTop)
    (hy1 : yy + marginTop + (if vraster then ext else oth) ≤ st.height)
    (hc0 : 0 ≤ ctr) (hin : ctr + ((0x3f &&& b : Nat) : Int) ≤ ext * oth)
    (hc1 : ctr + ((0x3f &&& b : Nat) : Int) ≤ 32767) (hf : 64 ≤ fuel) :
    ∃ ops, aaByte fuel vraster clean fg ext x1 yy marginLeft marginTop st b ctr =
        some (setColor st (if clean then st.background else fg), ops,
          ctr + ((0x3f &&& b : Nat) : Int)) ∧
      ∀ px py, painted ops px py ↔
        ∃ k, ctr ≤ k ∧ k < ctr + ((0x3f &&& b : Nat) : Int) ∧
          px = x1 + marginLeft + (if vraster then k / ext else k % ext) ∧
          py = yy + marginTop + (if vraster then k % ext else k / ext) := by
  have hl63 : (0x3f &&& b) ≤ 0x3f := Nat.and_le_left
  obtain ⟨hm, hdv⟩ := cell_coords ctr ext hc0 (by omega) he
  have hm0 := Int.emod_nonneg ctr (show ext ≠ 0 by omega)
  have hm1 := Int.emod_lt_of_pos ctr he
  have hd0 : 0 ≤ ctr / ext := Int.ediv_nonneg hc0 (by omega)
  have hsplit : ctr / ext * ext + ctr % ext = ctr := by
    rw [mul_comm]; exact Int.ediv_add_emod ctr ext
  have hoth : oth ≤ 32767 := by cases vraster <;> simp at hx1 hy1 <;> omega
  obtain ⟨r, hr, hp⟩ := drawRun_painted ext oth
    (glyphSeg (setColor st (if clean then st.background else fg)) vraster x1 yy marginLeft
      marginTop)
    (fun cross t => x1 + marginLeft + (if vraster then cross else t))
    (fun cross t => yy + marginTop + (if vraster then t else cross)) he hoth
    (fun cross a b' h1 h2 h3 h4 h5 px py =>
      glyphSeg_painted (setColor st (if clean then st.background else fg)) vraster ext oth x1
        yy marginLeft marginTop hcs hW hH hx0 hx1 hy0 hy1 cross a b' h1 h2 h3 h4 h5 px py)
    fuel (ctr % ext) (ctr / ext) ((0x3f &&& b : Nat) : Int)
    (wrap16 (ctr + ((0x3f &&& b : Nat) : Int))) hm0 hm1 hd0 (by omega) (by omega)
    (by rw [hsplit]; exact hin) (by omega)
  refine ⟨r.1, ?_, fun px py => ?_⟩
  · unfold aaByte
    rw [if_neg (by omega)]
    simp only [topBit b hb, hb, if_true, hm, hdv, hr, Option.map_some']
    rw [wrap16_id _ ⟨by omega, by omega⟩]
  · rw [hp px py, hsplit]

theorem runByte_cells_witness :
    ∃ ops, aaByte 64 false false ⟨255, 255, 255⟩ 4 2 3 0 0 demoCanvas 0x86 3 =
        some (setColor demoCanvas (if false = true then demoCanvas.background
            else ⟨255, 255, 255⟩), ops,
          3 + ((0x3f &&& 0x86 : Nat) : Int)) ∧
      ∀ px py, painted ops px py ↔
        ∃ k, 3 ≤ k ∧ k < 3 + ((0x3f &&& 0x86 : Nat) : Int) ∧
          px = 2 + 0 + (if false = true then k / 4 else k % 4) ∧
          py = 3 + 0 + (if false = true then k % 4 else k / 4) :=
  runByte_cells 64 false false ⟨255, 255, 255⟩ 4 3 2 3 0 0 demoCanvas 0x86 3 (by decide)
    (by decide) (by decide) (by decide) (by decide) (by decide) (by decide) (by decide)
    (by decide) (by decide) (by decide) (by decide) (by decide) (by decide)

/-! ## Bitmask glyphs: runs -/

/-- C29 fails on the code: in a compressed row-major bitmask glyph of effective
width 4 at `(2, 3)`, the run byte `0x81` (length 1) read at the cursor 0 is drawn
as the line from column 2 to column 3 of row 3: besides the cell 0 it paints
the cell 1; the cursor advances to 1. -/
theorem bitmaskRun_extraCell :
    (bmByte 10 false 4 2 3 0 0 demoCanvas 0x81 0).map (fun r => (r.2.1, r.2.2)) =
      some ([DevOp.quickFill 65535 2 3 3 3], 1) ∧
    (bmByte 10 false 4 2 3 0 0 demoCanvas 0x81 0).map
      (fun r => decide (painted r.2.1 (2 + 1 % 4) (3 + 1 / 4))) = some true := by
  decide

/-! ## fillRoundRectangle -/

/-- C30 fails on the code: `fillRoundRectangle(0, 0, 5, 5, 1)` with antialiasing
off paints the two bottom corner pixels `(0,4)` and `(4,4)`, while the top
corner pixels `(0,0)` and `(4,0)` stay unpainted: the test `j > height - radius`
leaves the last row without inset. -/
theorem fillRoundRectangle_bottomCorners :
    demoCanvas.antialiasing = false ∧
    (fillRoundRectangle demoCanvas (fun _ _ _ _ _ _ _ => none) 10 0 0 5 5 1).map
      (fun ops => (decide (painted ops 0 0), decide (painted ops 4 0),
        decide (painted ops 0 4), decide (painted ops 4 4))) =
      some (false, false, true, true) := by
  decide

/-! ## Ovals -/

/-- The divisor of `drawOval` and of `fillOval` is at least 1 whenever `width`
and `height` are at least 2 and not both equal to 2: the branch `width > height`
(`rx > ry` in `fillOval`) divides by `rx = (width-1)/2`, the other one by
`ry = (height-1)/2`. -/
theorem oval_divisor (width height : Int) (hw : 2 ≤ width) (hh : 2 ≤ height)
    (hw2 : width ≤ 32767) (hh2 : height ≤ 32767) (hne : ¬ (width = 2 ∧ height = 2)) :
    (if width > height then wrap16 ((width - 1).tdiv 2) else wrap16 ((height - 1).tdiv 2)) ≥ 1 ∧
    (if wrap16 ((width - 1).tdiv 2) > wrap16 ((height - 1).tdiv 2) then
      wrap16 ((width - 1).tdiv 2) else wrap16 ((height - 1).tdiv 2)) ≥ 1 := by
  have e1 : (width - 1).tdiv 2 = (width - 1) / 2 := Int.tdiv_eq_ediv (by omega) (by omega)
  have e2 : (height - 1).tdiv 2 = (height - 1) / 2 := Int.tdiv_eq_ediv (by omega) (by omega)
  rw [e1, e2, wrap16_id _ ⟨by omega, by omega⟩, wrap16_id _ ⟨by omega, by omega⟩]
  constructor <;> split_ifs <;> omega

/-- C31 fails on the code: for `width = height = 2`, which passes the guards of
both functions, `rx = ry = 0` and the first iteration of the selected loop
divides by `ry = 0`, in `drawOval` and in `fillOval`. -/
theorem oval_divides_by_zero :
    demoCanvas.antialiasing = false ∧
    wrap16 (((2 : Int) - 1).tdiv 2) = 0 ∧
    drawOval demoCanvas (fun _ _ _ _ _ _ _ => Except.ok []) 10 3 4 2 2 =
      Except.error Fault.divisionByZero ∧
    fillOval demoCanvas (fun _ _ _ _ _ _ _ => Except.ok []) 10 3 4 2 2 =
      Except.error Fault.divisionByZero := by
  refine ⟨rfl, by decide, rfl, rfl⟩

/-! ## drawCircle -/

/-- The midpoint loop keeps `f = e + 2*x1 - y1 + 1` for the error
`e = x1² + y1² - r²` of the last pixel, ends within `y1 - x1` iterations, and
every pixel it plots has an error of absolute value at most `r`. -/
theorem circleOutline_spec (r : Int) (hr1 : 1 ≤ r) (hr2 : r ≤ 8000) (fuel : Nat) :
    ∀ (f ddx ddy x1 y1 e : Int), e = x1 * x1 + y1 * y1 - r * r →
      f = e + 2 * x1 - y1 + 1 → ddx = 2 * x1 + 1 → ddy = -2 * y1 → 0 ≤ x1 → y1 ≤ r →
      (x1 < y1 → -y1 ≤ e ∧ e ≤ y1) → (y1 - x1).toNat < fuel →
      ∃ l, circleOutline fuel f ddx ddy x1 y1 = some l ∧
        ∀ o ∈ l, |o.1 * o.1 + o.2 * o.2 - r * r| ≤ r := by
  induction fuel with
  | zero => intro f ddx ddy x1 y1 e _ _ _ _ _ _ _ h; omega
  | succ fuel ih =>
    intro f ddx ddy x1 y1 e he hf hdx hdy hx0 hy1 hJ hfuel
    unfold circleOutline
    by_cases hlt : x1 < y1
    · rw [if_pos hlt]
      obtain ⟨hJ1, hJ2⟩ := hJ hlt
      by_cases hfp : f ≥ 0
      · simp only [if_pos hfp]
        rw [wrap16_id (y1 - 1) ⟨by omega, by omega⟩,
          wrap16_id (ddy + 2) ⟨by omega, by omega⟩,
          wrap16_id (f + (ddy + 2)) ⟨by omega, by omega⟩,
          wrap16_id (x1 + 1) ⟨by omega, by omega⟩,
          wrap16_id (ddx + 2) ⟨by omega, by omega⟩,
          wrap16_id (f + (ddy + 2) + (ddx + 2)) ⟨by omega, by omega⟩]
        have he' : e + 2 * x1 + 1 - 2 * y1 + 1 =
            (x1 + 1) * (x1 + 1) + (y1 - 1) * (y1 - 1) - r * r := by rw [he]; ring
        obtain ⟨l, hl, hP⟩ := ih (f + (ddy + 2) + (ddx + 2)) (ddx + 2) (ddy + 2) (x1 + 1)
          (y1 - 1) (e + 2 * x1 + 1 - 2 * y1 + 1) he' (by omega) (by omega) (by omega)
          (by omega) (by omega) (fun h => ⟨by omega, by omega⟩) (by omega)
        rw [hl]
        refine ⟨_, rfl, ?_⟩
        have hb : |e + 2 * x1 + 1 - 2 * y1 + 1| ≤ r := abs_le.mpr ⟨by omega, by omega⟩
        rw [he'] at hb
        intro o ho
        rcases List.mem_append.mp ho with h8 | hrest
        · simp only [List.mem_cons, List.mem_singleton, List.not_mem_nil, or_false] at h8
          rcases h8 with rfl | rfl | rfl | rfl | rfl | rfl | rfl | rfl <;>
            (dsimp only; refine le_of_eq_of_le (congrArg _ ?_) hb; ring)
        · exact hP o hrest
      · simp only [if_neg hfp]
        rw [wrap16_id (x1 + 1) ⟨by omega, by omega⟩,
          wrap16_id (ddx + 2) ⟨by omega, by omega⟩,
          wrap16_id (f + (ddx + 2)) ⟨by omega, by omega⟩]
        have he' : e + 2 * x1 + 1 = (x1 + 1) * (x1 + 1) + y1 * y1 - r * r := by rw [he]; ring
        obtain ⟨l, hl, hP⟩ := ih (f + (ddx + 2)) (ddx + 2) ddy (x1 + 1) y1 (e + 2 * x1 + 1)
          he' (by omega) (by omega) (by omega) (by omega) (by omega)
          (fun h => ⟨by omega, by omega⟩) (by omega)
        rw [hl]
        refine ⟨_, rfl, ?_⟩
        have hb : |e + 2 * x1 + 1| ≤ r := abs_le.mpr ⟨by omega, by omega⟩
        rw [he'] at hb
        intro o ho
        rcases List.mem_append.mp ho with h8 | hrest
        · simp only [List.mem_cons, List.mem_singleton, List.not_mem_nil, or_false] at h8
          rcases h8 with rfl | rfl | rfl | rfl | rfl | rfl | rfl | rfl <;>
            (dsimp only; refine le_of_eq_of_le (congrArg _ ?_) hb; ring)
        · exact hP o hrest
    · rw [if_neg hlt]
      exact ⟨[], rfl, fun o ho => by simp at ho⟩

theorem offset_small (a b r : Int) (hr : 0 ≤ r) (h : |a * a + b * b - r * r| ≤ r) :
    -r ≤ a ∧ a ≤ r := by
  have h2 := (abs_le.mp h).2
  have hb : 0 ≤ b * b := mul_self_nonneg b
  constructor
  · by_contra hc
    have h1 : r + 1 ≤ -a := by omega
    have h3 : (r + 1) * (r + 1) ≤ (-a) * (-a) := mul_self_le_mul_self (by omega) h1
    nlinarith
  · by_contra hc
    have h1 : r + 1 ≤ a := by omega
    have h3 : (r + 1) * (r + 1) ≤ a * a := mul_self_le_mul_self (by omega) h1
    nlinarith

/-- A rectangle with ordered corners that misses the canvas is not drawn. -/
theorem fillOrdered_miss (st : PixelsBase) (color lx ly ux uy : Int) (hx : lx ≤ ux)
    (hy : ly ≤ uy) (hm : lx ≥ st.width ∨ ly ≥ st.height ∨ ux < 0 ∨ uy < 0) :
    fillOrdered st color lx ly ux uy = [] := by
  unfold fillOrdered
  by_cases c1 : lx ≥ st.width
  · rw [if_pos c1]
  rw [if_neg c1]
  by_cases c2 : ly ≥ st.height
  · rw [if_pos c2]
  rw [if_neg c2]
  by_cases c3 : ux < 0
  · rw [if_pos ⟨by omega, c3⟩]
  rw [if_neg (fun h => c3 h.2)]
  have c4 : uy < 0 := by omega
  dsimp only
  rw [if_pos ⟨by omega, c4⟩]

/-- Clip mode with a non-zero scroll offset, ordered corners meeting the canvas:
the rectangle is cut at the scroll edge along the scroll axis and at the canvas
border along the other axis. -/
theorem fillOrdered_clip (st : PixelsBase) (color lx ly ux uy : Int)
    (hro : st.relativeOrigin = true) (hcs0 : 0 < st.currentScroll)
    (hcs1 : st.currentScroll ≤ 32767) (hW : st.width ≤ 32767) (hH : st.height ≤ 32767)
    (hlx : -32768 ≤ lx) (hly : -32768 ≤ ly)
    (i1 : lx < st.width) (i2 : ly < st.height) (i3 : 0 ≤ ux) (i4 : 0 ≤ uy) :
    fillOrdered st color lx ly ux uy =
      if st.landscape then
        (if ux ≥ st.currentScroll ∧ max lx 0 ≥ st.currentScroll then []
          else [DevOp.quickFill color (max lx 0) (max ly 0)
            (if ux ≥ st.currentScroll then st.currentScroll - 1 else ux)
            (min uy (st.height - 1))])
      else
        (if uy ≥ st.currentScroll ∧ max ly 0 ≥ st.currentScroll then []
          else [DevOp.quickFill color (max lx 0) (max ly 0) (min ux (st.width - 1))
            (if uy ≥ st.currentScroll then st.currentScroll - 1 else uy)]) := by
  have e1 : (if lx < 0 then 0 else lx) = max lx 0 := by split_ifs <;> omega
  have e2 : (if ly < 0 then 0 else ly) = max ly 0 := by split_ifs <;> omega
  have e3 : (if ux ≥ st.width then wrap16 (st.width - 1) else ux) = min ux (st.width - 1) := by
    unfold wrap16; split_ifs <;> omega
  have e4 : (if uy ≥ st.height then wrap16 (st.height - 1) else uy) =
      min uy (st.height - 1) := by
    unfold wrap16; split_ifs <;> omega
  have e5 : wrap16 (st.currentScroll - 1) = st.currentScroll - 1 :=
    wrap16_id _ ⟨by omega, by omega⟩
  unfold fillOrdered
  rw [if_neg (by omega), if_neg (by omega), if_neg (by omega), if_neg (by omega)]
  simp only [e1, e2, e3, e4, e5]
  rw [if_pos (Or.inl hro), if_pos (by omega)]

/-- The dimensions of a canvas that satisfies the state invariant. -/
theorem stateInv_dims (st : PixelsBase) (hinv : StateInv st) (hdw0 : 0 < st.deviceWidth)
    (hdw : st.deviceWidth ≤ 32767) (hdh : st.deviceHeight ≤ 32767) :
    0 < st.width ∧ st.width ≤ 32767 ∧ 0 < st.height ∧ st.height ≤ 32767 ∧
    ((st.landscape = true ∧ st.width = st.deviceHeight ∧
        (st.orientation = Orientation.LANDSCAPE ∨
          st.orientation = Orientation.LANDSCAPE_FLIP)) ∨
      (st.landscape = false ∧ st.height = st.deviceHeight ∧
        (st.orientation = Orientation.PORTRAIT ∨
          st.orientation = Orientation.PORTRAIT_FLIP))) := by
  obtain ⟨hcs0, hcs1, hL, hP⟩ := hinv
  cases ho : st.orientation
  · obtain ⟨a, b, c⟩ := hP (Or.inl ho)
    exact ⟨by omega, by omega, by omega, by omega, Or.inr ⟨a, c, Or.inl rfl⟩⟩
  · obtain ⟨a, b, c⟩ := hL (Or.inl ho)
    exact ⟨by omega, by omega, by omega, by omega, Or.inl ⟨a, b, Or.inl rfl⟩⟩
  · obtain ⟨a, b, c⟩ := hP (Or.inr ho)
    exact ⟨by omega, by omega, by omega, by omega, Or.inr ⟨a, c, Or.inr rfl⟩⟩
  · obtain ⟨a, b, c⟩ := hL (Or.inr ho)
    exact ⟨by omega, by omega, by omega, by omega, Or.inl ⟨a, b, Or.inr rfl⟩⟩

/-- With ordered corners, every rectangle written lies on the canvas and has
ordered corners. -/
theorem fillOrdered_inside (st : PixelsBase) (color lx ly ux uy : Int)
    (hinv : StateInv st) (hdw0 : 0 < st.deviceWidth) (hdw : st.deviceWidth ≤ 32767)
    (hdh : st.deviceHeight ≤ 32767)
    (hwrap : st.relativeOrigin = false → st.deviceHeight ≤ 16384)
    (hx : lx ≤ ux) (hy : ly ≤ uy) (hlx : -32768 ≤ lx) (hly : -32768 ≤ ly)
    (hux : ux ≤ 32767) (huy : uy ≤ 32767) :
    ∀ op ∈ fillOrdered st color lx ly ux uy, ∃ a b c e, op = DevOp.quickFill color a b c e ∧
      0 ≤ a ∧ a ≤ c ∧ c < st.width ∧ 0 ≤ b ∧ b ≤ e ∧ e < st.height := by
  obtain ⟨hw0, hw1, hh0, hh1, hdims⟩ := stateInv_dims st hinv hdw0 hdw hdh
  obtain ⟨hcs0, hcs1, _, _⟩ := hinv
  by_cases hm : lx ≥ st.width ∨ ly ≥ st.height ∨ ux < 0 ∨ uy < 0
  · rw [fillOrdered_miss st color lx ly ux uy hx hy hm]
    intro op hop
    simp at hop
  by_cases hz : st.currentScroll = 0
  · rw [fillOrdered_noScroll_eq st color lx ly ux uy hz hw0 hh0 hx hy hux huy, if_neg hm]
    intro op hop
    simp only [List.mem_singleton] at hop
    exact ⟨_, _, _, _, hop, by omega⟩
  have hcs : 0 < st.currentScroll := by omega
  cases hro : st.relativeOrigin
  · have hd := hwrap hro
    rcases hdims with ⟨hl, hwd, hor⟩ | ⟨hl, hhd, hor⟩
    · have hexp := fillOrdered_wrap_landscape st color lx ly ux uy hro hcs hcs1 hd hor hwd hh0
        huy (by omega) (by omega) (by omega) (by omega)
      have hr1 := Int.emod_nonneg (max lx 0 + st.currentScroll)
        (show st.deviceHeight ≠ 0 by omega)
      have hr2 := Int.emod_lt_of_pos (max lx 0 + st.currentScroll)
        (show 0 < st.deviceHeight by omega)
      have hr3 := Int.emod_nonneg (min ux (st.deviceHeight - 1) + st.currentScroll)
        (show st.deviceHeight ≠ 0 by omega)
      have hr4 := Int.emod_lt_of_pos (min ux (st.deviceHeight - 1) + st.currentScroll)
        (show 0 < st.deviceHeight by omega)
      obtain ⟨_, _, r3, _, _⟩ := split_spec _ color _ _ _ _ st.deviceHeight false hexp
        (show max ly 0 ≤ min uy (st.height - 1) by omega) hr1 hr2 hr3 hr4
      simp only [Bool.false_eq_true, if_false] at r3
      intro op hop
      obtain ⟨a, b, c, e, h1, h2⟩ := r3 op hop
      exact ⟨a, b, c, e, h1, by omega⟩
    · have hexp := fillOrdered_wrap_portrait st color lx ly ux uy hro hcs hcs1 hd hor hhd hw0
        hux (by omega) (by omega) (by omega) (by omega)
      have hr1 := Int.emod_nonneg (max ly 0 + st.currentScroll)
        (show st.deviceHeight ≠ 0 by omega)
      have hr2 := Int.emod_lt_of_pos (max ly 0 + st.currentScroll)
        (show 0 < st.deviceHeight by omega)
      have hr3 := Int.emod_nonneg (min uy (st.deviceHeight - 1) + st.currentScroll)
        (show st.deviceHeight ≠ 0 by omega)
      have hr4 := Int.emod_lt_of_pos (min uy (st.deviceHeight - 1) + st.currentScroll)
        (show 0 < st.deviceHeight by omega)
      obtain ⟨_, _, r3, _, _⟩ := split_spec _ color _ _ _ _ st.deviceHeight true hexp
        (show max lx 0 ≤ min ux (st.width - 1) by omega) hr1 hr2 hr3 hr4
      simp only [if_true] at r3
      intro op hop
      obtain ⟨a, b, c, e, h1, h2⟩ := r3 op hop
      exact ⟨a, b, c, e, h1, by omega⟩
  · rw [fillOrdered_clip st color lx ly ux uy hro hcs (by omega) hw1 hh1 hlx hly (by omega)
      (by omega) (by omega) (by omega)]
    rcases hdims with ⟨hl, hwd, hor⟩ | ⟨hl, hhd, hor⟩
    · rw [hl, if_pos rfl]
      split_ifs with hc1 hc2
      · intro op hop; simp at hop
      · intro op hop
        simp only [List.mem_singleton] at hop
        exact ⟨_, _, _, _, hop, by omega⟩
      · intro op hop
        simp only [List.mem_singleton] at hop
        exact ⟨_, _, _, _, hop, by omega⟩
    · rw [hl, if_neg (by simp)]
      split_ifs with hc1 hc2
      · intro op hop; simp at hop
      · intro op hop
        simp only [List.mem_singleton] at hop
        exact ⟨_, _, _, _, hop, by omega⟩
      · intro op hop
        simp only [List.mem_singleton] at hop
        exact ⟨_, _, _, _, hop, by omega⟩

/-- C32 as stated fails in two ways.  On a wrap-mode portrait canvas of 20000
rows scrolled by 19999, which satisfies the state invariant, `fill` passes a
rectangle at row -5538 to `quickFill` (the sum 39998 does not fit the `int16_t`
corner).  On a canvas of width 0, which satisfies it as well, `fill` passes the
rectangle from column 0 to column -1. -/
theorem fill_outside_panel :
    StateInv tallCanvas ∧
    fill tallCanvas 0 0 19999 0 19999 = [DevOp.quickFill 0 0 (-5538) 0 (-5538)] ∧
    StateInv emptyCanvas ∧
    fill emptyCanvas 0 (-1) 0 5 0 = [DevOp.quickFill 0 0 0 (-1) 0] := by
  decide

/-- C32 (amended): if the canvas state satisfies the state invariant, its
dimensions are positive `int16_t` values and, in wrap mode, `deviceHeight ≤
16384` (so that a coordinate plus the scroll offset fits an `int16_t`), then for
all arguments and both addressing modes every rectangle that `fill` passes to
`quickFill` satisfies `0 ≤ x1 ≤ x2 < width` and `0 ≤ y1 ≤ y2 < height`. -/
theorem fill_inside (st : PixelsBase) (color x1 y1 x2 y2 : Int)
    (hinv : StateInv st) (hdw0 : 0 < st.deviceWidth) (hdw : st.deviceWidth ≤ 32767)
    (hdh : st.deviceHeight ≤ 32767)
    (hwrap : st.relativeOrigin = false → st.deviceHeight ≤ 16384)
    (hx1 : I16 x1) (hy1 : I16 y1) (hx2 : I16 x2) (hy2 : I16 y2) :
    ∀ op ∈ fill st color x1 y1 x2 y2, ∃ a b c e, op = DevOp.quickFill color a b c e ∧
      0 ≤ a ∧ a ≤ c ∧ c < st.width ∧ 0 ≤ b ∧ b ≤ e ∧ e < st.height := by
  unfold I16 at hx1 hy1 hx2 hy2
  rw [fill_canon]
  exact fillOrdered_inside st color _ _ _ _ hinv hdw0 hdw hdh hwrap (by omega) (by omega)
    (by omega) (by omega) (by omega) (by omega)

theorem fill_inside_witness :
    ∃ a b c e, DevOp.quickFill 7 2 18 5 19 = DevOp.quickFill 7 a b c e ∧
      0 ≤ a ∧ a ≤ c ∧ c < scrolledCanvas.width ∧ 0 ≤ b ∧ b ≤ e ∧ e < scrolledCanvas.height :=
  fill_inside scrolledCanvas 7 2 3 5 8 (by decide) (by decide) (by decide) (by decide)
    (by decide) (by decide) (by decide) (by decide) (by decide)
    (DevOp.quickFill 7 2 18 5 19) (by decide)

/-! ## Single pixels: hLine, vLine and drawPixel -/

/-- C33 as stated fails in wrap mode, on either width of `int`: `fill` adds the
scroll offset in 16 bits, `drawPixel` in `int`.  With a 32-bit `int`, on the
portrait canvas of 20000 rows scrolled by 19999, `drawPixel(0, 19999)` writes
the device pixel `(0, 19998)`, while `hLine(0, 19999, 0)` and
`vLine(0, 19999, 19999)` write the rectangle at row -5538.  With a 16-bit `int`,
on the portrait canvas of 16000 rows scrolled by 15999, `drawPixel(0, 15999)`
writes at row -1538 (the sum `y + deviceHeight + currentScroll` does not fit),
while `hLine(0, 15999, 0)` and `vLine(0, 15999, 15999)` write the rectangle at
row 15998. -/
theorem line_pixel_mismatch :
    (StateInv tallCanvas32 ∧ tallCanvas32.scrollCleanMode = false ∧
      (0 : Int) < tallCanvas32.width ∧ (19999 : Int) < tallCanvas32.height ∧
      drawPixel tallCanvas32 0 19999 = writePixel tallCanvas32 0 19998 ∧
      hLine tallCanvas32 0 19999 0 = [DevOp.quickFill 65535 0 (-5538) 0 (-5538)] ∧
      vLine tallCanvas32 0 19999 19999 = [DevOp.quickFill 65535 0 (-5538) 0 (-5538)]) ∧
    (StateInv midCanvas ∧ midCanvas.scrollCleanMode = false ∧
      (0 : Int) < midCanvas.width ∧ (15999 : Int) < midCanvas.height ∧
      drawPixel midCanvas 0 15999 = writePixel midCanvas 0 (-1538) ∧
      hLine midCanvas 0 15999 0 = [DevOp.quickFill 65535 0 15998 0 15998] ∧
      vLine midCanvas 0 15999 15999 = [DevOp.quickFill 65535 0 15998 0 15998]) := by
  decide

/-- The scroll mapping of `drawPixel`, computed in `int`, where the sum fits. -/
theorem pixelMap (w : IntWidth) (v cs d : Int) (hv0 : 0 ≤ v) (hv1 : v < d) (hcs0 : 0 ≤ cs)
    (hcs1 : cs < d) (hd : d ≤ 32767) (hfit : v + d + cs ≤ w.intMax) :
    wrap16 ((wrapInt w (v + d + cs)).tmod d) = (v + cs) % d := by
  have hr0 := Int.emod_nonneg (v + cs) (show d ≠ 0 by omega)
  have hr1 := Int.emod_lt_of_pos (v + cs) (show 0 < d by omega)
  rw [wrapInt_small w _ (by omega) hfit, Int.tmod_eq_emod (by omega) (by omega),
    show v + d + cs = v + cs + d by ring, Int.add_emod_self]
  exact wrap16_id _ ⟨by omega, by omega⟩

/-- C33 (amended): under the state invariant, with positive `int16_t` canvas
dimensions, `scrollCleanMode` off and, in wrap mode, `deviceHeight ≤ 16384` (so
that a coordinate plus the scroll offset fits an `int16_t`) and
`3*deviceHeight - 2 ≤ INT_MAX` (so that the sum of `drawPixel` fits an `int`:
`deviceHeight ≤ 10923` on a 16-bit `int`), for every in-bounds
`(x, y)`, in clip mode and in wrap mode and for every scroll offset: either
`drawPixel(x,y)`, `hLine(x,y,x)` and `vLine(x,y,y)` all write nothing, or
`drawPixel` writes one pixel word carrying the packed foreground colour at a
device coordinate `(dx, dy)` and `hLine` and `vLine` each write the one-pixel
rectangle at `(dx, dy)` in that colour. -/
theorem line_pixel_agree (st : PixelsBase) (x y : Int)
    (hinv : StateInv st) (hdw0 : 0 < st.deviceWidth) (hdw : st.deviceWidth ≤ 32767)
    (hdh : st.deviceHeight ≤ 32767)
    (hwrap : st.relativeOrigin = false →
      st.deviceHeight ≤ 16384 ∧ 3 * st.deviceHeight - 2 ≤ st.intWidth.intMax)
    (hclean : st.scrollCleanMode = false)
    (hx0 : 0 ≤ x) (hx1 : x < st.width) (hy0 : 0 ≤ y) (hy1 : y < st.height) :
    (drawPixel st x y = [] ∧ hLine st x y x = [] ∧ vLine st x y y = []) ∨
    (∃ dx dy hi lo,
      drawPixel st x y =
        [DevOp.chipSelect, DevOp.setRegion dx dy dx dy, DevOp.deviceWriteData hi lo,
          DevOp.chipDeselect] ∧
      hi < 256 ∧ lo < 256 ∧ hi * 256 + lo = st.foreground.convertTo565 ∧
      hLine st x y x = [DevOp.quickFill (st.foreground.convertTo565 : Int) dx dy dx dy] ∧
      vLine st x y y = [DevOp.quickFill (st.foreground.convertTo565 : Int) dx dy dx dy]) := by
  obtain ⟨hw0, hw1, hh0, hh1, hdims⟩ := stateInv_dims st hinv hdw0 hdw hdh
  obtain ⟨hcs0, hcs1, _, _⟩ := hinv
  obtain ⟨w1, w2, w3⟩ := pixelWord st.foreground
  have hin : ¬ (x < 0 ∨ y < 0 ∨ x ≥ st.width ∨ y ≥ st.height) := by omega
  have hv : vLine st x y y = hLine st x y x := rfl
  have hfill : hLine st x y x =
      fillOrdered st (st.foreground.convertTo565 : Int) x y x y := by
    unfold hLine
    rw [fill_canon, min_self, min_self, max_self, max_self]
  rw [hv, hfill]
  by_cases hz : st.currentScroll = 0
  · right
    rw [fillOrdered_noScroll_eq st _ x y x y hz hw0 hh0 (le_refl _) (le_refl _) (by omega)
      (by omega), if_neg (by omega)]
    have hq : [DevOp.quickFill (st.foreground.convertTo565 : Int) (max x 0) (max y 0)
        (min x (st.width - 1)) (min y (st.height - 1))] =
        [DevOp.quickFill (st.foreground.convertTo565 : Int) x y x y] :=
      quickFill_congr _ _ _ _ _ _ _ _ _ (by omega) (by omega) (by omega) (by omega)
    rw [hq]
    refine ⟨x, y, _, _, ?_, w1, w2, w3, rfl, rfl⟩
    unfold drawPixel
    rw [if_neg hin, hz]
    cases hro : st.relativeOrigin
    · simp only [Bool.false_eq_true, if_false, add_zero]
      obtain ⟨hd1, hd2⟩ := hwrap hro
      rcases hdims with ⟨hl, hwd, _⟩ | ⟨hl, hhd, _⟩
      · have hp := pixelMap st.intWidth x 0 st.deviceHeight hx0 (by omega) (le_refl _)
          (by omega) hdh (by omega)
        rw [add_zero, add_zero, Int.emod_eq_of_lt hx0 (by omega)] at hp
        simp only [hl, if_true, hp]
        exact writePixel_eq st x y
      · have hp := pixelMap st.intWidth y 0 st.deviceHeight hy0 (by omega) (le_refl _)
          (by omega) hdh (by omega)
        rw [add_zero, add_zero, Int.emod_eq_of_lt hy0 (by omega)] at hp
        simp only [hl, Bool.false_eq_true, if_false, hp]
        exact writePixel_eq st x y
    · simp only [if_true, ne_eq, not_true_eq_false, if_false]
      exact writePixel_eq st x y
  have hcs : 0 < st.currentScroll := by omega
  cases hro : st.relativeOrigin
  · right
    obtain ⟨hd, hd2⟩ := hwrap hro
    rcases hdims with ⟨hl, hwd, hor⟩ | ⟨hl, hhd, hor⟩
    · rw [fillOrdered_wrap_landscape st _ x y x y hro hcs hcs1 hd hor hwd hh0 (by omega)
        hx1 hy1 hx0 hy0,
        show max x 0 = x by omega, show min x (st.deviceHeight - 1) = x by omega,
        show max y 0 = y by omega, show min y (st.height - 1) = y by omega,
        if_neg (lt_irrefl _)]
      refine ⟨(x + st.currentScroll) % st.deviceHeight, y, _, _, ?_, w1, w2, w3, rfl, rfl⟩
      unfold drawPixel
      rw [if_neg hin]
      simp only [hro, hl, Bool.false_eq_true, if_false, if_true,
        pixelMap st.intWidth x st.currentScroll st.deviceHeight hx0 (by omega) hcs0 hcs1 hdh
          (by omega)]
      exact writePixel_eq st _ _
    · rw [fillOrdered_wrap_portrait st _ x y x y hro hcs hcs1 hd hor hhd hw0 (by omega)
        hx1 hy1 hx0 hy0,
        show max x 0 = x by omega, show min x (st.width - 1) = x by omega,
        show max y 0 = y by omega, show min y (st.deviceHeight - 1) = y by omega,
        if_neg (lt_irrefl _)]
      refine ⟨x, (y + st.currentScroll) % st.deviceHeight, _, _, ?_, w1, w2, w3, rfl, rfl⟩
      unfold drawPixel
      rw [if_neg hin]
      simp only [hro, hl, Bool.false_eq_true, if_false,
        pixelMap st.intWidth y st.currentScroll st.deviceHeight hy0 (by omega) hcs0 hcs1 hdh
          (by omega)]
      exact writePixel_eq st _ _
  · rw [fillOrdered_clip st _ x y x y hro hcs (by omega) hw1 hh1 (by omega) (by omega) hx1 hy1
      hx0 hy0]
    unfold drawPixel
    rw [if_neg hin, hro, if_pos rfl, if_pos (by omega)]
    rcases hdims with ⟨hl, hwd, _⟩ | ⟨hl, hhd, _⟩
    · simp only [hl, if_true]
      by_cases hc : x ≥ st.currentScroll
      · left
        rw [if_pos (show (st.scrollCleanMode = false ∧ x = st.currentScroll) ∨
            x > st.currentScroll by
              rcases lt_or_eq_of_le hc with h | h
              · exact Or.inr h
              · exact Or.inl ⟨hclean, h.symm⟩),
          if_pos ⟨hc, by omega⟩]
        exact ⟨rfl, rfl, rfl⟩
      · right
        rw [if_neg (show ¬ ((st.scrollCleanMode = false ∧ x = st.currentScroll) ∨
            x > st.currentScroll) by omega),
          if_neg (fun h => hc h.1), if_neg hc,
          show max x 0 = x by omega, show max y 0 = y by omega,
          show min y (st.height - 1) = y by omega]
        exact ⟨x, y, _, _, writePixel_eq st x y, w1, w2, w3, rfl, rfl⟩
    · simp only [hl, Bool.false_eq_true, if_false]
      by_cases hc : y ≥ st.currentScroll
      · left
        rw [if_pos (show (st.scrollCleanMode = false ∧ y = st.currentScroll) ∨
            y > st.currentScroll by
              rcases lt_or_eq_of_le hc with h | h
              · exact Or.inr h
              · exact Or.inl ⟨hclean, h.symm⟩),
          if_pos ⟨hc, by omega⟩]
        exact ⟨rfl, rfl, rfl⟩
      · right
        rw [if_neg (show ¬ ((st.scrollCleanMode = false ∧ y = st.currentScroll) ∨
            y > st.currentScroll) by omega),
          if_neg (fun h => hc h.1), if_neg hc,
          show max x 0 = x by omega, show max y 0 = y by omega,
          show min x (st.width - 1) = x by omega]
        exact ⟨x, y, _, _, writePixel_eq st x y, w1, w2, w3, rfl, rfl⟩

theorem line_pixel_agree_witness :
    (drawPixel scrolledCanvas 2 18 = [] ∧ hLine scrolledCanvas 2 18 2 = [] ∧
      vLine scrolledCanvas 2 18 18 = []) ∨
    (∃ dx dy hi lo,
      drawPixel scrolledCanvas 2 18 =
        [DevOp.chipSelect, DevOp.setRegion dx dy dx dy, DevOp.deviceWriteData hi lo,
          DevOp.chipDeselect] ∧
      hi < 256 ∧ lo < 256 ∧ hi * 256 + lo = scrolledCanvas.foreground.convertTo565 ∧
      hLine scrolledCanvas 2 18 2 =
        [DevOp.quickFill (scrolledCanvas.foreground.convertTo565 : Int) dx dy dx dy] ∧
      vLine scrolledCanvas 2 18 18 =
        [DevOp.quickFill (scrolledCanvas.foreground.convertTo565 : Int) dx dy dx dy]) :=
  line_pixel_agree scrolledCanvas 2 18 (by decide) (by decide) (by decide) (by decide)
    (by decide) (by decide) (by decide) (by decide) (by decide) (by decide)

end Pixels
